import Mathlib

/-!
The SQL parser of `src/sql/parser.go`.

A shallow embedding of `Parser` (`scan`, `unscan`, `scanIgnoreWhitespace`,
`ParseInsert`, `ParseSelect`, `Parse`) as state-passing functions, and theorems
about the statements and errors the parser returns.

The scanner and the `Token` constants are declared outside `parser.go`; they are
modelled from the specification (sections 3 and 4.1).
-/

namespace Sql

/-- Modelled from the spec: the token tags (section 3, "Token"); the `Token` type and its
constants are declared outside `parser.go`. `ILLEGAL` is taken as the zero value of the type. -/
inductive Token
  | ILLEGAL
  | EOF
  | WS
  | IDENT
  | ASTERISK
  | COMMA
  | SELECT
  | FROM
  | INSERT
  | INTO
  | VALUES
  deriving DecidableEq

/-- A token as the scanner hands it out: the tag and the literal text. -/
abbrev Tok := Token × String

/-- Whether two whitespace tokens stand next to each other in a list of tokens. -/
def adjacentWS : List Tok → Bool
  | a :: b :: r => (a.1 == Token.WS && b.1 == Token.WS) || adjacentWS (b :: r)
  | _ => false

/-- Modelled from the spec: the scanner (section 4.1), which is not in `parser.go`. It is the
sequence of tokens still to come; once they are used up every `Scan` gives the end-of-input
token, whose literal is `eof`. Contiguous whitespace is one `WS` token ("a single whitespace
token, not emitted per-character"), so no two `WS` tokens are adjacent. -/
structure Scanner where
  toks : List Tok
  eof : String
  coalesced : adjacentWS toks = false

/-- Modelled from the spec: `Scanner.Scan`, "returns the next lexical token from the input
stream, or an end-of-input token when exhausted". -/
def Scanner.Scan : Scanner → Token × String × Scanner
  | ⟨[], eof, h⟩ => (Token.EOF, eof, ⟨[], eof, h⟩)
  | ⟨t :: r, eof, h⟩ =>
    (t.1, t.2, ⟨r, eof, by cases r <;> simp_all [adjacentWS]⟩)

/-- The pushback slot `Parser.buf`: last read token, last read literal, buffer size. -/
structure Buf where
  tok : Token
  lit : String
  n : Nat

/-- The struct `Parser`. -/
structure Parser where
  s : Scanner
  buf : Buf

/-- The function `NewParser`: a parser over a fresh scanner, the slot holding Go zero values. -/
def NewParser (s : Scanner) : Parser :=
  { s := s, buf := { tok := Token.ILLEGAL, lit := "", n := 0 } }

/-- The method `Parser.scan`: the pushed back token if there is one, else the scanner's next token,
which is saved in the slot. -/
def Parser.scan (p : Parser) : Token × String × Parser :=
  if p.buf.n ≠ 0 then
    (p.buf.tok, p.buf.lit, { p with buf := { p.buf with n := 0 } })
  else
    match p.s.Scan with
    | (tok, lit, s1) => (tok, lit, { s := s1, buf := { p.buf with tok := tok, lit := lit } })

/-- The method `Parser.scanIgnoreWhitespace`: scan, and scan once more if that was a `WS` token. -/
def Parser.scanIgnoreWhitespace (p : Parser) : Token × String × Parser :=
  match p.scan with
  | (tok, lit, p1) => if tok = Token.WS then p1.scan else (tok, lit, p1)

/-- The method `Parser.unscan`: `p.buf.n = 1`. -/
def Parser.unscan (p : Parser) : Parser :=
  { p with buf := { p.buf with n := 1 } }

/-- A Go `interface{}` value of `InsertStatement`; the parser builds none. -/
inductive Iface
  | str (s : String)
  | int (i : Int)
  deriving DecidableEq

/-- The struct `SelectStatement`; a nil slice is the empty list. -/
structure SelectStatement where
  Fields : List String
  TableName : String
  deriving DecidableEq

/-- The struct `InsertStatement`; `none` is the nil map and the nil slice. -/
structure InsertStatement where
  MapValues : Option (List (String × Iface))
  Values : Option (List Iface)
  TableName : String
  deriving DecidableEq

/-- The error `fmt.Errorf(format, lit)`: its format string and its one argument, which `%q`
prints as a quoted Go string. -/
structure GoError where
  format : String
  arg : String
  deriving DecidableEq

/-- The call `fmt.Errorf` with one argument. -/
def Errorf (format : String) (lit : String) : GoError :=
  { format := format, arg := lit }

/-- The `interface{}` that `Parse` returns: nil, or the statement of a sub-parser. -/
inductive Statement
  | nil
  | select (stmt : SelectStatement)
  | insert (stmt : InsertStatement)
  deriving DecidableEq

/-- The method `Parser.ParseInsert`. The result is the statement, the error (`none` is nil) and the
parser as the call leaves it. -/
def Parser.ParseInsert (p : Parser) : InsertStatement × Option GoError × Parser :=
  let stmt : InsertStatement := { MapValues := none, Values := none, TableName := "" }
  match p.scanIgnoreWhitespace with
  | (tok1, lit1, p1) =>
    if tok1 ≠ Token.INSERT then
      (stmt, some (Errorf "found %q, expected INSERT" lit1), p1)
    else
      match p1.scanIgnoreWhitespace with
      | (tok2, lit2, p2) =>
        if tok2 ≠ Token.INTO then
          (stmt, some (Errorf "found %q, expected INTO" lit2), p2)
        else
          match p2.scanIgnoreWhitespace with
          | (tok3, lit3, p3) =>
            if tok3 ≠ Token.IDENT then
              (stmt, some (Errorf "found %q, table name cannot be a keyword" lit3), p3)
            else
              let stmt3 : InsertStatement := { stmt with TableName := lit3 }
              match p3.scanIgnoreWhitespace with
              | (tok4, lit4, p4) =>
                if tok4 ≠ Token.VALUES then
                  (stmt3, some (Errorf "found %q, expected VALUES" lit4), p4)
                else
                  (stmt3, none, p4)

/-- The `for` loop of `ParseSelect` over the comma-delimited fields, run for at most `fuel`
iterations (`none`: the bound was reached). The result is the statement, the error of a
`return` inside the loop (`none`: the loop was left by `break`), and the parser. -/
def Parser.fieldLoop : Nat → Parser → SelectStatement → Option (SelectStatement × Option GoError × Parser)
  | 0, _, _ => none
  | fuel + 1, p, stmt =>
    match p.scanIgnoreWhitespace with
    | (tok, lit, p1) =>
      if tok ≠ Token.IDENT ∧ tok ≠ Token.ASTERISK then
        some (stmt, some (Errorf "found %q, expected field" lit), p1)
      else
        let stmt1 : SelectStatement := { stmt with Fields := stmt.Fields ++ [lit] }
        match p1.scanIgnoreWhitespace with
        | (tok2, _, p2) =>
          if tok2 ≠ Token.COMMA then
            some (stmt1, none, p2.unscan)
          else
            Parser.fieldLoop fuel p2 stmt1

/-- The method `Parser.ParseSelect`. The loop is given one iteration more than the scanner has tokens
left; every iteration that goes round again takes a token from the scanner. -/
def Parser.ParseSelect (p : Parser) : Option (SelectStatement × Option GoError × Parser) :=
  let stmt : SelectStatement := { Fields := [], TableName := "" }
  match p.scanIgnoreWhitespace with
  | (tok1, lit1, p1) =>
    if tok1 ≠ Token.SELECT then
      some (stmt, some (Errorf "found %q, expected SELECT" lit1), p1)
    else
      match Parser.fieldLoop (p1.s.toks.length + 1) p1 stmt with
      | none => none
      | some (stmt2, some err, p2) => some (stmt2, some err, p2)
      | some (stmt2, none, p2) =>
        match p2.scanIgnoreWhitespace with
        | (tok3, lit3, p3) =>
          if tok3 ≠ Token.FROM then
            some (stmt2, some (Errorf "found %q, expected FROM" lit3), p3)
          else
            match p3.scanIgnoreWhitespace with
            | (tok4, lit4, p4) =>
              if tok4 ≠ Token.IDENT then
                some (stmt2, some (Errorf "found %q, expected table name" lit4), p4)
              else
                some ({ stmt2 with TableName := lit4 }, none, p4)

/-- The method `Parser.Parse`: dispatch on the first token that `scanIgnoreWhitespace` gives. The
statement after the `switch` cannot be reached: every case returns. -/
def Parser.Parse (p : Parser) : Option (Statement × Option GoError × Parser) :=
  match p.scanIgnoreWhitespace with
  | (tok, lit, p1) =>
    match tok with
    | Token.SELECT =>
      match p1.unscan.ParseSelect with
      | none => none
      | some (stmt, err, p2) => some (Statement.select stmt, err, p2)
    | Token.INSERT =>
      match p1.unscan.ParseInsert with
      | (stmt, err, p2) => some (Statement.insert stmt, err, p2)
    | _ => some (Statement.nil, some (Errorf "found %q, expected SELECT/INSERT/CREATE" lit), p1)

/-! ## Token streams -/

/-- The tokens of a list that are not whitespace, in order. -/
def stripWS (l : List Tok) : List Tok :=
  l.filter (fun t => t.1 != Token.WS)

/-- The tokens a parser has yet to read: the pushed back token, if any, then the scanner's. -/
def Parser.pending (p : Parser) : List Tok :=
  (if p.buf.n ≠ 0 then [(p.buf.tok, p.buf.lit)] else []) ++ p.s.toks

/-- The first token of a list, the end-of-input token when there is none. -/
def headTok (l : List Tok) (eof : String) : Tok :=
  l.headD (Token.EOF, eof)

/-- A field token: `IDENT` or `ASTERISK`. -/
def isField (t : Token) : Bool :=
  t == Token.IDENT || t == Token.ASTERISK

/-- The tokens `f1 , f2 , ... , fn` of a non-empty field list: the first field, then every
further field with the comma literal before it. -/
def commaSep (f : Tok) (fs : List (String × Tok)) : List Tok :=
  f :: fs.flatMap (fun cf => [(Token.COMMA, cf.1), cf.2])

/-- The literals of a field list, in order. -/
def fieldLits (f : Tok) (fs : List (String × Tok)) : List String :=
  f.2 :: fs.map (fun cf => cf.2.2)

/-- A scanner over the tokenised text `SELECT a, b FROM t`. -/
def exampleSelect : Scanner :=
  { toks := [(Token.SELECT, "SELECT"), (Token.WS, " "), (Token.IDENT, "a"), (Token.COMMA, ","),
      (Token.WS, " "), (Token.IDENT, "b"), (Token.WS, " "), (Token.FROM, "FROM"),
      (Token.WS, " "), (Token.IDENT, "t")],
    eof := "",
    coalesced := by decide }

/-- The token stream as the grammar sees it: the pending tokens that are not whitespace. -/
def Parser.view (p : Parser) : List Tok :=
  stripWS p.pending

/-- The field loop of `ParseSelect` read off the tokens that are not whitespace; the third
component is what is left of them. -/
def fieldsL (eof : String) : List Tok → SelectStatement → SelectStatement × Option GoError × List Tok
  | [], stmt => (stmt, some (Errorf "found %q, expected field" eof), [])
  | [f], stmt =>
    if f.1 ≠ Token.IDENT ∧ f.1 ≠ Token.ASTERISK then
      (stmt, some (Errorf "found %q, expected field" f.2), [])
    else
      ({ stmt with Fields := stmt.Fields ++ [f.2] }, none, [(Token.EOF, eof)])
  | f :: c :: r, stmt =>
    if f.1 ≠ Token.IDENT ∧ f.1 ≠ Token.ASTERISK then
      (stmt, some (Errorf "found %q, expected field" f.2), c :: r)
    else if c.1 ≠ Token.COMMA then
      ({ stmt with Fields := stmt.Fields ++ [f.2] }, none, c :: r)
    else
      fieldsL eof r { stmt with Fields := stmt.Fields ++ [f.2] }

/-- What `ParseSelect` returns, read off the tokens that are not whitespace. -/
def selectL (eof : String) (l : List Tok) : SelectStatement × Option GoError × List Tok :=
  if (headTok l eof).1 ≠ Token.SELECT then
    (⟨[], ""⟩, some (Errorf "found %q, expected SELECT" (headTok l eof).2), l.tail)
  else
    match fieldsL eof l.tail ⟨[], ""⟩ with
    | (stmt2, some err, v) => (stmt2, some err, v)
    | (stmt2, none, v) =>
      if (headTok v eof).1 ≠ Token.FROM then
        (stmt2, some (Errorf "found %q, expected FROM" (headTok v eof).2), v.tail)
      else if (headTok v.tail eof).1 ≠ Token.IDENT then
        (stmt2, some (Errorf "found %q, expected table name" (headTok v.tail eof).2), v.tail.tail)
      else
        ({ stmt2 with TableName := (headTok v.tail eof).2 }, none, v.tail.tail)

/-- What `ParseInsert` returns, read off the tokens that are not whitespace. -/
def insertL (eof : String) (l : List Tok) : InsertStatement × Option GoError × List Tok :=
  if (headTok l eof).1 ≠ Token.INSERT then
    (⟨none, none, ""⟩, some (Errorf "found %q, expected INSERT" (headTok l eof).2), l.tail)
  else if (headTok l.tail eof).1 ≠ Token.INTO then
    (⟨none, none, ""⟩, some (Errorf "found %q, expected INTO" (headTok l.tail eof).2),
      l.tail.tail)
  else if (headTok l.tail.tail eof).1 ≠ Token.IDENT then
    (⟨none, none, ""⟩,
      some (Errorf "found %q, table name cannot be a keyword" (headTok l.tail.tail eof).2),
      l.tail.tail.tail)
  else if (headTok l.tail.tail.tail eof).1 ≠ Token.VALUES then
    (⟨none, none, (headTok l.tail.tail eof).2⟩,
      some (Errorf "found %q, expected VALUES" (headTok l.tail.tail.tail eof).2),
      l.tail.tail.tail.tail)
  else
    (⟨none, none, (headTok l.tail.tail eof).2⟩, none, l.tail.tail.tail.tail)

/-- What `Parse` returns, read off the tokens that are not whitespace. -/
def parseL (eof : String) (l : List Tok) : Statement × Option GoError :=
  match (headTok l eof).1 with
  | Token.SELECT => (Statement.select (selectL eof l).1, (selectL eof l).2.1)
  | Token.INSERT => (Statement.insert (insertL eof l).1, (insertL eof l).2.1)
  | _ => (Statement.nil,
      some (Errorf "found %q, expected SELECT/INSERT/CREATE" (headTok l eof).2))

/-- The tokens `f1 , f2 , ... , fk ,` of `k` fields, each with the comma after it. -/
def fieldsThenComma (fs : List (Tok × String)) : List Tok :=
  fs.flatMap (fun fc => [fc.1, (Token.COMMA, fc.2)])

/-- The scanner's tokens for the text `SELECT * FROM t`. -/
def selectStar : Scanner :=
  { toks := [(Token.SELECT, "SELECT"), (Token.WS, " "), (Token.ASTERISK, "*"), (Token.WS, " "),
      (Token.FROM, "FROM"), (Token.WS, " "), (Token.IDENT, "t")],
    eof := "",
    coalesced := by decide }

/-- The parser that `ParseSelect` leaves behind on `exampleSelect`. -/
def exampleSelectDone : Parser :=
  { s := { toks := [], eof := "", coalesced := rfl },
    buf := { tok := Token.IDENT, lit := "t", n := 0 } }

/-- The scanner's tokens for the text `SELECT FROM t`. -/
def selectNoField : Scanner :=
  { toks := [(Token.SELECT, "SELECT"), (Token.WS, " "), (Token.FROM, "FROM"), (Token.WS, " "),
      (Token.IDENT, "t")],
    eof := "",
    coalesced := by decide }

/-- The scanner's tokens for the text `SELECT a, FROM t`. -/
def selectTrailingComma : Scanner :=
  { toks := [(Token.SELECT, "SELECT"), (Token.WS, " "), (Token.IDENT, "a"), (Token.COMMA, ","),
      (Token.WS, " "), (Token.FROM, "FROM"), (Token.WS, " "), (Token.IDENT, "t")],
    eof := "",
    coalesced := by decide }

/-- The scanner's tokens for the text `SELECT a b FROM t`. -/
def selectTwoNames : Scanner :=
  { toks := [(Token.SELECT, "SELECT"), (Token.WS, " "), (Token.IDENT, "a"), (Token.WS, " "),
      (Token.IDENT, "b"), (Token.WS, " "), (Token.FROM, "FROM"), (Token.WS, " "),
      (Token.IDENT, "t")],
    eof := "",
    coalesced := by decide }

/-- The scanner's tokens for the text `SELECT a FROM`, with `<EOF>` standing for the literal
of the end-of-input token. -/
def selectNoTable : Scanner :=
  { toks := [(Token.SELECT, "SELECT"), (Token.WS, " "), (Token.IDENT, "a"), (Token.WS, " "),
      (Token.FROM, "FROM")],
    eof := "<EOF>",
    coalesced := by decide }

/-- The scanner's tokens for the text `INSERT INTO t VALUES (1)`; the parenthesised value
list is three tokens the scanner does not know. -/
def insertValues : Scanner :=
  { toks := [(Token.INSERT, "INSERT"), (Token.WS, " "), (Token.INTO, "INTO"), (Token.WS, " "),
      (Token.IDENT, "t"), (Token.WS, " "), (Token.VALUES, "VALUES"), (Token.WS, " "),
      (Token.ILLEGAL, "("), (Token.ILLEGAL, "1"), (Token.ILLEGAL, ")")],
    eof := "",
    coalesced := by decide }

/-- The token `ParseInsert` expects at each of its four positions. -/
def insertExpectTok : Nat → Token
  | 0 => Token.INSERT
  | 1 => Token.INTO
  | 2 => Token.IDENT
  | _ => Token.VALUES

/-- The message of `ParseInsert` for each of its four positions. -/
def insertExpectMsg : Nat → String
  | 0 => "found %q, expected INSERT"
  | 1 => "found %q, expected INTO"
  | 2 => "found %q, table name cannot be a keyword"
  | _ => "found %q, expected VALUES"

/-- The token number `i` of a list, the end-of-input token past its end. -/
def nthTok (l : List Tok) (eof : String) (i : Nat) : Tok :=
  l.getD i (Token.EOF, eof)

/-- The scanner's tokens for the text `INSERT INTO SELECT VALUES`. -/
def insertKeyword : Scanner :=
  { toks := [(Token.INSERT, "INSERT"), (Token.WS, " "), (Token.INTO, "INTO"), (Token.WS, " "),
      (Token.SELECT, "SELECT"), (Token.WS, " "), (Token.VALUES, "VALUES")],
    eof := "",
    coalesced := by decide }

/-- A token stream after skipping at most one leading `WS` token. -/
def skipOneWS : List Tok → List Tok
  | [] => []
  | a :: r => if a.1 = Token.WS then r else a :: r

/-- The scanner's tokens for the text `DELETE FROM t`. -/
def deleteFrom : Scanner :=
  { toks := [(Token.IDENT, "DELETE"), (Token.WS, " "), (Token.FROM, "FROM"), (Token.WS, " "),
      (Token.IDENT, "t")],
    eof := "",
    coalesced := by decide }

/-- The scanner's tokens for the text `INSERT INTO t`. -/
def insertNoValues : Scanner :=
  { toks := [(Token.INSERT, "INSERT"), (Token.WS, " "), (Token.INTO, "INTO"), (Token.WS, " "),
      (Token.IDENT, "t")],
    eof := "",
    coalesced := by decide }

/-- The parser that `ParseSelect` leaves behind on `selectTwoNames`: `b` was pushed back and
read again, the tokens from `FROM` on are still in the scanner. -/
def selectTwoNamesDone : Parser :=
  { s := { toks := [(Token.WS, " "), (Token.FROM, "FROM"), (Token.WS, " "), (Token.IDENT, "t")],
           eof := "",
           coalesced := by decide },
    buf := { tok := Token.IDENT, lit := "b", n := 0 } }

/-- The scanner's tokens for the text `SELECT a FROM t WHERE`. -/
def selectWhere : Scanner :=
  { toks := [(Token.SELECT, "SELECT"), (Token.WS, " "), (Token.IDENT, "a"), (Token.WS, " "),
      (Token.FROM, "FROM"), (Token.WS, " "), (Token.IDENT, "t"), (Token.WS, " "),
      (Token.IDENT, "WHERE")],
    eof := "",
    coalesced := by decide }

/-- The scanner's tokens for the text `SELECT   a,b   FROM   t`. -/
def selectWide : Scanner :=
  { toks := [(Token.SELECT, "SELECT"), (Token.WS, "   "), (Token.IDENT, "a"),
      (Token.COMMA, ","), (Token.IDENT, "b"), (Token.WS, "   "), (Token.FROM, "FROM"),
      (Token.WS, "   "), (Token.IDENT, "t")],
    eof := "",
    coalesced := by decide }

/-- Whether a list of tokens starts with two `WS` tokens. -/
def leadsTwoWS : List Tok → Bool
  | a :: b :: _ => a.1 == Token.WS && b.1 == Token.WS
  | _ => false

/-- The tokens of a list from its first token that is not whitespace on. -/
def dropWS (l : List Tok) : List Tok :=
  l.dropWhile (fun t => t.1 == Token.WS)

/-- A parser with `b` pushed back and, against the scanner's contract, whitespace next in the
scanner: its pending tokens start with two `WS` tokens. -/
def pendingTwoWS : Parser :=
  { s := { toks := [(Token.WS, "  "), (Token.IDENT, "a")], eof := "", coalesced := by decide },
    buf := { tok := Token.WS, lit := " ", n := 1 } }

/-- The scanner's tokens for the text ` INSERT INTO t VALUES`, with whitespace in front. -/
def insertLeadingWS : Scanner :=
  { toks := [(Token.WS, " "), (Token.INSERT, "INSERT"), (Token.WS, " "), (Token.INTO, "INTO"),
      (Token.WS, " "), (Token.IDENT, "t"), (Token.WS, " "), (Token.VALUES, "VALUES")],
    eof := "",
    coalesced := by decide }

/-- The parser that `Parse` leaves behind on `selectNoField`: `FROM` was the last token read. -/
def selectNoFieldDone : Parser :=
  { s := { toks := [(Token.WS, " "), (Token.IDENT, "t")], eof := "", coalesced := by decide },
    buf := { tok := Token.FROM, lit := "FROM", n := 0 } }

/-! ## The calls of `scan` and `unscan` in a run -/

/-- One call of `scan` or of `unscan`: which of the two, and `p.buf.n` right before and right
after the call. -/
structure Event where
  isUnscan : Bool
  nBefore : Nat
  nAfter : Nat
  deriving DecidableEq

/-- The method `Parser.scan`, the call written to the log. -/
def Parser.scanLog (p : Parser) (log : List Event) : Token × String × Parser × List Event :=
  match p.scan with
  | (tok, lit, p1) => (tok, lit, p1, log ++ [⟨false, p.buf.n, p1.buf.n⟩])

/-- The method `Parser.unscan`, the call written to the log. -/
def Parser.unscanLog (p : Parser) (log : List Event) : Parser × List Event :=
  (p.unscan, log ++ [⟨true, p.buf.n, p.unscan.buf.n⟩])

/-- The method `Parser.scanIgnoreWhitespace` over the logging `scan`. -/
def Parser.scanIgnoreWhitespaceLog (p : Parser) (log : List Event) :
    Token × String × Parser × List Event :=
  match p.scanLog log with
  | (tok, lit, p1, log1) => if tok = Token.WS then p1.scanLog log1 else (tok, lit, p1, log1)

/-- The method `Parser.ParseInsert` over the logging reads. -/
def Parser.ParseInsertLog (p : Parser) (log : List Event) :
    InsertStatement × Option GoError × Parser × List Event :=
  let stmt : InsertStatement := { MapValues := none, Values := none, TableName := "" }
  match p.scanIgnoreWhitespaceLog log with
  | (tok1, lit1, p1, log1) =>
    if tok1 ≠ Token.INSERT then
      (stmt, some (Errorf "found %q, expected INSERT" lit1), p1, log1)
    else
      match p1.scanIgnoreWhitespaceLog log1 with
      | (tok2, lit2, p2, log2) =>
        if tok2 ≠ Token.INTO then
          (stmt, some (Errorf "found %q, expected INTO" lit2), p2, log2)
        else
          match p2.scanIgnoreWhitespaceLog log2 with
          | (tok3, lit3, p3, log3) =>
            if tok3 ≠ Token.IDENT then
              (stmt, some (Errorf "found %q, table name cannot be a keyword" lit3), p3, log3)
            else
              let stmt3 : InsertStatement := { stmt with TableName := lit3 }
              match p3.scanIgnoreWhitespaceLog log3 with
              | (tok4, lit4, p4, log4) =>
                if tok4 ≠ Token.VALUES then
                  (stmt3, some (Errorf "found %q, expected VALUES" lit4), p4, log4)
                else
                  (stmt3, none, p4, log4)

/-- The field loop of `ParseSelect` over the logging reads and the logging `unscan`. -/
def Parser.fieldLoopLog : Nat → Parser → List Event → SelectStatement →
    Option (SelectStatement × Option GoError × Parser × List Event)
  | 0, _, _, _ => none
  | fuel + 1, p, log, stmt =>
    match p.scanIgnoreWhitespaceLog log with
    | (tok, lit, p1, log1) =>
      if tok ≠ Token.IDENT ∧ tok ≠ Token.ASTERISK then
        some (stmt, some (Errorf "found %q, expected field" lit), p1, log1)
      else
        let stmt1 : SelectStatement := { stmt with Fields := stmt.Fields ++ [lit] }
        match p1.scanIgnoreWhitespaceLog log1 with
        | (tok2, _, p2, log2) =>
          if tok2 ≠ Token.COMMA then
            some (stmt1, none, (p2.unscanLog log2).1, (p2.unscanLog log2).2)
          else
            Parser.fieldLoopLog fuel p2 log2 stmt1

/-- The method `Parser.ParseSelect` over the logging reads. -/
def Parser.ParseSelectLog (p : Parser) (log : List Event) :
    Option (SelectStatement × Option GoError × Parser × List Event) :=
  let stmt : SelectStatement := { Fields := [], TableName := "" }
  match p.scanIgnoreWhitespaceLog log with
  | (tok1, lit1, p1, log1) =>
    if tok1 ≠ Token.SELECT then
      some (stmt, some (Errorf "found %q, expected SELECT" lit1), p1, log1)
    else
      match Parser.fieldLoopLog (p1.s.toks.length + 1) p1 log1 stmt with
      | none => none
      | some (stmt2, some err, p2, log2) => some (stmt2, some err, p2, log2)
      | some (stmt2, none, p2, log2) =>
        match p2.scanIgnoreWhitespaceLog log2 with
        | (tok3, lit3, p3, log3) =>
          if tok3 ≠ Token.FROM then
            some (stmt2, some (Errorf "found %q, expected FROM" lit3), p3, log3)
          else
            match p3.scanIgnoreWhitespaceLog log3 with
            | (tok4, lit4, p4, log4) =>
              if tok4 ≠ Token.IDENT then
                some (stmt2, some (Errorf "found %q, expected table name" lit4), p4, log4)
              else
                some ({ stmt2 with TableName := lit4 }, none, p4, log4)

/-- The method `Parser.Parse` over the logging reads and the logging `unscan`. -/
def Parser.ParseLog (p : Parser) (log : List Event) :
    Option (Statement × Option GoError × Parser × List Event) :=
  match p.scanIgnoreWhitespaceLog log with
  | (tok, lit, p1, log1) =>
    match tok with
    | Token.SELECT =>
      match (p1.unscanLog log1).1.ParseSelectLog (p1.unscanLog log1).2 with
      | none => none
      | some (stmt, err, p2, log2) => some (Statement.select stmt, err, p2, log2)
    | Token.INSERT =>
      match (p1.unscanLog log1).1.ParseInsertLog (p1.unscanLog log1).2 with
      | (stmt, err, p2, log2) => some (Statement.insert stmt, err, p2, log2)
    | _ =>
      some (Statement.nil, some (Errorf "found %q, expected SELECT/INSERT/CREATE" lit), p1, log1)

/-- Whether a log of calls respects the pushback slot, `prev` telling whether the call
before the log was a `scan`: `buf.n` is 0 or 1 before and after every call, and every
`unscan` comes right after a `scan` and finds `buf.n = 0`. -/
def logOK : Bool → List Event → Bool
  | _, [] => true
  | prev, e :: r =>
    decide (e.nBefore ≤ 1) && decide (e.nAfter ≤ 1) &&
      (!e.isUnscan || (prev && e.nBefore == 0)) && logOK (!e.isUnscan) r

/-- Whether the last call was a `scan`, `prev` telling it for the call before the log. -/
def lastScan : Bool → List Event → Bool
  | prev, [] => prev
  | _, e :: r => lastScan (!e.isUnscan) r

/-- The number of `COMMA` tokens in a list of tokens. -/
def countComma (l : List Tok) : Nat :=
  l.countP (fun t => t.1 == Token.COMMA)

/-- The events of one `scanIgnoreWhitespace`: one `scan`, or two. -/
def scanIWEvents (p : Parser) : List Event :=
  if p.scan.1 = Token.WS then [⟨false, p.buf.n, 0⟩, ⟨false, 0, 0⟩] else [⟨false, p.buf.n, 0⟩]

/-! ## What one read does to the pending tokens -/

theorem pending_of_buf_zero (p : Parser) (h : p.buf.n = 0) : p.pending = p.s.toks := by
  simp [Parser.pending, h]

theorem scan_cons (p : Parser) (x : Tok) (r : List Tok) (h : p.pending = x :: r) :
    ∃ p1, p.scan = (x.1, x.2, p1) ∧ p1.s.toks = r ∧ p1.s.eof = p.s.eof ∧
      p1.buf = ⟨x.1, x.2, 0⟩ := by
  obtain ⟨⟨toks, eof, hc⟩, ⟨bt, bl, bn⟩⟩ := p
  by_cases hn : bn = 0
  · subst hn
    simp only [Parser.pending, ne_eq, not_true_eq_false, if_false, List.nil_append] at h
    subst h
    simp [Parser.scan, Scanner.Scan]
  · simp only [Parser.pending, ne_eq, hn, not_false_eq_true, if_true, List.singleton_append,
      List.cons.injEq] at h
    obtain ⟨hx, hr⟩ := h
    subst hx hr
    simp [Parser.scan, hn]

theorem scan_nil (p : Parser) (h : p.pending = []) :
    ∃ p1, p.scan = (Token.EOF, p.s.eof, p1) ∧ p1.s.toks = [] ∧ p1.s.eof = p.s.eof ∧
      p1.buf = ⟨Token.EOF, p.s.eof, 0⟩ := by
  obtain ⟨⟨toks, eof, hc⟩, ⟨bt, bl, bn⟩⟩ := p
  by_cases hn : bn = 0
  · subst hn
    simp only [Parser.pending, ne_eq, not_true_eq_false, if_false, List.nil_append] at h
    subst h
    simp [Parser.scan, Scanner.Scan]
  · simp [Parser.pending, hn] at h

theorem scanIW_cons (p : Parser) (x : Tok) (r : List Tok) (h : p.pending = x :: r)
    (hx : x.1 ≠ Token.WS) :
    ∃ p1, p.scanIgnoreWhitespace = (x.1, x.2, p1) ∧ p1.s.toks = r ∧ p1.s.eof = p.s.eof ∧
      p1.buf = ⟨x.1, x.2, 0⟩ := by
  obtain ⟨p1, h1, h2, h3, h4⟩ := scan_cons p x r h
  exact ⟨p1, by simp [Parser.scanIgnoreWhitespace, h1, hx], h2, h3, h4⟩

theorem scanIW_nil (p : Parser) (h : p.pending = []) :
    ∃ p1, p.scanIgnoreWhitespace = (Token.EOF, p.s.eof, p1) ∧ p1.s.toks = [] ∧
      p1.s.eof = p.s.eof ∧ p1.buf = ⟨Token.EOF, p.s.eof, 0⟩ := by
  obtain ⟨p1, h1, h2, h3, h4⟩ := scan_nil p h
  exact ⟨p1, by simp [Parser.scanIgnoreWhitespace, h1], h2, h3, h4⟩

theorem scanIW_ws_cons (p : Parser) (w x : Tok) (r : List Tok) (h : p.pending = w :: x :: r)
    (hw : w.1 = Token.WS) :
    ∃ p1, p.scanIgnoreWhitespace = (x.1, x.2, p1) ∧ p1.s.toks = r ∧ p1.s.eof = p.s.eof ∧
      p1.buf = ⟨x.1, x.2, 0⟩ := by
  obtain ⟨p1, h1, h2, h3, h4⟩ := scan_cons p w (x :: r) h
  have hp1 : p1.pending = x :: r := by rw [pending_of_buf_zero p1 (by rw [h4]), h2]
  obtain ⟨p2, g1, g2, g3, g4⟩ := scan_cons p1 x r hp1
  exact ⟨p2, by simp [Parser.scanIgnoreWhitespace, h1, hw, g1], g2, g3.trans h3, g4⟩

theorem scanIW_ws_nil (p : Parser) (w : Tok) (h : p.pending = [w]) (hw : w.1 = Token.WS) :
    ∃ p1, p.scanIgnoreWhitespace = (Token.EOF, p.s.eof, p1) ∧ p1.s.toks = [] ∧
      p1.s.eof = p.s.eof ∧ p1.buf = ⟨Token.EOF, p.s.eof, 0⟩ := by
  obtain ⟨p1, h1, h2, h3, h4⟩ := scan_cons p w [] h
  have hp1 : p1.pending = [] := by rw [pending_of_buf_zero p1 (by rw [h4]), h2]
  obtain ⟨p2, g1, g2, g3, g4⟩ := scan_nil p1 hp1
  rw [h3] at g1 g4
  exact ⟨p2, by simp [Parser.scanIgnoreWhitespace, h1, hw, g1], g2, g3.trans h3, g4⟩

theorem stripWS_cons_ws (w : Tok) (l : List Tok) (hw : w.1 = Token.WS) :
    stripWS (w :: l) = stripWS l := by
  simp [stripWS, hw]

theorem stripWS_cons_ne (x : Tok) (l : List Tok) (hx : x.1 ≠ Token.WS) :
    stripWS (x :: l) = x :: stripWS l := by
  simp [stripWS, hx]

theorem stripWS_append (a b : List Tok) : stripWS (a ++ b) = stripWS a ++ stripWS b := by
  simp [stripWS]

theorem mem_stripWS_ne (l : List Tok) (x : Tok) (h : x ∈ stripWS l) : x.1 ≠ Token.WS := by
  simpa [stripWS] using (List.mem_filter.mp h).2

theorem headTok_stripWS_ne (l : List Tok) (eof : String) :
    (headTok (stripWS l) eof).1 ≠ Token.WS := by
  cases h : stripWS l with
  | nil => simp [headTok]
  | cons x r =>
    have : x ∈ stripWS l := by rw [h]; exact List.mem_cons_self x r
    simpa [headTok] using mem_stripWS_ne l x this

/-- One `scanIgnoreWhitespace` on pending tokens without two adjacent `WS`: the tokens read
are at most one `WS` and then the first token that is not whitespace, which is returned (the
end-of-input token when nothing but whitespace is left). -/
theorem scanIW_spec (p : Parser) (hok : adjacentWS p.pending = false) :
    ∃ p1 pre, p.scanIgnoreWhitespace =
        ((headTok (stripWS p.pending) p.s.eof).1, (headTok (stripWS p.pending) p.s.eof).2, p1) ∧
      p1.s.eof = p.s.eof ∧
      p1.buf = ⟨(headTok (stripWS p.pending) p.s.eof).1,
        (headTok (stripWS p.pending) p.s.eof).2, 0⟩ ∧
      stripWS p1.s.toks = (stripWS p.pending).tail ∧
      stripWS pre = [] ∧
      ((stripWS p.pending = [] ∧ p.pending = pre ∧ p1.s.toks = []) ∨
        (∃ x, stripWS p.pending = x :: stripWS p1.s.toks ∧ p.pending = pre ++ x :: p1.s.toks)) := by
  cases hp : p.pending with
  | nil =>
    obtain ⟨p1, h1, h2, h3, h4⟩ := scanIW_nil p hp
    exact ⟨p1, [], by simp [stripWS, headTok, h1], h3, by simp [stripWS, headTok, h4],
      by simp [stripWS, h2], rfl, Or.inl ⟨rfl, rfl, h2⟩⟩
  | cons a l =>
    by_cases ha : a.1 = Token.WS
    · cases l with
      | nil =>
        obtain ⟨p1, h1, h2, h3, h4⟩ := scanIW_ws_nil p a hp ha
        exact ⟨p1, [a], by simp [stripWS, headTok, h1, ha], h3,
          by simp [stripWS, headTok, h4, ha], by simp [stripWS, h2, ha],
          by simp [stripWS, ha], Or.inl ⟨by simp [stripWS, ha], rfl, h2⟩⟩
      | cons b r =>
        have hb : b.1 ≠ Token.WS := by
          rw [hp] at hok
          intro hb
          simp [adjacentWS, ha, hb] at hok
        obtain ⟨p1, h1, h2, h3, h4⟩ := scanIW_ws_cons p a b r hp ha
        have e : stripWS (a :: b :: r) = b :: stripWS r := by
          rw [stripWS_cons_ws a _ ha, stripWS_cons_ne b _ hb]
        refine ⟨p1, [a], ?_, h3, ?_, ?_, by simp [stripWS, ha], Or.inr ⟨b, ?_, ?_⟩⟩
        · rw [e]; simpa [headTok] using h1
        · rw [e]; simpa [headTok] using h4
        · rw [e, h2]; rfl
        · rw [e, h2]
        · rw [h2]; rfl
    · obtain ⟨p1, h1, h2, h3, h4⟩ := scanIW_cons p a l hp ha
      have e : stripWS (a :: l) = a :: stripWS l := stripWS_cons_ne a l ha
      refine ⟨p1, [], ?_, h3, ?_, ?_, rfl, Or.inr ⟨a, ?_, ?_⟩⟩
      · rw [e]; simpa [headTok] using h1
      · rw [e]; simpa [headTok] using h4
      · rw [e, h2]; rfl
      · rw [e, h2]
      · rw [h2]; rfl

/-- The same read, told on the tokens that are not whitespace. -/
theorem scanIW_view (p : Parser) (hok : adjacentWS p.pending = false) :
    ∃ p1, p.scanIgnoreWhitespace = ((headTok p.view p.s.eof).1, (headTok p.view p.s.eof).2, p1) ∧
      p1.s.eof = p.s.eof ∧
      p1.buf = ⟨(headTok p.view p.s.eof).1, (headTok p.view p.s.eof).2, 0⟩ ∧
      adjacentWS p1.pending = false ∧ p1.view = p.view.tail := by
  obtain ⟨p1, pre, h1, h2, h3, h4, -, -⟩ := scanIW_spec p hok
  have hp : p1.pending = p1.s.toks := pending_of_buf_zero p1 (by rw [h3])
  exact ⟨p1, h1, h2, h3, by rw [hp]; exact p1.s.coalesced, by
    simp only [Parser.view]; rw [hp, h4]⟩

theorem unscan_view (p : Parser) (t : Token) (lit : String) (hb : p.buf = ⟨t, lit, 0⟩)
    (ht : t ≠ Token.WS) :
    p.unscan.s = p.s ∧ p.unscan.pending = (t, lit) :: p.s.toks ∧
      adjacentWS p.unscan.pending = false ∧ p.unscan.view = (t, lit) :: p.view := by
  have hp : p.pending = p.s.toks := pending_of_buf_zero p (by rw [hb])
  have hu : p.unscan.pending = (t, lit) :: p.s.toks := by
    simp [Parser.unscan, Parser.pending, hb]
  refine ⟨rfl, hu, ?_, ?_⟩
  · rw [hu]
    have hc := p.s.coalesced
    cases htk : p.s.toks with
    | nil => rfl
    | cons b r =>
      rw [htk] at hc
      simp [adjacentWS, ht, hc]
  · simp only [Parser.view]
    rw [hu, hp, stripWS_cons_ne _ _ (by simpa using ht)]

theorem view_ne_ws (p : Parser) : (headTok p.view p.s.eof).1 ≠ Token.WS :=
  headTok_stripWS_ne p.pending p.s.eof

theorem headTok_cons_tail (l : List Tok) (eof : String) (h : (headTok l eof).1 ≠ Token.EOF) :
    l = headTok l eof :: l.tail := by
  cases l with
  | nil => simp [headTok] at h
  | cons a r => simp [headTok]

/-- The field loop returns what `fieldsL` reads off the tokens that are not whitespace, when
it is given more iterations than there are such tokens. -/
theorem fieldLoop_view : ∀ (fuel : Nat) (p : Parser) (stmt : SelectStatement),
    adjacentWS p.pending = false → p.view.length < fuel →
    ∃ p1, p.fieldLoop fuel stmt =
        some ((fieldsL p.s.eof p.view stmt).1, (fieldsL p.s.eof p.view stmt).2.1, p1) ∧
      p1.s.eof = p.s.eof ∧ adjacentWS p1.pending = false ∧
      p1.view = (fieldsL p.s.eof p.view stmt).2.2 := by
  intro fuel
  induction fuel with
  | zero => intro p stmt _ h; simp at h
  | succ fuel ih =>
    intro p stmt hok hlen
    obtain ⟨p1, h1, e1, b1, ok1, v1⟩ := scanIW_view p hok
    obtain ⟨p2, h2, e2, b2, ok2, v2⟩ := scanIW_view p1 ok1
    rw [e1] at h2 b2
    rw [Parser.fieldLoop, h1]
    cases hv : p.view with
    | nil =>
      rw [hv] at h1 v1
      refine ⟨p1, ?_, e1, ok1, ?_⟩
      · simp [headTok, fieldsL]
      · simp [fieldsL, v1]
    | cons f l =>
      rw [hv] at v1 hlen
      simp only [List.tail_cons] at v1
      simp only [headTok, List.headD_cons]
      by_cases hf : f.1 ≠ Token.IDENT ∧ f.1 ≠ Token.ASTERISK
      · refine ⟨p1, ?_, e1, ok1, ?_⟩
        · cases l <;> simp [fieldsL, hf]
        · cases l <;> simp [fieldsL, hf, v1]
      · rw [if_neg hf]
        rw [h2, v1]
        rw [v1] at b2 v2
        cases l with
        | nil =>
          have hu := unscan_view p2 Token.EOF p.s.eof (by simpa [headTok] using b2) (by decide)
          refine ⟨p2.unscan, ?_, ?_, hu.2.2.1, ?_⟩
          · simp [headTok, fieldsL, hf]
          · rw [hu.1, e2, e1]
          · rw [hu.2.2.2, v2]; simp [fieldsL, hf]
        | cons c r =>
          simp only [headTok, List.headD_cons] at b2 ⊢
          simp only [List.tail_cons] at v2
          by_cases hc : c.1 ≠ Token.COMMA
          · have hcw : c.1 ≠ Token.WS := by
              have := view_ne_ws p1
              rw [v1] at this
              simpa [headTok] using this
            have hu := unscan_view p2 c.1 c.2 b2 hcw
            refine ⟨p2.unscan, ?_, ?_, hu.2.2.1, ?_⟩
            · simp [fieldsL, hf, hc]
            · rw [hu.1, e2, e1]
            · rw [hu.2.2.2, v2]; simp [fieldsL, hf, hc]
          · rw [if_neg hc]
            have hl2 : p2.view.length < fuel := by
              rw [v2]; simp at hlen; omega
            obtain ⟨p3, h3, e3, ok3, v3⟩ := ih p2 { stmt with Fields := stmt.Fields ++ [f.2] } ok2 hl2
            rw [e2, e1, v2] at h3 v3
            refine ⟨p3, ?_, by rw [e3, e2, e1], ok3, ?_⟩
            · rw [h3]; simp [fieldsL, hf, hc]
            · rw [v3]; simp [fieldsL, hf, hc]

theorem view_length_le (p : Parser) (h : p.buf.n = 0) : p.view.length ≤ p.s.toks.length := by
  simp only [Parser.view]
  rw [pending_of_buf_zero p h]
  exact List.length_filter_le _ _

/-- The method `ParseSelect` returns, and returns what `selectL` reads off the tokens that are not
whitespace. -/
theorem ParseSelect_view (p : Parser) (hok : adjacentWS p.pending = false) :
    ∃ p1, p.ParseSelect = some ((selectL p.s.eof p.view).1, (selectL p.s.eof p.view).2.1, p1) ∧
      p1.s.eof = p.s.eof ∧ adjacentWS p1.pending = false ∧
      p1.view = (selectL p.s.eof p.view).2.2 := by
  obtain ⟨p1, h1, e1, b1, ok1, v1⟩ := scanIW_view p hok
  rw [Parser.ParseSelect, h1]
  by_cases hs : (headTok p.view p.s.eof).1 ≠ Token.SELECT
  · exact ⟨p1, by simp [selectL, hs], e1, ok1, by simp [selectL, hs, v1]⟩
  · simp only [hs, if_false]
    have hlen : p1.view.length < p1.s.toks.length + 1 :=
      Nat.lt_succ_of_le (view_length_le p1 (by rw [b1]))
    obtain ⟨p2, h2, e2, ok2, v2⟩ := fieldLoop_view _ p1 ⟨[], ""⟩ ok1 hlen
    rw [e1, v1] at h2 v2
    rw [h2]
    rcases hfl : fieldsL p.s.eof p.view.tail ⟨[], ""⟩ with ⟨stmt2, err2, w⟩
    rw [hfl] at v2
    simp only [] at v2
    cases err2 with
    | some err =>
      exact ⟨p2, by simp [selectL, hs, hfl], by rw [e2, e1], ok2, by simp [selectL, hs, hfl, v2]⟩
    | none =>
      simp only []
      obtain ⟨p3, h3, e3, b3, ok3, v3⟩ := scanIW_view p2 ok2
      rw [e2, e1, v2] at h3 b3
      rw [v2] at v3
      rw [h3]
      by_cases hfr : (headTok w p.s.eof).1 ≠ Token.FROM
      · exact ⟨p3, by simp [selectL, hs, hfl, hfr], by rw [e3, e2, e1], ok3,
          by simp [selectL, hs, hfl, hfr, v3]⟩
      · simp only [hfr, if_false]
        obtain ⟨p4, h4, e4, b4, ok4, v4⟩ := scanIW_view p3 ok3
        rw [e3, e2, e1, v3] at h4 b4
        rw [v3] at v4
        rw [h4]
        by_cases hid : (headTok w.tail p.s.eof).1 ≠ Token.IDENT
        · exact ⟨p4, by simp [selectL, hs, hfl, hfr, hid], by rw [e4, e3, e2, e1], ok4,
            by simp [selectL, hs, hfl, hfr, hid, v4]⟩
        · exact ⟨p4, by simp [selectL, hs, hfl, hfr, hid], by rw [e4, e3, e2, e1], ok4,
            by simp [selectL, hs, hfl, hfr, hid, v4]⟩

/-- The method `ParseInsert` returns what `insertL` reads off the tokens that are not whitespace. -/
theorem ParseInsert_view (p : Parser) (hok : adjacentWS p.pending = false) :
    ∃ p1, p.ParseInsert = ((insertL p.s.eof p.view).1, (insertL p.s.eof p.view).2.1, p1) ∧
      p1.s.eof = p.s.eof ∧ adjacentWS p1.pending = false ∧
      p1.view = (insertL p.s.eof p.view).2.2 := by
  obtain ⟨p1, h1, e1, b1, ok1, v1⟩ := scanIW_view p hok
  rw [Parser.ParseInsert, h1]
  by_cases hs : (headTok p.view p.s.eof).1 ≠ Token.INSERT
  · exact ⟨p1, by simp [insertL, hs], e1, ok1, by simp [insertL, hs, v1]⟩
  · dsimp only
    rw [if_neg hs]
    obtain ⟨p2, h2, e2, b2, ok2, v2⟩ := scanIW_view p1 ok1
    rw [e1, v1] at h2 b2
    rw [v1] at v2
    rw [h2]
    by_cases hi : (headTok p.view.tail p.s.eof).1 ≠ Token.INTO
    · exact ⟨p2, by simp [insertL, hs, hi], by rw [e2, e1], ok2, by simp [insertL, hs, hi, v2]⟩
    · dsimp only
      rw [if_neg hi]
      obtain ⟨p3, h3, e3, b3, ok3, v3⟩ := scanIW_view p2 ok2
      rw [e2, e1, v2] at h3 b3
      rw [v2] at v3
      rw [h3]
      by_cases ht : (headTok p.view.tail.tail p.s.eof).1 ≠ Token.IDENT
      · exact ⟨p3, by simp [insertL, hs, hi, ht], by rw [e3, e2, e1], ok3,
          by simp [insertL, hs, hi, ht, v3]⟩
      · dsimp only
        rw [if_neg ht]
        obtain ⟨p4, h4, e4, b4, ok4, v4⟩ := scanIW_view p3 ok3
        rw [e3, e2, e1, v3] at h4 b4
        rw [v3] at v4
        rw [h4]
        by_cases hv : (headTok p.view.tail.tail.tail p.s.eof).1 ≠ Token.VALUES
        · exact ⟨p4, by simp [insertL, hs, hi, ht, hv], by rw [e4, e3, e2, e1], ok4,
            by simp [insertL, hs, hi, ht, hv, v4]⟩
        · exact ⟨p4, by simp [insertL, hs, hi, ht, hv], by rw [e4, e3, e2, e1], ok4,
            by simp [insertL, hs, hi, ht, hv, v4]⟩

/-- The method `Parse` returns what `parseL` reads off the tokens that are not whitespace; when the
first token is neither `SELECT` nor `INSERT` the parser is left as the one read left it. -/
theorem Parse_view (p : Parser) (hok : adjacentWS p.pending = false) :
    ∃ p1, p.Parse = some ((parseL p.s.eof p.view).1, (parseL p.s.eof p.view).2, p1) ∧
      ((headTok p.view p.s.eof).1 ≠ Token.SELECT → (headTok p.view p.s.eof).1 ≠ Token.INSERT →
        p1 = p.scanIgnoreWhitespace.2.2) := by
  obtain ⟨p1, h1, e1, b1, ok1, v1⟩ := scanIW_view p hok
  rw [Parser.Parse, h1]
  have hu := unscan_view p1 _ _ b1 (view_ne_ws p)
  rw [v1] at hu
  by_cases hs : (headTok p.view p.s.eof).1 = Token.SELECT
  · have hv : headTok p.view p.s.eof :: p.view.tail = p.view :=
      (headTok_cons_tail _ _ (by rw [hs]; decide)).symm
    obtain ⟨p2, h2, -, -, -⟩ := ParseSelect_view p1.unscan hu.2.2.1
    rw [hu.1, e1, hu.2.2.2, hv] at h2
    refine ⟨p2, ?_, fun h => absurd hs h⟩
    simp only [hs, h2, parseL]
  · by_cases hi : (headTok p.view p.s.eof).1 = Token.INSERT
    · have hv : headTok p.view p.s.eof :: p.view.tail = p.view :=
        (headTok_cons_tail _ _ (by rw [hi]; decide)).symm
      obtain ⟨p2, h2, -, -, -⟩ := ParseInsert_view p1.unscan hu.2.2.1
      rw [hu.1, e1, hu.2.2.2, hv] at h2
      refine ⟨p2, ?_, fun _ h => absurd hi h⟩
      simp only [hi, h2, parseL]
    · refine ⟨p1, ?_, fun _ _ => rfl⟩
      simp only [parseL]

theorem NewParser_pending (s : Scanner) : (NewParser s).pending = s.toks := rfl

theorem NewParser_ok (s : Scanner) : adjacentWS (NewParser s).pending = false :=
  s.coalesced

theorem NewParser_view (s : Scanner) : (NewParser s).view = stripWS s.toks := rfl

/-! ## The field loop on the tokens that are not whitespace -/

theorem isField_iff (t : Token) : isField t = true ↔ ¬(t ≠ Token.IDENT ∧ t ≠ Token.ASTERISK) := by
  cases t <;> simp [isField]

theorem isField_false_iff (t : Token) :
    isField t = false ↔ (t ≠ Token.IDENT ∧ t ≠ Token.ASTERISK) := by
  cases t <;> simp [isField]

/-- A well-formed field list is read to its end; the token after it is left to be read. -/
theorem fieldsL_commaSep (eof : String) : ∀ (fs : List (String × Tok)) (f : Tok)
    (rest : List Tok) (stmt : SelectStatement),
    isField f.1 = true → (∀ cf ∈ fs, isField cf.2.1 = true) →
    (headTok rest eof).1 ≠ Token.COMMA →
    fieldsL eof (commaSep f fs ++ rest) stmt =
      ({ stmt with Fields := stmt.Fields ++ fieldLits f fs }, none,
        headTok rest eof :: rest.tail) := by
  intro fs
  induction fs with
  | nil =>
    intro f rest stmt hf _ hX
    have hf1 := (isField_iff f.1).mp hf
    cases rest with
    | nil => simp [commaSep, fieldsL, hf1, fieldLits, headTok]
    | cons c r =>
      have hc : c.1 ≠ Token.COMMA := by simpa [headTok] using hX
      simp [commaSep, fieldsL, hf1, hc, fieldLits, headTok]
  | cons cf fs ih =>
    intro f rest stmt hf hfs hX
    have hf1 := (isField_iff f.1).mp hf
    have h1 : commaSep f (cf :: fs) ++ rest = f :: (Token.COMMA, cf.1) :: (commaSep cf.2 fs ++ rest) := by
      simp [commaSep]
    rw [h1, fieldsL, if_neg hf1, if_neg (by simp)]
    rw [ih cf.2 rest _ (hfs cf (List.mem_cons_self _ _))
      (fun x hx => hfs x (List.mem_cons_of_mem _ hx)) hX]
    simp [fieldLits]

/-- A token that is no field where a field is due ends the loop with "expected field". -/
theorem fieldsL_bad (eof : String) : ∀ (fs : List (Tok × String)) (rest : List Tok)
    (stmt : SelectStatement),
    (∀ fc ∈ fs, isField fc.1.1 = true) → isField (headTok rest eof).1 = false →
    (fieldsL eof (fieldsThenComma fs ++ rest) stmt).2.1 =
      some (Errorf "found %q, expected field" (headTok rest eof).2) := by
  intro fs
  induction fs with
  | nil =>
    intro rest stmt _ hX
    have hX1 := (isField_false_iff _).mp hX
    match rest, hX1 with
    | [], _ => simp [fieldsThenComma, fieldsL, headTok]
    | [x], hX1 =>
      simp only [headTok, List.headD_cons] at hX1
      simp [fieldsThenComma, fieldsL, headTok, hX1]
    | x :: c :: r, hX1 =>
      simp only [headTok, List.headD_cons] at hX1
      simp [fieldsThenComma, fieldsL, headTok, hX1]
  | cons fc fs ih =>
    intro rest stmt hfs hX
    have hf1 := (isField_iff fc.1.1).mp (hfs fc (List.mem_cons_self _ _))
    have h1 : fieldsThenComma (fc :: fs) ++ rest =
        fc.1 :: (Token.COMMA, fc.2) :: (fieldsThenComma fs ++ rest) := by
      simp [fieldsThenComma]
    rw [h1, fieldsL, if_neg hf1, if_neg (by simp)]
    exact ih rest _ (fun x hx => hfs x (List.mem_cons_of_mem _ hx)) hX

/-- After `SELECT` and a well-formed field list, `selectL` goes on to `FROM` and the table
name with the token that follows the last field. -/
theorem selectL_after_fields (eof ls : String) (f : Tok) (fs : List (String × Tok))
    (rest : List Tok) (hf : isField f.1 = true) (hfs : ∀ cf ∈ fs, isField cf.2.1 = true)
    (hX : (headTok rest eof).1 ≠ Token.COMMA) :
    selectL eof ((Token.SELECT, ls) :: (commaSep f fs ++ rest)) =
      if (headTok rest eof).1 ≠ Token.FROM then
        (⟨fieldLits f fs, ""⟩, some (Errorf "found %q, expected FROM" (headTok rest eof).2),
          rest.tail)
      else if (headTok rest.tail eof).1 ≠ Token.IDENT then
        (⟨fieldLits f fs, ""⟩,
          some (Errorf "found %q, expected table name" (headTok rest.tail eof).2), rest.tail.tail)
      else
        (⟨fieldLits f fs, (headTok rest.tail eof).2⟩, none, rest.tail.tail) := by
  have h := fieldsL_commaSep eof fs f rest ⟨[], ""⟩ hf hfs hX
  simp only [List.nil_append] at h
  simp only [selectL, headTok, List.headD_cons, List.tail_cons, ne_eq, not_true_eq_false,
    if_false]
  simp only [headTok] at h
  rw [h]
  simp only [List.headD_cons, List.tail_cons]

theorem ParseSelect_fresh (s : Scanner) :
    ∃ p1, (NewParser s).ParseSelect =
      some ((selectL s.eof (stripWS s.toks)).1, (selectL s.eof (stripWS s.toks)).2.1, p1) := by
  obtain ⟨p1, h, -⟩ := ParseSelect_view (NewParser s) (NewParser_ok s)
  exact ⟨p1, h⟩

theorem ParseInsert_fresh (s : Scanner) :
    ∃ p1, (NewParser s).ParseInsert =
      ((insertL s.eof (stripWS s.toks)).1, (insertL s.eof (stripWS s.toks)).2.1, p1) := by
  obtain ⟨p1, h, -⟩ := ParseInsert_view (NewParser s) (NewParser_ok s)
  exact ⟨p1, h⟩

theorem Parse_fresh (s : Scanner) :
    ∃ p1, (NewParser s).Parse =
      some ((parseL s.eof (stripWS s.toks)).1, (parseL s.eof (stripWS s.toks)).2, p1) := by
  obtain ⟨p1, h, -⟩ := Parse_view (NewParser s) (NewParser_ok s)
  exact ⟨p1, h⟩

/-! ## The claims -/

/-- C1: on a token stream `SELECT f1 , ... , fn FROM t` (n at least 1, every `fi` an `IDENT`
or `ASTERISK` token, `t` an `IDENT` token, single `WS` tokens anywhere between, before or
after them) `Parse` on a fresh parser returns no error and the `SelectStatement` whose
`Fields` are the literals of `f1 .. fn` in source order and whose `TableName` is the literal
of `t`. -/
theorem Parse_select_wellformed (s : Scanner) (ls lf t : String) (f : Tok)
    (fs : List (String × Tok))
    (hshape : stripWS s.toks =
      (Token.SELECT, ls) :: (commaSep f fs ++ [(Token.FROM, lf), (Token.IDENT, t)]))
    (hf : isField f.1 = true) (hfs : ∀ cf ∈ fs, isField cf.2.1 = true) :
    ∃ p1, (NewParser s).Parse =
      some (Statement.select { Fields := fieldLits f fs, TableName := t }, none, p1) := by
  obtain ⟨p1, h⟩ := Parse_fresh s
  refine ⟨p1, ?_⟩
  rw [h, hshape]
  have hsel := selectL_after_fields s.eof ls f fs [(Token.FROM, lf), (Token.IDENT, t)] hf hfs
    (by simp [headTok])
  simp only [parseL, headTok, List.headD_cons]
  simp only [headTok] at hsel
  rw [hsel]
  simp

/-- C1 at `SELECT * FROM t`: the fields are `["*"]`. -/
theorem Parse_select_wellformed_witness :
    stripWS selectStar.toks =
        (Token.SELECT, "SELECT") ::
          (commaSep (Token.ASTERISK, "*") [] ++ [(Token.FROM, "FROM"), (Token.IDENT, "t")]) ∧
      ∃ p1, (NewParser selectStar).Parse =
        some (Statement.select { Fields := ["*"], TableName := "t" }, none, p1) :=
  ⟨by decide,
    Parse_select_wellformed selectStar "SELECT" "FROM" "t" (Token.ASTERISK, "*") [] (by decide)
      (by decide) (by simp)⟩

/-- When the field loop is left by `break`, what it read is a well-formed field list. -/
theorem fieldsL_ok_shape (eof : String) : ∀ (n : Nat) (l : List Tok) (stmt stmt1 : SelectStatement)
    (v : List Tok), l.length ≤ n → fieldsL eof l stmt = (stmt1, none, v) →
    ∃ f fs rest, l = commaSep f fs ++ rest ∧ isField f.1 = true ∧
      (∀ cf ∈ fs, isField cf.2.1 = true) ∧ (headTok rest eof).1 ≠ Token.COMMA ∧
      stmt1 = { stmt with Fields := stmt.Fields ++ fieldLits f fs } ∧
      v = headTok rest eof :: rest.tail := by
  intro n
  induction n with
  | zero =>
    intro l stmt stmt1 v hl h
    have : l = [] := List.length_eq_zero.mp (Nat.le_zero.mp hl)
    subst this
    simp [fieldsL] at h
  | succ n ih =>
    intro l stmt stmt1 v hl h
    match l, hl, h with
    | [], _, h => simp [fieldsL] at h
    | [f], _, h =>
      by_cases hf : f.1 ≠ Token.IDENT ∧ f.1 ≠ Token.ASTERISK
      · simp [fieldsL, hf] at h
      · simp only [fieldsL, if_neg hf, Prod.mk.injEq, true_and] at h
        exact ⟨f, [], [], by simp [commaSep], (isField_iff _).mpr hf, by simp,
          by simp [headTok], by simp [fieldLits, h.1], by simp [headTok, h.2]⟩
    | f :: c :: r, hl, h =>
      by_cases hf : f.1 ≠ Token.IDENT ∧ f.1 ≠ Token.ASTERISK
      · simp [fieldsL, hf] at h
      · by_cases hc : c.1 ≠ Token.COMMA
        · simp only [fieldsL, if_neg hf, if_pos hc, Prod.mk.injEq, true_and] at h
          exact ⟨f, [], c :: r, by simp [commaSep], (isField_iff _).mpr hf, by simp,
            by simpa [headTok] using hc, by simp [fieldLits, h.1], by rw [← h.2]; rfl⟩
        · rw [fieldsL, if_neg hf, if_neg hc] at h
          have hlen : r.length ≤ n := by simp at hl; omega
          obtain ⟨g, gs, rest, e1, hg, hgs, hX, e2, e3⟩ := ih r _ stmt1 v hlen h
          have hc1 : c.1 = Token.COMMA := not_not.mp hc
          refine ⟨f, (c.2, g) :: gs, rest, ?_, (isField_iff _).mpr hf, ?_, hX, ?_, e3⟩
          · rw [e1]
            obtain ⟨ct, cl⟩ := c
            simp only at hc1
            subst hc1
            simp [commaSep]
          · intro cf hcf
            rcases List.mem_cons.mp hcf with rfl | hin
            · exact hg
            · exact hgs cf hin
          · rw [e2]; simp [fieldLits]

theorem headTok_tag_cons (l : List Tok) (eof : String) (T : Token)
    (h : (headTok l eof).1 = T) (hT : T ≠ Token.EOF) : ∃ lit r, l = (T, lit) :: r := by
  cases l with
  | nil => simp only [headTok, List.headD_nil] at h; exact absurd h.symm hT
  | cons a r =>
    obtain ⟨t, lit⟩ := a
    simp only [headTok, List.headD_cons] at h
    subst h
    exact ⟨lit, r, rfl⟩

/-- C2: if `ParseSelect` on a fresh parser returns no error, then `Fields` is non-empty and
the token stream without its `WS` tokens begins `SELECT f1 , ... , fn FROM t`, every `fi` an
`IDENT` or `ASTERISK` token and `t` an `IDENT` token; `Fields` is the literals of `f1 .. fn`
in order and `TableName` is the literal of `t`. -/
theorem ParseSelect_success_shape (s : Scanner) (stmt : SelectStatement) (p1 : Parser)
    (h : (NewParser s).ParseSelect = some (stmt, none, p1)) :
    stmt.Fields ≠ [] ∧
      ∃ ls f fs lf t rest,
        stripWS s.toks =
          (Token.SELECT, ls) :: (commaSep f fs ++ (Token.FROM, lf) :: (Token.IDENT, t) :: rest) ∧
        isField f.1 = true ∧ (∀ cf ∈ fs, isField cf.2.1 = true) ∧
        stmt.Fields = fieldLits f fs ∧ stmt.TableName = t := by
  obtain ⟨p2, h2⟩ := ParseSelect_fresh s
  rw [h2] at h
  simp only [Option.some.injEq, Prod.mk.injEq] at h
  obtain ⟨hstmt, herr, -⟩ := h
  generalize stripWS s.toks = l at hstmt herr
  by_cases hs : (headTok l s.eof).1 ≠ Token.SELECT
  · simp [selectL, hs] at herr
  · obtain ⟨ls, l1, rfl⟩ := headTok_tag_cons l s.eof _ (not_not.mp hs) (by decide)
    rcases hfl : fieldsL s.eof l1 ⟨[], ""⟩ with ⟨stmt2, err2, v⟩
    cases err2 with
    | some err => simp [selectL, headTok, hfl] at herr
    | none =>
      obtain ⟨f, fs, rest, e1, hf, hfs, hX, e2, e3⟩ :=
        fieldsL_ok_shape s.eof _ l1 _ stmt2 v (le_refl _) hfl
      by_cases hfr : (headTok v s.eof).1 ≠ Token.FROM
      · simp [selectL, headTok, hfl] at herr
        simp [headTok] at hfr
        simp [hfr] at herr
      · by_cases hid : (headTok v.tail s.eof).1 ≠ Token.IDENT
        · simp [selectL, headTok, hfl] at herr
          simp [headTok] at hfr hid
          simp [hfr, hid] at herr
        · have hfr0 := not_not.mp hfr
          have hid0 := not_not.mp hid
          rw [e3] at hfr0 hid0
          simp only [headTok, List.headD_cons] at hfr0
          simp only [List.tail_cons] at hid0
          obtain ⟨lf, r1, rfl⟩ := headTok_tag_cons rest s.eof _ hfr0 (by decide)
          simp only [List.tail_cons] at hid0 e3
          obtain ⟨t, r2, rfl⟩ := headTok_tag_cons r1 s.eof _ hid0 (by decide)
          subst e1 e3 e2
          simp only [selectL, headTok, List.headD_cons, List.tail_cons, hfl, ne_eq,
            not_true_eq_false, if_false] at hstmt
          subst hstmt
          exact ⟨by simp [fieldLits], ls, f, fs, lf, t, r2, rfl, hf, hfs, by simp, rfl⟩

/-- C2 at `SELECT a, b FROM t`. -/
theorem ParseSelect_success_shape_witness :
    (NewParser exampleSelect).ParseSelect =
        some ({ Fields := ["a", "b"], TableName := "t" }, none, exampleSelectDone) ∧
      (["a", "b"] ≠ [] ∧
        ∃ ls f fs lf t rest,
          stripWS exampleSelect.toks =
            (Token.SELECT, ls) ::
              (commaSep f fs ++ (Token.FROM, lf) :: (Token.IDENT, t) :: rest) ∧
          isField f.1 = true ∧ (∀ cf ∈ fs, isField cf.2.1 = true) ∧
          ["a", "b"] = fieldLits f fs ∧ "t" = t) :=
  ⟨rfl, ParseSelect_success_shape exampleSelect { Fields := ["a", "b"], TableName := "t" }
    exampleSelectDone rfl⟩

theorem selectL_field_error (eof ls : String) (l : List Tok) (e : GoError)
    (h : (fieldsL eof l ⟨[], ""⟩).2.1 = some e) :
    (selectL eof ((Token.SELECT, ls) :: l)).2.1 = some e := by
  rcases hfl : fieldsL eof l ⟨[], ""⟩ with ⟨stmt2, err2, v⟩
  rw [hfl] at h
  simp only at h
  subst h
  simp [selectL, headTok, hfl]

/-- C3: on a token stream of the scanner in which the first token after `SELECT` that is not
whitespace is neither `IDENT` nor `ASTERISK`, `ParseSelect` fails with
`found "<lit>", expected field`, `<lit>` being the literal of that token (of the
end-of-input token when the stream ends there). -/
theorem ParseSelect_no_field (s : Scanner) (ls : String) (rest : List Tok)
    (hsel : stripWS s.toks = (Token.SELECT, ls) :: rest)
    (hX : isField (headTok rest s.eof).1 = false) :
    ∃ stmt p1, (NewParser s).ParseSelect =
      some (stmt, some (Errorf "found %q, expected field" (headTok rest s.eof).2), p1) := by
  obtain ⟨p1, h⟩ := ParseSelect_fresh s
  refine ⟨(selectL s.eof (stripWS s.toks)).1, p1, ?_⟩
  rw [h, hsel]
  have hb := fieldsL_bad s.eof [] rest ⟨[], ""⟩ (by simp) hX
  simp only [fieldsThenComma, List.flatMap_nil, List.nil_append] at hb
  rw [selectL_field_error s.eof ls rest _ hb]

/-- C3 at `SELECT FROM t`: the literal of `FROM` is reported. -/
theorem ParseSelect_no_field_witness :
    (stripWS selectNoField.toks =
        (Token.SELECT, "SELECT") :: [(Token.FROM, "FROM"), (Token.IDENT, "t")] ∧
      isField (headTok [(Token.FROM, "FROM"), (Token.IDENT, "t")] selectNoField.eof).1 = false) ∧
      ∃ stmt p1, (NewParser selectNoField).ParseSelect =
        some (stmt, some (Errorf "found %q, expected field" "FROM"), p1) :=
  ⟨⟨by decide, by decide⟩,
    ParseSelect_no_field selectNoField "SELECT" [(Token.FROM, "FROM"), (Token.IDENT, "t")]
      (by decide) (by decide)⟩

/-- C4: on a token stream of the scanner that is, whitespace apart, `SELECT f1 , ... , fk , X
...` with `k` at least 1, every `fi` an `IDENT` or `ASTERISK` token followed by a `COMMA`,
and the token `X` after the last comma neither `IDENT` nor `ASTERISK`, `ParseSelect` fails
with `found "<lit of X>", expected field`: the token after the trailing comma is reported,
not the comma. -/
theorem ParseSelect_trailing_comma (s : Scanner) (ls : String) (fc : Tok × String)
    (fs : List (Tok × String)) (rest : List Tok)
    (hshape : stripWS s.toks = (Token.SELECT, ls) :: (fieldsThenComma (fc :: fs) ++ rest))
    (hfs : ∀ g ∈ fc :: fs, isField g.1.1 = true)
    (hX : isField (headTok rest s.eof).1 = false) :
    ∃ stmt p1, (NewParser s).ParseSelect =
      some (stmt, some (Errorf "found %q, expected field" (headTok rest s.eof).2), p1) := by
  obtain ⟨p1, h⟩ := ParseSelect_fresh s
  refine ⟨(selectL s.eof (stripWS s.toks)).1, p1, ?_⟩
  rw [h, hshape]
  rw [selectL_field_error s.eof ls _ _ (fieldsL_bad s.eof (fc :: fs) rest ⟨[], ""⟩ hfs hX)]

/-- C4 at `SELECT a, FROM t`: `FROM` is reported, not the comma. -/
theorem ParseSelect_trailing_comma_witness :
    (stripWS selectTrailingComma.toks =
        (Token.SELECT, "SELECT") ::
          (fieldsThenComma (((Token.IDENT, "a"), ",") :: []) ++
            [(Token.FROM, "FROM"), (Token.IDENT, "t")]) ∧
      isField (headTok [(Token.FROM, "FROM"), (Token.IDENT, "t")] selectTrailingComma.eof).1
        = false) ∧
      ∃ stmt p1, (NewParser selectTrailingComma).ParseSelect =
        some (stmt, some (Errorf "found %q, expected field" "FROM"), p1) :=
  ⟨⟨by decide, by decide⟩,
    ParseSelect_trailing_comma selectTrailingComma "SELECT" ((Token.IDENT, "a"), ",") []
      [(Token.FROM, "FROM"), (Token.IDENT, "t")] (by decide) (by simp [isField])
      (by decide)⟩

/-- C5: on a token stream of the scanner that is, whitespace apart, `SELECT f1 , ... , fn X
...` with n at least 1 well-formed fields, where the token `X` after the last field is
neither `COMMA` nor `FROM`, `ParseSelect` fails with `found "<lit of X>", expected FROM`: the
token that ended the field loop is pushed back and is the one reported. -/
theorem ParseSelect_no_from (s : Scanner) (ls : String) (f : Tok) (fs : List (String × Tok))
    (rest : List Tok)
    (hshape : stripWS s.toks = (Token.SELECT, ls) :: (commaSep f fs ++ rest))
    (hf : isField f.1 = true) (hfs : ∀ cf ∈ fs, isField cf.2.1 = true)
    (hcomma : (headTok rest s.eof).1 ≠ Token.COMMA)
    (hfrom : (headTok rest s.eof).1 ≠ Token.FROM) :
    ∃ stmt p1, (NewParser s).ParseSelect =
      some (stmt, some (Errorf "found %q, expected FROM" (headTok rest s.eof).2), p1) := by
  obtain ⟨p1, h⟩ := ParseSelect_fresh s
  refine ⟨(selectL s.eof (stripWS s.toks)).1, p1, ?_⟩
  rw [h, hshape, selectL_after_fields s.eof ls f fs rest hf hfs hcomma, if_pos hfrom]

/-- C5 at `SELECT a b FROM t`: `b` is reported. -/
theorem ParseSelect_no_from_witness :
    (stripWS selectTwoNames.toks =
        (Token.SELECT, "SELECT") :: (commaSep (Token.IDENT, "a") [] ++
          [(Token.IDENT, "b"), (Token.FROM, "FROM"), (Token.IDENT, "t")]) ∧
      (headTok [(Token.IDENT, "b"), (Token.FROM, "FROM"), (Token.IDENT, "t")]
        selectTwoNames.eof).1 ≠ Token.COMMA ∧
      (headTok [(Token.IDENT, "b"), (Token.FROM, "FROM"), (Token.IDENT, "t")]
        selectTwoNames.eof).1 ≠ Token.FROM) ∧
      ∃ stmt p1, (NewParser selectTwoNames).ParseSelect =
        some (stmt, some (Errorf "found %q, expected FROM" "b"), p1) :=
  ⟨⟨by decide, by decide, by decide⟩,
    ParseSelect_no_from selectTwoNames "SELECT" (Token.IDENT, "a") []
      [(Token.IDENT, "b"), (Token.FROM, "FROM"), (Token.IDENT, "t")] (by decide) (by decide)
      (by simp) (by decide) (by decide)⟩

/-- C6: on a token stream of the scanner that is, whitespace apart,
`SELECT <well-formed field list> FROM X ...` where the token `X` after `FROM` is not an
`IDENT` token (end of input, a keyword, punctuation or illegal), `ParseSelect` fails with
`found "<lit of X>", expected table name`. -/
theorem ParseSelect_no_table (s : Scanner) (ls lf : String) (f : Tok)
    (fs : List (String × Tok)) (rest : List Tok)
    (hshape : stripWS s.toks =
      (Token.SELECT, ls) :: (commaSep f fs ++ (Token.FROM, lf) :: rest))
    (hf : isField f.1 = true) (hfs : ∀ cf ∈ fs, isField cf.2.1 = true)
    (hX : (headTok rest s.eof).1 ≠ Token.IDENT) :
    ∃ stmt p1, (NewParser s).ParseSelect =
      some (stmt, some (Errorf "found %q, expected table name" (headTok rest s.eof).2), p1) := by
  obtain ⟨p1, h⟩ := ParseSelect_fresh s
  refine ⟨(selectL s.eof (stripWS s.toks)).1, p1, ?_⟩
  rw [h, hshape, selectL_after_fields s.eof ls f fs _ hf hfs (by simp [headTok])]
  simp only [headTok, List.headD_cons, ne_eq, not_true_eq_false, if_false, List.tail_cons]
  simp only [headTok] at hX
  rw [if_pos hX]

/-- C6 at `SELECT a FROM`: the literal of the end-of-input token is reported. -/
theorem ParseSelect_no_table_witness :
    (stripWS selectNoTable.toks =
        (Token.SELECT, "SELECT") :: (commaSep (Token.IDENT, "a") [] ++
          (Token.FROM, "FROM") :: []) ∧
      (headTok [] selectNoTable.eof).1 ≠ Token.IDENT) ∧
      ∃ stmt p1, (NewParser selectNoTable).ParseSelect =
        some (stmt, some (Errorf "found %q, expected table name" "<EOF>"), p1) :=
  ⟨⟨by decide, by decide⟩,
    ParseSelect_no_table selectNoTable "SELECT" "FROM" (Token.IDENT, "a") [] [] (by decide)
      (by decide) (by simp) (by decide)⟩

/-! ## `ParseInsert` -/

/-- What one read takes from the pending tokens: at most one `WS`, and the token returned. -/
theorem scanIW_consumed (p : Parser) (hok : adjacentWS p.pending = false) (x : Tok)
    (l : List Tok) (hv : p.view = x :: l) :
    ∃ pre, stripWS pre = [] ∧ p.pending = pre ++ x :: p.scanIgnoreWhitespace.2.2.s.toks := by
  obtain ⟨p1, pre, h1, -, -, -, hpre, hor⟩ := scanIW_spec p hok
  rw [h1]
  rcases hor with ⟨hnil, -, -⟩ | ⟨y, hy, hp⟩
  · rw [Parser.view] at hv
    rw [hv] at hnil
    exact absurd hnil (List.cons_ne_nil _ _)
  · rw [Parser.view] at hv
    rw [hv] at hy
    have : x = y := (List.cons.inj hy).1
    subst this
    exact ⟨pre, hpre, hp⟩

theorem insertL_none_iff (eof : String) (l : List Tok) :
    (insertL eof l).2.1 = none ↔
      ∃ l1 l2 t l4 rest, l = (Token.INSERT, l1) :: (Token.INTO, l2) :: (Token.IDENT, t) ::
        (Token.VALUES, l4) :: rest := by
  constructor
  · intro h
    by_cases h1 : (headTok l eof).1 ≠ Token.INSERT
    · simp [insertL, h1] at h
    · obtain ⟨l1, r1, rfl⟩ := headTok_tag_cons l eof _ (not_not.mp h1) (by decide)
      by_cases h2 : (headTok r1 eof).1 ≠ Token.INTO
      · simp [insertL, headTok] at h
        simp [headTok] at h2
        simp [h2] at h
      · obtain ⟨l2, r2, rfl⟩ := headTok_tag_cons r1 eof _ (not_not.mp h2) (by decide)
        by_cases h3 : (headTok r2 eof).1 ≠ Token.IDENT
        · simp [insertL, headTok] at h
          simp [headTok] at h3
          simp [h3] at h
        · obtain ⟨t, r3, rfl⟩ := headTok_tag_cons r2 eof _ (not_not.mp h3) (by decide)
          by_cases h4 : (headTok r3 eof).1 ≠ Token.VALUES
          · simp [insertL, headTok] at h
            simp [headTok] at h4
            simp [h4] at h
          · obtain ⟨l4, r4, rfl⟩ := headTok_tag_cons r3 eof _ (not_not.mp h4) (by decide)
            exact ⟨l1, l2, t, l4, r4, rfl⟩
  · rintro ⟨l1, l2, t, l4, rest, rfl⟩
    simp [insertL, headTok]

theorem insertL_shape (eof l1 l2 t l4 : String) (rest : List Tok) :
    insertL eof ((Token.INSERT, l1) :: (Token.INTO, l2) :: (Token.IDENT, t) ::
        (Token.VALUES, l4) :: rest) = (⟨none, none, t⟩, none, rest) := by
  simp [insertL, headTok]

/-- On success `ParseInsert` has taken the tokens up to `VALUES` and no more. -/
theorem ParseInsert_consumed (p : Parser) (hok : adjacentWS p.pending = false)
    (x1 x2 x3 x4 : Tok) (rest : List Tok) (hv : p.view = x1 :: x2 :: x3 :: x4 :: rest)
    (h1 : x1.1 = Token.INSERT) (h2 : x2.1 = Token.INTO) (h3 : x3.1 = Token.IDENT)
    (h4 : x4.1 = Token.VALUES) :
    ∃ pre, stripWS pre = [x1, x2, x3] ∧ p.pending = pre ++ x4 :: p.ParseInsert.2.2.s.toks ∧
      p.ParseInsert.2.2.buf.n = 0 := by
  obtain ⟨p1, g1, e1, b1, ok1, v1⟩ := scanIW_view p hok
  obtain ⟨pre1, s1, c1⟩ := scanIW_consumed p hok x1 _ hv
  rw [g1] at c1
  rw [hv] at v1 g1
  simp only [List.tail_cons] at v1
  obtain ⟨p2, g2, e2, b2, ok2, v2⟩ := scanIW_view p1 ok1
  obtain ⟨pre2, s2, c2⟩ := scanIW_consumed p1 ok1 x2 _ v1
  rw [g2] at c2
  rw [v1] at v2 g2
  simp only [List.tail_cons] at v2
  obtain ⟨p3, g3, e3, b3, ok3, v3⟩ := scanIW_view p2 ok2
  obtain ⟨pre3, s3, c3⟩ := scanIW_consumed p2 ok2 x3 _ v2
  rw [g3] at c3
  rw [v2] at v3 g3
  simp only [List.tail_cons] at v3
  obtain ⟨p4, g4, e4, b4, ok4, v4⟩ := scanIW_view p3 ok3
  obtain ⟨pre4, s4, c4⟩ := scanIW_consumed p3 ok3 x4 _ v3
  rw [g4] at c4
  rw [v3] at g4
  have hp1 : p1.pending = p1.s.toks := pending_of_buf_zero p1 (by rw [b1])
  have hp2 : p2.pending = p2.s.toks := pending_of_buf_zero p2 (by rw [b2])
  have hp3 : p3.pending = p3.s.toks := pending_of_buf_zero p3 (by rw [b3])
  simp only [headTok, List.headD_cons] at g1 g2 g3 g4
  have hres : p.ParseInsert.2.2 = p4 := by
    rw [Parser.ParseInsert, g1]
    dsimp only
    rw [if_neg (by simp [h1]), g2]
    dsimp only
    rw [if_neg (by simp [h2]), g3]
    dsimp only
    rw [if_neg (by simp [h3]), g4]
    dsimp only
    rw [if_neg (by simp [h4])]
  rw [hres]
  refine ⟨pre1 ++ x1 :: (pre2 ++ x2 :: (pre3 ++ x3 :: pre4)), ?_, ?_, by rw [b4]⟩
  · have n1 : x1.1 ≠ Token.WS := by rw [h1]; decide
    have n2 : x2.1 ≠ Token.WS := by rw [h2]; decide
    have n3 : x3.1 ≠ Token.WS := by rw [h3]; decide
    rw [stripWS_append, s1, stripWS_cons_ne _ _ n1, stripWS_append, s2, stripWS_cons_ne _ _ n2,
      stripWS_append, s3, stripWS_cons_ne _ _ n3, s4]
    rfl
  · rw [c1, ← hp1, c2, ← hp2, c3, ← hp3, c4]
    simp

/-- C7: `ParseInsert` on a fresh parser succeeds if and only if the first four tokens that
are not whitespace are `INSERT`, `INTO`, an `IDENT` `t`, `VALUES`. It then returns the
`InsertStatement` with `TableName` the literal of `t` and with `MapValues` and `Values` nil,
whatever follows `VALUES`, and the scanner is left with every token after `VALUES` unread
(the pushback slot is empty). -/
theorem ParseInsert_succeeds_iff (s : Scanner) :
    ((NewParser s).ParseInsert.2.1 = none ↔
        ∃ l1 l2 t l4 rest, stripWS s.toks =
          (Token.INSERT, l1) :: (Token.INTO, l2) :: (Token.IDENT, t) :: (Token.VALUES, l4) ::
            rest) ∧
      ∀ l1 l2 t l4 rest, stripWS s.toks =
          (Token.INSERT, l1) :: (Token.INTO, l2) :: (Token.IDENT, t) :: (Token.VALUES, l4) ::
            rest →
        (NewParser s).ParseInsert.1 = { MapValues := none, Values := none, TableName := t } ∧
        ∃ pre, stripWS pre = [(Token.INSERT, l1), (Token.INTO, l2), (Token.IDENT, t)] ∧
          s.toks = pre ++ (Token.VALUES, l4) :: (NewParser s).ParseInsert.2.2.s.toks ∧
          (NewParser s).ParseInsert.2.2.buf.n = 0 := by
  obtain ⟨p1, h⟩ := ParseInsert_fresh s
  constructor
  · rw [h]
    exact insertL_none_iff s.eof (stripWS s.toks)
  · intro l1 l2 t l4 rest hshape
    constructor
    · rw [h, hshape, insertL_shape]
    · exact ParseInsert_consumed (NewParser s) (NewParser_ok s) _ _ _ _ rest hshape rfl rfl rfl rfl

/-- C7 at `INSERT INTO t VALUES (1)`: success, and the value list is left in the scanner. -/
theorem ParseInsert_succeeds_iff_witness :
    (NewParser insertValues).ParseInsert.2.1 = none ∧
      (NewParser insertValues).ParseInsert.1 =
        { MapValues := none, Values := none, TableName := "t" } ∧
      (NewParser insertValues).ParseInsert.2.2.s.toks =
        [(Token.WS, " "), (Token.ILLEGAL, "("), (Token.ILLEGAL, "1"), (Token.ILLEGAL, ")")] :=
  ⟨(ParseInsert_succeeds_iff insertValues).1.mpr ⟨"INSERT", "INTO", "t", "VALUES",
      [(Token.ILLEGAL, "("), (Token.ILLEGAL, "1"), (Token.ILLEGAL, ")")], by decide⟩,
    by decide, by decide⟩

theorem headTok_eq_nthTok (l : List Tok) (eof : String) : headTok l eof = nthTok l eof 0 := by
  cases l <;> rfl

theorem nthTok_tail (l : List Tok) (eof : String) (i : Nat) :
    nthTok l.tail eof i = nthTok l eof (i + 1) := by
  cases l <;> simp [nthTok]

theorem insertL_error_position (eof : String) (l : List Tok) (e : GoError)
    (h : (insertL eof l).2.1 = some e) :
    ∃ i, i < 4 ∧ (∀ j, j < i → (nthTok l eof j).1 = insertExpectTok j) ∧
      (nthTok l eof i).1 ≠ insertExpectTok i ∧
      e = Errorf (insertExpectMsg i) (nthTok l eof i).2 := by
  have k0 : headTok l eof = nthTok l eof 0 := headTok_eq_nthTok l eof
  have k1 : headTok l.tail eof = nthTok l eof 1 := by
    rw [headTok_eq_nthTok, nthTok_tail]
  have k2 : headTok l.tail.tail eof = nthTok l eof 2 := by
    rw [headTok_eq_nthTok, nthTok_tail, nthTok_tail]
  have k3 : headTok l.tail.tail.tail eof = nthTok l eof 3 := by
    rw [headTok_eq_nthTok, nthTok_tail, nthTok_tail, nthTok_tail]
  rw [insertL, k0, k1, k2, k3] at h
  by_cases h0 : (nthTok l eof 0).1 ≠ Token.INSERT
  · rw [if_pos h0] at h
    refine ⟨0, by decide, fun j hj => absurd hj (Nat.not_lt_zero j), h0, ?_⟩
    simpa [insertExpectMsg] using h.symm
  · rw [if_neg h0] at h
    by_cases h1 : (nthTok l eof 1).1 ≠ Token.INTO
    · rw [if_pos h1] at h
      refine ⟨1, by decide, ?_, h1, ?_⟩
      · intro j hj
        interval_cases j
        exact not_not.mp h0
      · simpa [insertExpectMsg] using h.symm
    · rw [if_neg h1] at h
      by_cases h2 : (nthTok l eof 2).1 ≠ Token.IDENT
      · rw [if_pos h2] at h
        refine ⟨2, by decide, ?_, h2, ?_⟩
        · intro j hj
          interval_cases j
          · exact not_not.mp h0
          · exact not_not.mp h1
        · simpa [insertExpectMsg] using h.symm
      · rw [if_neg h2] at h
        by_cases h3 : (nthTok l eof 3).1 ≠ Token.VALUES
        · rw [if_pos h3] at h
          refine ⟨3, by decide, ?_, h3, ?_⟩
          · intro j hj
            interval_cases j
            · exact not_not.mp h0
            · exact not_not.mp h1
            · exact not_not.mp h2
          · simpa [insertExpectMsg] using h.symm
        · rw [if_neg h3] at h
          simp at h

/-- C8: when `ParseInsert` on a fresh parser fails, the error is that of the first of the
four positions `INSERT`, `INTO`, table name, `VALUES` whose token (whitespace apart, the
end-of-input token past the end of the stream) is not the expected one; it has that
position's message and carries that token's literal. In the table-name position every token
that is not `IDENT` gets "table name cannot be a keyword". -/
theorem ParseInsert_error_position (s : Scanner) (e : GoError)
    (h : (NewParser s).ParseInsert.2.1 = some e) :
    ∃ i, i < 4 ∧ (∀ j, j < i → (nthTok (stripWS s.toks) s.eof j).1 = insertExpectTok j) ∧
      (nthTok (stripWS s.toks) s.eof i).1 ≠ insertExpectTok i ∧
      e = Errorf (insertExpectMsg i) (nthTok (stripWS s.toks) s.eof i).2 := by
  obtain ⟨p1, h1⟩ := ParseInsert_fresh s
  rw [h1] at h
  exact insertL_error_position s.eof (stripWS s.toks) e h

/-- C8 at `INSERT INTO SELECT VALUES`: `found "SELECT", table name cannot be a keyword`. -/
theorem ParseInsert_error_position_witness :
    (NewParser insertKeyword).ParseInsert.2.1 =
        some (Errorf "found %q, table name cannot be a keyword" "SELECT") ∧
      ∃ i, i < 4 ∧
        (∀ j, j < i → (nthTok (stripWS insertKeyword.toks) insertKeyword.eof j).1 =
          insertExpectTok j) ∧
        (nthTok (stripWS insertKeyword.toks) insertKeyword.eof i).1 ≠ insertExpectTok i ∧
        Errorf "found %q, table name cannot be a keyword" "SELECT" =
          Errorf (insertExpectMsg i) (nthTok (stripWS insertKeyword.toks) insertKeyword.eof i).2 :=
  ⟨by decide, ParseInsert_error_position insertKeyword _ (by decide)⟩

/-! ## `Parse` -/

/-- The first read of a fresh parser: the first token after at most one leading `WS`. -/
theorem scanIW_fresh (s : Scanner) :
    ∃ p1, (NewParser s).scanIgnoreWhitespace =
        ((headTok (skipOneWS s.toks) s.eof).1, (headTok (skipOneWS s.toks) s.eof).2, p1) ∧
      p1.s.toks = (skipOneWS s.toks).tail ∧ p1.buf.n = 0 := by
  have hp : (NewParser s).pending = s.toks := NewParser_pending s
  cases ht : s.toks with
  | nil =>
    rw [ht] at hp
    obtain ⟨p1, h1, h2, -, h4⟩ := scanIW_nil _ hp
    exact ⟨p1, by simpa [skipOneWS, headTok] using h1, by simp [skipOneWS, h2], by rw [h4]⟩
  | cons a r =>
    rw [ht] at hp
    by_cases ha : a.1 = Token.WS
    · cases r with
      | nil =>
        obtain ⟨p1, h1, h2, -, h4⟩ := scanIW_ws_nil _ a hp ha
        exact ⟨p1, by simpa [skipOneWS, headTok, ha] using h1, by simp [skipOneWS, h2, ha],
          by rw [h4]⟩
      | cons b r2 =>
        obtain ⟨p1, h1, h2, -, h4⟩ := scanIW_ws_cons _ a b r2 hp ha
        exact ⟨p1, by simpa [skipOneWS, headTok, ha] using h1, by simp [skipOneWS, h2, ha],
          by rw [h4]⟩
    · obtain ⟨p1, h1, h2, -, h4⟩ := scanIW_cons _ a r hp ha
      exact ⟨p1, by simpa [skipOneWS, headTok, ha] using h1, by simp [skipOneWS, h2, ha],
        by rw [h4]⟩

/-- C9: when the first token of the stream, after skipping at most one leading `WS` token,
is neither `SELECT` nor `INSERT` (the end-of-input token for an empty stream), `Parse`
returns the nil statement and the error `found "<lit>", expected SELECT/INSERT/CREATE` with
that token's literal. No sub-parser runs: the parser is left as that one
`scanIgnoreWhitespace` left it, the scanner standing right after the token. -/
theorem Parse_unexpected (s : Scanner)
    (hsel : (headTok (skipOneWS s.toks) s.eof).1 ≠ Token.SELECT)
    (hins : (headTok (skipOneWS s.toks) s.eof).1 ≠ Token.INSERT) :
    (NewParser s).Parse =
        some (Statement.nil,
          some (Errorf "found %q, expected SELECT/INSERT/CREATE"
            (headTok (skipOneWS s.toks) s.eof).2),
          (NewParser s).scanIgnoreWhitespace.2.2) ∧
      (NewParser s).scanIgnoreWhitespace.2.2.s.toks = (skipOneWS s.toks).tail ∧
      (NewParser s).scanIgnoreWhitespace.2.2.buf.n = 0 := by
  obtain ⟨p1, h1, h2, h3⟩ := scanIW_fresh s
  rw [Parser.Parse, h1]
  refine ⟨?_, h2, h3⟩
  generalize headTok (skipOneWS s.toks) s.eof = X at hsel hins
  obtain ⟨t, lit⟩ := X
  cases t <;> simp_all

/-- C9 at `DELETE FROM t`. -/
theorem Parse_unexpected_witness :
    ((headTok (skipOneWS deleteFrom.toks) deleteFrom.eof).1 ≠ Token.SELECT ∧
      (headTok (skipOneWS deleteFrom.toks) deleteFrom.eof).1 ≠ Token.INSERT) ∧
      (NewParser deleteFrom).Parse =
        some (Statement.nil, some (Errorf "found %q, expected SELECT/INSERT/CREATE" "DELETE"),
          (NewParser deleteFrom).scanIgnoreWhitespace.2.2) ∧
      (NewParser deleteFrom).scanIgnoreWhitespace.2.2.s.toks =
        [(Token.WS, " "), (Token.FROM, "FROM"), (Token.WS, " "), (Token.IDENT, "t")] :=
  ⟨⟨by decide, by decide⟩, (Parse_unexpected deleteFrom (by decide) (by decide)).1,
    (Parse_unexpected deleteFrom (by decide) (by decide)).2.1⟩

/-! ## The statement that comes with an error -/

theorem fieldLoop_tableName : ∀ (fuel : Nat) (p : Parser) (stmt : SelectStatement)
    (r : SelectStatement × Option GoError × Parser),
    p.fieldLoop fuel stmt = some r → r.1.TableName = stmt.TableName := by
  intro fuel
  induction fuel with
  | zero => intro p stmt r h; simp [Parser.fieldLoop] at h
  | succ fuel ih =>
    intro p stmt r h
    rw [Parser.fieldLoop] at h
    rcases h1 : p.scanIgnoreWhitespace with ⟨tok, lit, p1⟩
    rw [h1] at h
    dsimp only at h
    by_cases hf : tok ≠ Token.IDENT ∧ tok ≠ Token.ASTERISK
    · rw [if_pos hf] at h
      simp only [Option.some.injEq] at h
      rw [← h]
    · rw [if_neg hf] at h
      rcases h2 : p1.scanIgnoreWhitespace with ⟨tok2, lit2, p2⟩
      rw [h2] at h
      dsimp only at h
      by_cases hc : tok2 ≠ Token.COMMA
      · rw [if_pos hc] at h
        simp only [Option.some.injEq] at h
        rw [← h]
      · rw [if_neg hc] at h
        exact ih p2 { stmt with Fields := stmt.Fields ++ [lit] } r h

theorem ParseSelect_error_tableName (p : Parser) (stmt : SelectStatement) (e : GoError)
    (p1 : Parser) (h : p.ParseSelect = some (stmt, some e, p1)) : stmt.TableName = "" := by
  rw [Parser.ParseSelect] at h
  rcases h1 : p.scanIgnoreWhitespace with ⟨tok, lit, q1⟩
  rw [h1] at h
  dsimp only at h
  by_cases hs : tok ≠ Token.SELECT
  · rw [if_pos hs] at h
    simp only [Option.some.injEq, Prod.mk.injEq] at h
    rw [← h.1]
  · rw [if_neg hs] at h
    cases hfl : q1.fieldLoop (q1.s.toks.length + 1) ⟨[], ""⟩ with
    | none => rw [hfl] at h; simp at h
    | some r =>
      have ht := fieldLoop_tableName _ _ _ r hfl
      obtain ⟨stmt2, err2, q2⟩ := r
      rw [hfl] at h
      simp only at ht
      cases err2 with
      | some err =>
        simp only [Option.some.injEq, Prod.mk.injEq] at h
        rw [← h.1, ht]
      | none =>
        dsimp only at h
        rcases h3 : q2.scanIgnoreWhitespace with ⟨tok3, lit3, q3⟩
        rw [h3] at h
        dsimp only at h
        by_cases hfr : tok3 ≠ Token.FROM
        · rw [if_pos hfr] at h
          simp only [Option.some.injEq, Prod.mk.injEq] at h
          rw [← h.1, ht]
        · rw [if_neg hfr] at h
          rcases h4 : q3.scanIgnoreWhitespace with ⟨tok4, lit4, q4⟩
          rw [h4] at h
          dsimp only at h
          by_cases hid : tok4 ≠ Token.IDENT
          · rw [if_pos hid] at h
            simp only [Option.some.injEq, Prod.mk.injEq] at h
            rw [← h.1, ht]
          · rw [if_neg hid] at h
            simp at h

theorem ParseInsert_error_stmt (p : Parser) (stmt : InsertStatement) (e : GoError)
    (p1 : Parser) (h : p.ParseInsert = (stmt, some e, p1)) :
    stmt.MapValues = none ∧ stmt.Values = none ∧
      (stmt.TableName = "" ∨ e.format = "found %q, expected VALUES") := by
  rw [Parser.ParseInsert] at h
  rcases h1 : p.scanIgnoreWhitespace with ⟨tok1, lit1, q1⟩
  rw [h1] at h
  dsimp only at h
  by_cases c1 : tok1 ≠ Token.INSERT
  · rw [if_pos c1] at h
    simp only [Prod.mk.injEq] at h
    rw [← h.1]; simp
  · rw [if_neg c1] at h
    rcases h2 : q1.scanIgnoreWhitespace with ⟨tok2, lit2, q2⟩
    rw [h2] at h
    dsimp only at h
    by_cases c2 : tok2 ≠ Token.INTO
    · rw [if_pos c2] at h
      simp only [Prod.mk.injEq] at h
      rw [← h.1]; simp
    · rw [if_neg c2] at h
      rcases h3 : q2.scanIgnoreWhitespace with ⟨tok3, lit3, q3⟩
      rw [h3] at h
      dsimp only at h
      by_cases c3 : tok3 ≠ Token.IDENT
      · rw [if_pos c3] at h
        simp only [Prod.mk.injEq] at h
        rw [← h.1]; simp
      · rw [if_neg c3] at h
        rcases h4 : q3.scanIgnoreWhitespace with ⟨tok4, lit4, q4⟩
        rw [h4] at h
        dsimp only at h
        by_cases c4 : tok4 ≠ Token.VALUES
        · rw [if_pos c4] at h
          simp only [Prod.mk.injEq, Option.some.injEq] at h
          rw [← h.1, ← h.2.1]; simp [Errorf]
        · rw [if_neg c4] at h
          simp at h

theorem Parse_error_stmt (p : Parser) (st : Statement) (e : GoError) (p1 : Parser)
    (h : p.Parse = some (st, some e, p1)) :
    (st = Statement.nil ∧ e.format = "found %q, expected SELECT/INSERT/CREATE") ∨
      (∃ stmt, st = Statement.select stmt ∧ stmt.TableName = "") ∨
      (∃ stmt, st = Statement.insert stmt ∧ stmt.MapValues = none ∧ stmt.Values = none ∧
        (stmt.TableName = "" ∨ e.format = "found %q, expected VALUES")) := by
  rw [Parser.Parse] at h
  rcases h1 : p.scanIgnoreWhitespace with ⟨tok, lit, q1⟩
  rw [h1] at h
  dsimp only at h
  by_cases hs : tok = Token.SELECT
  · subst hs
    dsimp only at h
    cases hps : q1.unscan.ParseSelect with
    | none => rw [hps] at h; simp at h
    | some r =>
      obtain ⟨stmt, err, q2⟩ := r
      rw [hps] at h
      simp only [Option.some.injEq, Prod.mk.injEq] at h
      obtain ⟨hst, herr, hq⟩ := h
      subst herr
      exact Or.inr (Or.inl ⟨stmt, hst.symm, ParseSelect_error_tableName _ _ _ _ hps⟩)
  · by_cases hi : tok = Token.INSERT
    · subst hi
      dsimp only at h
      rcases hpi : q1.unscan.ParseInsert with ⟨stmt, err, q2⟩
      rw [hpi] at h
      simp only [Option.some.injEq, Prod.mk.injEq] at h
      obtain ⟨hst, herr, hq⟩ := h
      subst herr
      exact Or.inr (Or.inr ⟨stmt, hst.symm, ParseInsert_error_stmt _ _ _ _ hpi⟩)
    · refine Or.inl ?_
      cases tok <;> simp_all [Errorf] <;> rw [← h.2.1]

/-- C10 as stated fails. On `SELECT a b FROM t` the error "expected FROM" comes with a
statement that holds the field `a`, from `ParseSelect` and from `Parse`; on `INSERT INTO t`
the error "expected VALUES" comes with a statement that holds the table name `t`. -/
theorem error_statement_not_empty :
    (NewParser selectTwoNames).ParseSelect.map (fun r => (r.1, r.2.1)) =
        some ({ Fields := ["a"], TableName := "" },
          some (Errorf "found %q, expected FROM" "b")) ∧
      (NewParser selectTwoNames).Parse.map (fun r => (r.1, r.2.1)) =
        some (Statement.select { Fields := ["a"], TableName := "" },
          some (Errorf "found %q, expected FROM" "b")) ∧
      (NewParser insertNoValues).ParseInsert.1 =
        { MapValues := none, Values := none, TableName := "t" } ∧
      (NewParser insertNoValues).ParseInsert.2.1 =
        some (Errorf "found %q, expected VALUES" "") := by
  decide

/-! ## Which streams `Parse` accepts -/

theorem selectL_none_iff (eof : String) (l : List Tok) :
    (selectL eof l).2.1 = none ↔
      ∃ ls f fs lf t rest,
        l = (Token.SELECT, ls) :: (commaSep f fs ++ (Token.FROM, lf) :: (Token.IDENT, t) :: rest) ∧
        isField f.1 = true ∧ (∀ cf ∈ fs, isField cf.2.1 = true) := by
  constructor
  · intro herr
    by_cases hs : (headTok l eof).1 ≠ Token.SELECT
    · simp [selectL, hs] at herr
    · obtain ⟨ls, l1, rfl⟩ := headTok_tag_cons l eof _ (not_not.mp hs) (by decide)
      rcases hfl : fieldsL eof l1 ⟨[], ""⟩ with ⟨stmt2, err2, v⟩
      cases err2 with
      | some err => simp [selectL, headTok, hfl] at herr
      | none =>
        obtain ⟨f, fs, rest, e1, hf, hfs, hX, e2, e3⟩ :=
          fieldsL_ok_shape eof _ l1 _ stmt2 v (le_refl _) hfl
        by_cases hfr : (headTok v eof).1 ≠ Token.FROM
        · simp [selectL, headTok, hfl] at herr
          simp [headTok] at hfr
          simp [hfr] at herr
        · by_cases hid : (headTok v.tail eof).1 ≠ Token.IDENT
          · simp [selectL, headTok, hfl] at herr
            simp [headTok] at hfr hid
            simp [hfr, hid] at herr
          · have hfr0 := not_not.mp hfr
            have hid0 := not_not.mp hid
            rw [e3] at hfr0 hid0
            simp only [headTok, List.headD_cons] at hfr0
            simp only [List.tail_cons] at hid0
            obtain ⟨lf, r1, rfl⟩ := headTok_tag_cons rest eof _ hfr0 (by decide)
            simp only [List.tail_cons] at hid0
            obtain ⟨t, r2, rfl⟩ := headTok_tag_cons r1 eof _ hid0 (by decide)
            exact ⟨ls, f, fs, lf, t, r2, by rw [e1], hf, hfs⟩
  · rintro ⟨ls, f, fs, lf, t, rest, rfl, hf, hfs⟩
    rw [selectL_after_fields eof ls f fs _ hf hfs (by simp [headTok])]
    simp [headTok]

theorem parseL_none_iff (eof : String) (l : List Tok) :
    (parseL eof l).2 = none ↔
      (∃ ls f fs lf t rest,
        l = (Token.SELECT, ls) :: (commaSep f fs ++ (Token.FROM, lf) :: (Token.IDENT, t) :: rest) ∧
        isField f.1 = true ∧ (∀ cf ∈ fs, isField cf.2.1 = true)) ∨
      (∃ l1 l2 t l4 rest, l = (Token.INSERT, l1) :: (Token.INTO, l2) :: (Token.IDENT, t) ::
        (Token.VALUES, l4) :: rest) := by
  by_cases hs : (headTok l eof).1 = Token.SELECT
  · have h1 : (parseL eof l).2 = (selectL eof l).2.1 := by simp only [parseL, hs]
    rw [h1, selectL_none_iff]
    constructor
    · exact Or.inl
    · rintro (h | ⟨l1, l2, t, l4, rest, rfl⟩)
      · exact h
      · simp [headTok] at hs
  · by_cases hi : (headTok l eof).1 = Token.INSERT
    · have h1 : (parseL eof l).2 = (insertL eof l).2.1 := by simp only [parseL, hi]
      rw [h1, insertL_none_iff]
      constructor
      · exact Or.inr
      · rintro (⟨ls, f, fs, lf, t, rest, rfl, -, -⟩ | h)
        · simp [headTok] at hi
        · exact h
    · have h1 : (parseL eof l).2 =
          some (Errorf "found %q, expected SELECT/INSERT/CREATE" (headTok l eof).2) := by
        simp only [parseL]
      rw [h1]
      constructor
      · intro h; simp at h
      · rintro (⟨ls, f, fs, lf, t, rest, rfl, -, -⟩ | ⟨l1, l2, t, l4, rest, rfl⟩)
        · simp [headTok] at hs
        · simp [headTok] at hi

theorem commaSep_length (f : Tok) (fs : List (String × Tok)) :
    (commaSep f fs).length = 2 * fs.length + 1 := by
  induction fs with
  | nil => simp [commaSep]
  | cons cf fs ih =>
    simp only [commaSep, List.flatMap_cons, List.length_cons, List.length_append,
      List.length_nil] at ih ⊢
    omega

/-- C11 as stated fails at `SELECT a FROM t WHERE`: `Parse` returns no error, though the
tokens that are not whitespace are neither a `SELECT` statement followed by the end of input
nor the beginning of an `INSERT` statement. -/
theorem Parse_accepts_trailing_tokens :
    (NewParser selectWhere).Parse.map (fun r => (r.1, r.2.1)) =
        some (Statement.select { Fields := ["a"], TableName := "t" }, none) ∧
      (¬ ∃ ls f fs lf t, stripWS selectWhere.toks =
        (Token.SELECT, ls) :: (commaSep f fs ++ [(Token.FROM, lf), (Token.IDENT, t)])) ∧
      (¬ ∃ l1 l2 t l4 rest, stripWS selectWhere.toks =
        (Token.INSERT, l1) :: (Token.INTO, l2) :: (Token.IDENT, t) :: (Token.VALUES, l4) ::
          rest) := by
  refine ⟨by decide, ?_, ?_⟩
  · rintro ⟨ls, f, fs, lf, t, h⟩
    have hlen := congrArg List.length h
    have e : stripWS selectWhere.toks = [(Token.SELECT, "SELECT"), (Token.IDENT, "a"),
        (Token.FROM, "FROM"), (Token.IDENT, "t"), (Token.IDENT, "WHERE")] := by decide
    rw [e] at hlen
    simp only [List.length_cons, List.length_append, List.length_nil, commaSep_length] at hlen
    omega
  · rintro ⟨l1, l2, t, l4, rest, h⟩
    have e : stripWS selectWhere.toks = [(Token.SELECT, "SELECT"), (Token.IDENT, "a"),
        (Token.FROM, "FROM"), (Token.IDENT, "t"), (Token.IDENT, "WHERE")] := by decide
    rw [e] at h
    simp at h

/-- C11, amended: `Parse` on a fresh parser returns no error if and only if the tokens that
are not whitespace begin with `SELECT f1 , ... , fn FROM t` (every `fi` an `IDENT` or
`ASTERISK` token, `t` an `IDENT` token) or begin with `INSERT INTO t VALUES` (`t` an `IDENT`
token); what follows is not looked at. Every other stream yields an error. -/
theorem Parse_accepts_iff (s : Scanner) :
    (∃ st p1, (NewParser s).Parse = some (st, none, p1)) ↔
      (∃ ls f fs lf t rest, stripWS s.toks =
          (Token.SELECT, ls) :: (commaSep f fs ++ (Token.FROM, lf) :: (Token.IDENT, t) :: rest) ∧
        isField f.1 = true ∧ (∀ cf ∈ fs, isField cf.2.1 = true)) ∨
      (∃ l1 l2 t l4 rest, stripWS s.toks =
        (Token.INSERT, l1) :: (Token.INTO, l2) :: (Token.IDENT, t) :: (Token.VALUES, l4) ::
          rest) := by
  obtain ⟨p1, h⟩ := Parse_fresh s
  rw [← parseL_none_iff s.eof]
  constructor
  · rintro ⟨st, p2, h2⟩
    rw [h] at h2
    simp only [Option.some.injEq, Prod.mk.injEq] at h2
    exact h2.2.1
  · intro hn
    exact ⟨_, p1, by rw [h, hn]⟩

/-- C11, amended, at `SELECT a FROM t WHERE`: the stream begins with a `SELECT` statement,
so it is accepted. -/
theorem Parse_accepts_iff_witness :
    ∃ st p1, (NewParser selectWhere).Parse = some (st, none, p1) :=
  (Parse_accepts_iff selectWhere).mpr (Or.inl ⟨"SELECT", (Token.IDENT, "a"), [], "FROM", "t",
    [(Token.IDENT, "WHERE")], by decide, by decide, by simp⟩)

/-- C12: two token streams with the same tokens apart from whitespace (tags and literals, the
end-of-input token included) are parsed alike: `Parse` on fresh parsers returns the same
statement and the same error. -/
theorem Parse_whitespace_insensitive (s1 s2 : Scanner)
    (htoks : stripWS s1.toks = stripWS s2.toks) (heof : s1.eof = s2.eof) :
    (NewParser s1).Parse.map (fun r => (r.1, r.2.1)) =
      (NewParser s2).Parse.map (fun r => (r.1, r.2.1)) := by
  obtain ⟨p1, h1⟩ := Parse_fresh s1
  obtain ⟨p2, h2⟩ := Parse_fresh s2
  rw [h1, h2, htoks, heof]
  rfl

/-- C12 at `SELECT   a,b   FROM   t` and `SELECT a, b FROM t`. -/
theorem Parse_whitespace_insensitive_witness :
    (stripWS selectWide.toks = stripWS exampleSelect.toks ∧
      selectWide.eof = exampleSelect.eof) ∧
      (NewParser selectWide).Parse.map (fun r => (r.1, r.2.1)) =
        (NewParser exampleSelect).Parse.map (fun r => (r.1, r.2.1)) :=
  ⟨⟨by decide, by decide⟩,
    Parse_whitespace_insensitive selectWide exampleSelect (by decide) (by decide)⟩

/-! ## Pushback -/

theorem scan_buf (p : Parser) : p.scan.2.2.buf = ⟨p.scan.1, p.scan.2.1, 0⟩ := by
  by_cases hn : p.buf.n = 0
  · simp [Parser.scan, hn]
  · simp [Parser.scan, hn]

theorem scanIW_buf (p : Parser) :
    p.scanIgnoreWhitespace.2.2.buf =
      ⟨p.scanIgnoreWhitespace.1, p.scanIgnoreWhitespace.2.1, 0⟩ := by
  by_cases hw : p.scan.1 = Token.WS
  · have h : p.scanIgnoreWhitespace = p.scan.2.2.scan := by
      simp [Parser.scanIgnoreWhitespace, hw]
    rw [h]
    exact scan_buf _
  · have h : p.scanIgnoreWhitespace = p.scan := by
      simp [Parser.scanIgnoreWhitespace, hw]
    rw [h]
    exact scan_buf _

theorem unscan_scan (p : Parser) (t : Token) (lit : String) (hb : p.buf = ⟨t, lit, 0⟩) :
    p.unscan.scan = (t, lit, p) := by
  obtain ⟨s, b⟩ := p
  simp only at hb
  subst hb
  simp [Parser.unscan, Parser.scan]

theorem scan_of_empty_slot (p : Parser) (hn : p.buf.n = 0) :
    p.scan = (p.s.Scan.1, p.s.Scan.2.1,
      { s := p.s.Scan.2.2, buf := ⟨p.s.Scan.1, p.s.Scan.2.1, 0⟩ }) := by
  simp [Parser.scan, hn]

/-- C13: in every parser state, after `scan` has returned `(tok, lit)` and `unscan` was
called, the next `scan` returns the same `(tok, lit)`, leaves the scanner where it was (the
whole parser is the one the first `scan` left) and the pushback slot empty, so that the scan
after it takes a fresh token from the scanner; the same with `scanIgnoreWhitespace` in place
of the first `scan`. -/
theorem pushback_round_trip (p : Parser) :
    (p.scan.2.2.unscan.scan = p.scan ∧
      p.scan.2.2.unscan.scan.2.2.s = p.scan.2.2.s ∧
      p.scan.2.2.unscan.scan.2.2.buf.n = 0 ∧
      p.scan.2.2.unscan.scan.2.2.scan =
        (p.scan.2.2.s.Scan.1, p.scan.2.2.s.Scan.2.1,
          { s := p.scan.2.2.s.Scan.2.2,
            buf := ⟨p.scan.2.2.s.Scan.1, p.scan.2.2.s.Scan.2.1, 0⟩ })) ∧
    (p.scanIgnoreWhitespace.2.2.unscan.scan = p.scanIgnoreWhitespace ∧
      p.scanIgnoreWhitespace.2.2.unscan.scan.2.2.s = p.scanIgnoreWhitespace.2.2.s ∧
      p.scanIgnoreWhitespace.2.2.unscan.scan.2.2.buf.n = 0 ∧
      p.scanIgnoreWhitespace.2.2.unscan.scan.2.2.scan =
        (p.scanIgnoreWhitespace.2.2.s.Scan.1, p.scanIgnoreWhitespace.2.2.s.Scan.2.1,
          { s := p.scanIgnoreWhitespace.2.2.s.Scan.2.2,
            buf := ⟨p.scanIgnoreWhitespace.2.2.s.Scan.1,
              p.scanIgnoreWhitespace.2.2.s.Scan.2.1, 0⟩ })) := by
  have h1 : p.scan.2.2.unscan.scan = p.scan := unscan_scan _ _ _ (scan_buf p)
  have h2 : p.scanIgnoreWhitespace.2.2.unscan.scan = p.scanIgnoreWhitespace :=
    unscan_scan _ _ _ (scanIW_buf p)
  have n1 : p.scan.2.2.buf.n = 0 := by rw [scan_buf]
  have n2 : p.scanIgnoreWhitespace.2.2.buf.n = 0 := by rw [scanIW_buf]
  refine ⟨⟨h1, ?_, ?_, ?_⟩, ⟨h2, ?_, ?_, ?_⟩⟩
  · rw [h1]
  · rw [h1]; exact n1
  · rw [h1]; exact scan_of_empty_slot _ n1
  · rw [h2]
  · rw [h2]; exact n2
  · rw [h2]; exact scan_of_empty_slot _ n2

/-! ## `scanIgnoreWhitespace` -/

theorem scanIW_pending (p : Parser) : p.scanIgnoreWhitespace.2.2.pending =
    p.scanIgnoreWhitespace.2.2.s.toks :=
  pending_of_buf_zero _ (by rw [scanIW_buf])

/-- C16: `scanIgnoreWhitespace` scans once and, only if that gave a `WS` token, once more.
In a parser state whose pending tokens (the pushback slot, then the scanner) do not start
with two `WS` tokens it returns the first pending token that is not whitespace (the
end-of-input token if there is none) with its literal, and takes exactly the tokens up to
and including that one; when the pending tokens start with two `WS` tokens it returns the
second of them. -/
theorem scanIgnoreWhitespace_skips_one (p : Parser) :
    (p.scanIgnoreWhitespace =
        if p.scan.1 = Token.WS then p.scan.2.2.scan else p.scan) ∧
      (leadsTwoWS p.pending = false →
        p.scanIgnoreWhitespace.1 = (headTok (dropWS p.pending) p.s.eof).1 ∧
        p.scanIgnoreWhitespace.2.1 = (headTok (dropWS p.pending) p.s.eof).2 ∧
        p.scanIgnoreWhitespace.2.2.pending = (dropWS p.pending).tail) ∧
      (∀ w1 w2 rest, p.pending = w1 :: w2 :: rest → w1.1 = Token.WS → w2.1 = Token.WS →
        p.scanIgnoreWhitespace.1 = Token.WS ∧ p.scanIgnoreWhitespace.2.1 = w2.2 ∧
        p.scanIgnoreWhitespace.2.2.pending = rest) := by
  refine ⟨?_, ?_, ?_⟩
  · by_cases hw : p.scan.1 = Token.WS
    · simp [Parser.scanIgnoreWhitespace, hw]
    · simp [Parser.scanIgnoreWhitespace, hw]
  · intro h2
    rw [scanIW_pending]
    cases hp : p.pending with
    | nil =>
      obtain ⟨p1, h1, t1, -, -⟩ := scanIW_nil p hp
      rw [h1]
      simp [dropWS, headTok, t1]
    | cons a l =>
      by_cases ha : a.1 = Token.WS
      · cases l with
        | nil =>
          obtain ⟨p1, h1, t1, -, -⟩ := scanIW_ws_nil p a hp ha
          rw [h1]
          simp [dropWS, headTok, t1, ha]
        | cons b r =>
          have hb : b.1 ≠ Token.WS := by
            rw [hp] at h2
            intro hb
            simp [leadsTwoWS, ha, hb] at h2
          obtain ⟨p1, h1, t1, -, -⟩ := scanIW_ws_cons p a b r hp ha
          rw [h1]
          simp [dropWS, headTok, t1, ha, hb]
      · obtain ⟨p1, h1, t1, -, -⟩ := scanIW_cons p a l hp ha
        rw [h1]
        simp [dropWS, headTok, t1, ha]
  · intro w1 w2 rest hp h1 h2
    rw [scanIW_pending]
    obtain ⟨p1, g1, t1, -, -⟩ := scanIW_ws_cons p w1 w2 rest hp h1
    rw [g1]
    exact ⟨h2, rfl, t1⟩

/-- C16 at a parser whose pending tokens are two `WS` tokens and `a`: the second `WS` token
is returned, and `a` is left. -/
theorem scanIgnoreWhitespace_skips_one_witness :
    pendingTwoWS.scanIgnoreWhitespace.1 = Token.WS ∧
      pendingTwoWS.scanIgnoreWhitespace.2.1 = "  " ∧
      pendingTwoWS.scanIgnoreWhitespace.2.2.pending = [(Token.IDENT, "a")] :=
  (scanIgnoreWhitespace_skips_one pendingTwoWS).2.2 (Token.WS, " ") (Token.WS, "  ")
    [(Token.IDENT, "a")] (by decide) rfl rfl

/-! ## Dispatch -/

theorem unscan_scanIW (p : Parser) (t : Token) (lit : String) (hb : p.buf = ⟨t, lit, 0⟩)
    (ht : t ≠ Token.WS) : p.unscan.scanIgnoreWhitespace = (t, lit, p) := by
  simp [Parser.scanIgnoreWhitespace, unscan_scan p t lit hb, ht]

theorem ParseSelect_congr (p q : Parser)
    (h : p.scanIgnoreWhitespace = q.scanIgnoreWhitespace) : p.ParseSelect = q.ParseSelect := by
  rw [Parser.ParseSelect, Parser.ParseSelect, h]

theorem ParseInsert_congr (p q : Parser)
    (h : p.scanIgnoreWhitespace = q.scanIgnoreWhitespace) : p.ParseInsert = q.ParseInsert := by
  rw [Parser.ParseInsert, Parser.ParseInsert, h]

/-- The pushed back keyword is read again: a sub-parser after the peek and `unscan` starts
with the very read the peek made. -/
theorem peek_unscan_scanIW (p : Parser) (h : p.scanIgnoreWhitespace.1 ≠ Token.WS) :
    p.scanIgnoreWhitespace.2.2.unscan.scanIgnoreWhitespace = p.scanIgnoreWhitespace :=
  unscan_scanIW _ _ _ (scanIW_buf p) h

/-- C17: when the first token of the stream, after at most one leading `WS` token, is
`SELECT`, `Parse` on a fresh parser returns the statement and the error that `ParseSelect`
returns on a fresh parser over the same stream, and leaves the parser in the same state;
likewise with `INSERT` and `ParseInsert`. -/
theorem Parse_dispatch_transparent (s : Scanner) :
    ((headTok (skipOneWS s.toks) s.eof).1 = Token.SELECT →
        (NewParser s).Parse =
          (NewParser s).ParseSelect.map (fun r => (Statement.select r.1, r.2.1, r.2.2))) ∧
      ((headTok (skipOneWS s.toks) s.eof).1 = Token.INSERT →
        (NewParser s).Parse =
          some (Statement.insert (NewParser s).ParseInsert.1, (NewParser s).ParseInsert.2.1,
            (NewParser s).ParseInsert.2.2)) := by
  obtain ⟨p1, h1, -, -⟩ := scanIW_fresh s
  have hfst : (NewParser s).scanIgnoreWhitespace.1 = (headTok (skipOneWS s.toks) s.eof).1 := by
    rw [h1]
  constructor
  · intro hsel
    have hre := peek_unscan_scanIW (NewParser s) (by rw [hfst, hsel]; decide)
    have hc := ParseSelect_congr _ _ hre
    rw [h1] at hc
    simp only at hc
    rw [Parser.Parse, h1]
    simp only [hsel, hc]
    cases (NewParser s).ParseSelect with
    | none => rfl
    | some r => rfl
  · intro hins
    have hre := peek_unscan_scanIW (NewParser s) (by rw [hfst, hins]; decide)
    have hc := ParseInsert_congr _ _ hre
    rw [h1] at hc
    simp only at hc
    rw [Parser.Parse, h1]
    simp only [hins, hc]

/-- C17 at `SELECT a, b FROM t` and at ` INSERT INTO t VALUES`. -/
theorem Parse_dispatch_transparent_witness :
    ((headTok (skipOneWS exampleSelect.toks) exampleSelect.eof).1 = Token.SELECT ∧
      (NewParser exampleSelect).Parse =
        (NewParser exampleSelect).ParseSelect.map
          (fun r => (Statement.select r.1, r.2.1, r.2.2))) ∧
    ((headTok (skipOneWS insertLeadingWS.toks) insertLeadingWS.eof).1 = Token.INSERT ∧
      (NewParser insertLeadingWS).Parse =
        some (Statement.insert (NewParser insertLeadingWS).ParseInsert.1,
          (NewParser insertLeadingWS).ParseInsert.2.1,
          (NewParser insertLeadingWS).ParseInsert.2.2)) :=
  ⟨⟨by decide, (Parse_dispatch_transparent exampleSelect).1 (by decide)⟩,
    ⟨by decide, (Parse_dispatch_transparent insertLeadingWS).2 (by decide)⟩⟩

/-! ## The errors `Parse` can return -/

theorem fieldsL_error_format (eof : String) : ∀ (n : Nat) (l : List Tok)
    (stmt : SelectStatement) (e : GoError), l.length ≤ n →
    (fieldsL eof l stmt).2.1 = some e → e.format = "found %q, expected field" := by
  intro n
  induction n with
  | zero =>
    intro l stmt e hl h
    have : l = [] := List.length_eq_zero.mp (Nat.le_zero.mp hl)
    subst this
    simp only [fieldsL, Option.some.injEq] at h
    rw [← h]; rfl
  | succ n ih =>
    intro l stmt e hl h
    match l, hl, h with
    | [], _, h =>
      simp only [fieldsL, Option.some.injEq] at h
      rw [← h]; rfl
    | [f], _, h =>
      by_cases hf : f.1 ≠ Token.IDENT ∧ f.1 ≠ Token.ASTERISK
      · simp only [fieldsL, if_pos hf, Option.some.injEq] at h
        rw [← h]; rfl
      · simp [fieldsL, if_neg hf] at h
    | f :: c :: r, hl, h =>
      by_cases hf : f.1 ≠ Token.IDENT ∧ f.1 ≠ Token.ASTERISK
      · simp only [fieldsL, if_pos hf, Option.some.injEq] at h
        rw [← h]; rfl
      · by_cases hc : c.1 ≠ Token.COMMA
        · simp [fieldsL, if_neg hf, if_pos hc] at h
        · rw [fieldsL, if_neg hf, if_neg hc] at h
          exact ih r _ e (by simp at hl; omega) h

theorem selectL_error_format (eof : String) (l : List Tok) (e : GoError)
    (hs : (headTok l eof).1 = Token.SELECT) (h : (selectL eof l).2.1 = some e) :
    e.format = "found %q, expected field" ∨ e.format = "found %q, expected FROM" ∨
      e.format = "found %q, expected table name" := by
  rw [selectL, if_neg (not_not.mpr hs)] at h
  rcases hfl : fieldsL eof l.tail ⟨[], ""⟩ with ⟨stmt2, err2, v⟩
  rw [hfl] at h
  cases err2 with
  | some err =>
    simp only [Option.some.injEq] at h
    subst h
    exact Or.inl (fieldsL_error_format eof _ l.tail _ err (le_refl _) (by rw [hfl]))
  | none =>
    dsimp only at h
    by_cases hfr : (headTok v eof).1 ≠ Token.FROM
    · rw [if_pos hfr] at h
      simp only [Option.some.injEq] at h
      rw [← h]; exact Or.inr (Or.inl rfl)
    · rw [if_neg hfr] at h
      by_cases hid : (headTok v.tail eof).1 ≠ Token.IDENT
      · rw [if_pos hid] at h
        simp only [Option.some.injEq] at h
        rw [← h]; exact Or.inr (Or.inr rfl)
      · rw [if_neg hid] at h
        simp at h

theorem insertL_error_format (eof : String) (l : List Tok) (e : GoError)
    (hs : (headTok l eof).1 = Token.INSERT) (h : (insertL eof l).2.1 = some e) :
    e.format = "found %q, expected INTO" ∨
      e.format = "found %q, table name cannot be a keyword" ∨
      e.format = "found %q, expected VALUES" := by
  rw [insertL, if_neg (not_not.mpr hs)] at h
  by_cases h2 : (headTok l.tail eof).1 ≠ Token.INTO
  · rw [if_pos h2] at h
    simp only [Option.some.injEq] at h
    rw [← h]; exact Or.inl rfl
  · rw [if_neg h2] at h
    by_cases h3 : (headTok l.tail.tail eof).1 ≠ Token.IDENT
    · rw [if_pos h3] at h
      simp only [Option.some.injEq] at h
      rw [← h]; exact Or.inr (Or.inl rfl)
    · rw [if_neg h3] at h
      by_cases h4 : (headTok l.tail.tail.tail eof).1 ≠ Token.VALUES
      · rw [if_pos h4] at h
        simp only [Option.some.injEq] at h
        rw [← h]; exact Or.inr (Or.inr rfl)
      · rw [if_neg h4] at h
        simp at h

theorem parseL_error_format (eof : String) (l : List Tok) (e : GoError)
    (h : (parseL eof l).2 = some e) :
    e.format = "found %q, expected field" ∨ e.format = "found %q, expected FROM" ∨
      e.format = "found %q, expected table name" ∨ e.format = "found %q, expected INTO" ∨
      e.format = "found %q, table name cannot be a keyword" ∨
      e.format = "found %q, expected VALUES" ∨
      e.format = "found %q, expected SELECT/INSERT/CREATE" := by
  by_cases hs : (headTok l eof).1 = Token.SELECT
  · have h1 : (parseL eof l).2 = (selectL eof l).2.1 := by simp only [parseL, hs]
    rw [h1] at h
    rcases selectL_error_format eof l e hs h with g | g | g
    · exact Or.inl g
    · exact Or.inr (Or.inl g)
    · exact Or.inr (Or.inr (Or.inl g))
  · by_cases hi : (headTok l eof).1 = Token.INSERT
    · have h1 : (parseL eof l).2 = (insertL eof l).2.1 := by simp only [parseL, hi]
      rw [h1] at h
      rcases insertL_error_format eof l e hi h with g | g | g
      · exact Or.inr (Or.inr (Or.inr (Or.inl g)))
      · exact Or.inr (Or.inr (Or.inr (Or.inr (Or.inl g))))
      · exact Or.inr (Or.inr (Or.inr (Or.inr (Or.inr (Or.inl g)))))
    · have h1 : (parseL eof l).2 =
          some (Errorf "found %q, expected SELECT/INSERT/CREATE" (headTok l eof).2) := by
        simp only [parseL]
      rw [h1] at h
      simp only [Option.some.injEq] at h
      rw [← h]
      exact Or.inr (Or.inr (Or.inr (Or.inr (Or.inr (Or.inr rfl)))))

/-- C19: the first expectation of a sub-parser cannot fail when it is reached through
`Parse` on a fresh parser. Whatever the token stream, an error of `Parse` is never
"expected SELECT", never "expected INSERT", and never the "Could not parse the statement"
of the statement after the `switch`. -/
theorem Parse_never_first_expectation (s : Scanner) (st : Statement) (e : GoError)
    (p1 : Parser) (h : (NewParser s).Parse = some (st, some e, p1)) :
    e.format ≠ "found %q, expected SELECT" ∧ e.format ≠ "found %q, expected INSERT" ∧
      e.format ≠ "Could not parse the statement" := by
  obtain ⟨p2, h2⟩ := Parse_fresh s
  rw [h2] at h
  simp only [Option.some.injEq, Prod.mk.injEq] at h
  rcases parseL_error_format s.eof _ e h.2.1 with g | g | g | g | g | g | g <;>
    rw [g] <;> decide

/-- C19 at `SELECT FROM t`: the error is "expected field". -/
theorem Parse_never_first_expectation_witness :
    (NewParser selectNoField).Parse =
        some (Statement.select { Fields := [], TableName := "" },
          some (Errorf "found %q, expected field" "FROM"),
          selectNoFieldDone) ∧
      ((Errorf "found %q, expected field" "FROM").format ≠ "found %q, expected SELECT" ∧
        (Errorf "found %q, expected field" "FROM").format ≠ "found %q, expected INSERT" ∧
        (Errorf "found %q, expected field" "FROM").format ≠ "Could not parse the statement") :=
  ⟨rfl, Parse_never_first_expectation selectNoField _ _ _ rfl⟩

/-! ## The log of calls -/

theorem scanLog_eq (p : Parser) (log : List Event) :
    p.scanLog log = (p.scan.1, p.scan.2.1, p.scan.2.2, log ++ [⟨false, p.buf.n, 0⟩]) := by
  have h := scan_buf p
  simp only [Parser.scanLog, h]

theorem scanIWLog_eq (p : Parser) (log : List Event) :
    p.scanIgnoreWhitespaceLog log =
      (p.scanIgnoreWhitespace.1, p.scanIgnoreWhitespace.2.1, p.scanIgnoreWhitespace.2.2,
        log ++ scanIWEvents p) := by
  have hb := scan_buf p
  by_cases hw : p.scan.1 = Token.WS
  · simp [Parser.scanIgnoreWhitespaceLog, Parser.scanIgnoreWhitespace, scanLog_eq, hw,
      scanIWEvents, hb]
  · simp [Parser.scanIgnoreWhitespaceLog, Parser.scanIgnoreWhitespace, scanLog_eq, hw,
      scanIWEvents]

theorem logOK_append (l1 l2 : List Event) : ∀ (b : Bool),
    logOK b (l1 ++ l2) = (logOK b l1 && logOK (lastScan b l1) l2) := by
  induction l1 with
  | nil => intro b; simp [logOK, lastScan]
  | cons e r ih =>
    intro b
    have h := ih (!e.isUnscan)
    simp only [List.cons_append, logOK, lastScan, Bool.and_assoc, List.append_eq]
    rw [h]

theorem lastScan_append (l1 l2 : List Event) : ∀ (b : Bool),
    lastScan b (l1 ++ l2) = lastScan (lastScan b l1) l2 := by
  induction l1 with
  | nil => intro b; simp [lastScan]
  | cons e r ih =>
    intro b
    have h := ih (!e.isUnscan)
    simp only [List.cons_append, lastScan, List.append_eq]
    exact h

/-- One `scanIgnoreWhitespace` keeps the log in order and ends it with a `scan`. -/
theorem logOK_scanIW (p : Parser) (log : List Event) (hlog : logOK false log = true)
    (hn : p.buf.n ≤ 1) :
    logOK false (log ++ scanIWEvents p) = true ∧
      lastScan false (log ++ scanIWEvents p) = true ∧
      p.scanIgnoreWhitespace.2.2.buf.n = 0 := by
  refine ⟨?_, ?_, by rw [scanIW_buf]⟩
  · rw [logOK_append, hlog]
    by_cases hw : p.scan.1 = Token.WS
    · simp [scanIWEvents, hw, logOK, hn]
    · simp [scanIWEvents, hw, logOK, hn]
  · rw [lastScan_append]
    by_cases hw : p.scan.1 = Token.WS
    · simp [scanIWEvents, hw, lastScan]
    · simp [scanIWEvents, hw, lastScan]

/-- An `unscan` right after a read keeps the log in order. -/
theorem logOK_unscan (p : Parser) (log : List Event) (hlog : logOK false log = true)
    (hlast : lastScan false log = true) (hn : p.buf.n = 0) :
    logOK false (p.unscanLog log).2 = true ∧ (p.unscanLog log).1.buf.n ≤ 1 ∧
      (p.unscanLog log).1 = p.unscan := by
  refine ⟨?_, ?_, rfl⟩
  · simp only [Parser.unscanLog]
    rw [logOK_append, hlog, hlast]
    simp [logOK, hn, Parser.unscan]
  · simp [Parser.unscanLog, Parser.unscan]

/-- The logging `ParseInsert` returns what `ParseInsert` returns, and keeps the log in
order. -/
theorem ParseInsertLog_spec (p : Parser) (log : List Event) (hlog : logOK false log = true)
    (hn : p.buf.n ≤ 1) :
    ∃ log1, p.ParseInsertLog log =
        (p.ParseInsert.1, p.ParseInsert.2.1, p.ParseInsert.2.2, log1) ∧
      logOK false log1 = true := by
  rw [Parser.ParseInsertLog, Parser.ParseInsert, scanIWLog_eq]
  obtain ⟨k1, -, n1⟩ := logOK_scanIW p log hlog hn
  rcases h1 : p.scanIgnoreWhitespace with ⟨tok1, lit1, q1⟩
  rw [h1] at n1
  dsimp only at n1 ⊢
  by_cases c1 : tok1 ≠ Token.INSERT
  · rw [if_pos c1, if_pos c1]
    exact ⟨_, rfl, k1⟩
  · rw [if_neg c1, if_neg c1, scanIWLog_eq]
    obtain ⟨k2, -, n2⟩ := logOK_scanIW q1 _ k1 (by omega)
    rcases h2 : q1.scanIgnoreWhitespace with ⟨tok2, lit2, q2⟩
    rw [h2] at n2
    dsimp only at n2 ⊢
    by_cases c2 : tok2 ≠ Token.INTO
    · rw [if_pos c2, if_pos c2]
      exact ⟨_, rfl, k2⟩
    · rw [if_neg c2, if_neg c2, scanIWLog_eq]
      obtain ⟨k3, -, n3⟩ := logOK_scanIW q2 _ k2 (by omega)
      rcases h3 : q2.scanIgnoreWhitespace with ⟨tok3, lit3, q3⟩
      rw [h3] at n3
      dsimp only at n3 ⊢
      by_cases c3 : tok3 ≠ Token.IDENT
      · rw [if_pos c3, if_pos c3]
        exact ⟨_, rfl, k3⟩
      · rw [if_neg c3, if_neg c3, scanIWLog_eq]
        obtain ⟨k4, -, n4⟩ := logOK_scanIW q3 _ k3 (by omega)
        rcases h4 : q3.scanIgnoreWhitespace with ⟨tok4, lit4, q4⟩
        dsimp only
        by_cases c4 : tok4 ≠ Token.VALUES
        · rw [if_pos c4, if_pos c4]
          exact ⟨_, rfl, k4⟩
        · rw [if_neg c4, if_neg c4]
          exact ⟨_, rfl, k4⟩

/-- The logging field loop returns what the field loop returns, and keeps the log in order. -/
theorem fieldLoopLog_spec : ∀ (fuel : Nat) (p : Parser) (log : List Event)
    (stmt : SelectStatement), logOK false log = true → p.buf.n ≤ 1 →
    (p.fieldLoop fuel stmt = none → p.fieldLoopLog fuel log stmt = none) ∧
      (∀ r, p.fieldLoop fuel stmt = some r →
        ∃ log1, p.fieldLoopLog fuel log stmt = some (r.1, r.2.1, r.2.2, log1) ∧
          logOK false log1 = true ∧ r.2.2.buf.n ≤ 1) := by
  intro fuel
  induction fuel with
  | zero =>
    intro p log stmt _ _
    exact ⟨fun _ => rfl, fun r h => by simp [Parser.fieldLoop] at h⟩
  | succ fuel ih =>
    intro p log stmt hlog hn
    rw [Parser.fieldLoopLog, Parser.fieldLoop, scanIWLog_eq]
    obtain ⟨k1, -, n1⟩ := logOK_scanIW p log hlog hn
    rcases h1 : p.scanIgnoreWhitespace with ⟨tok, lit, q1⟩
    rw [h1] at n1
    dsimp only at n1 ⊢
    by_cases hf : tok ≠ Token.IDENT ∧ tok ≠ Token.ASTERISK
    · rw [if_pos hf, if_pos hf]
      refine ⟨fun h => by simp at h, fun r h => ?_⟩
      simp only [Option.some.injEq] at h
      subst h
      exact ⟨_, rfl, k1, by dsimp only; omega⟩
    · rw [if_neg hf, if_neg hf, scanIWLog_eq]
      obtain ⟨k2, l2, n2⟩ := logOK_scanIW q1 _ k1 (by omega)
      rcases h2 : q1.scanIgnoreWhitespace with ⟨tok2, lit2, q2⟩
      rw [h2] at n2
      dsimp only at n2 ⊢
      by_cases hc : tok2 ≠ Token.COMMA
      · rw [if_pos hc, if_pos hc]
        obtain ⟨u1, u2, u3⟩ := logOK_unscan q2 _ k2 l2 n2
        refine ⟨fun h => by simp at h, fun r h => ?_⟩
        simp only [Option.some.injEq] at h
        subst h
        exact ⟨_, by rw [u3], u1, by dsimp only; rw [← u3]; exact u2⟩
      · rw [if_neg hc, if_neg hc]
        exact ih q2 _ _ k2 (by omega)

/-- The logging `ParseSelect` returns what `ParseSelect` returns, and keeps the log in
order. -/
theorem ParseSelectLog_spec (p : Parser) (log : List Event) (hlog : logOK false log = true)
    (hn : p.buf.n ≤ 1) :
    (p.ParseSelect = none → p.ParseSelectLog log = none) ∧
      (∀ r, p.ParseSelect = some r →
        ∃ log1, p.ParseSelectLog log = some (r.1, r.2.1, r.2.2, log1) ∧
          logOK false log1 = true) := by
  rw [Parser.ParseSelectLog, Parser.ParseSelect, scanIWLog_eq]
  obtain ⟨k1, -, n1⟩ := logOK_scanIW p log hlog hn
  rcases h1 : p.scanIgnoreWhitespace with ⟨tok1, lit1, q1⟩
  rw [h1] at n1
  dsimp only at n1 ⊢
  by_cases hs : tok1 ≠ Token.SELECT
  · rw [if_pos hs, if_pos hs]
    refine ⟨fun h => by simp at h, fun r h => ?_⟩
    simp only [Option.some.injEq] at h
    subst h
    exact ⟨_, rfl, k1⟩
  · rw [if_neg hs, if_neg hs]
    obtain ⟨f1, f2⟩ := fieldLoopLog_spec (q1.s.toks.length + 1) q1 _ ⟨[], ""⟩ k1 (by omega)
    cases hfl : q1.fieldLoop (q1.s.toks.length + 1) ⟨[], ""⟩ with
    | none =>
      rw [f1 hfl]
      exact ⟨fun _ => rfl, fun r h => by simp at h⟩
    | some r0 =>
      obtain ⟨log2, g1, k2, n2⟩ := f2 r0 hfl
      obtain ⟨stmt2, err2, q2⟩ := r0
      rw [g1]
      dsimp only at n2 ⊢
      cases err2 with
      | some err =>
        refine ⟨fun h => by simp at h, fun r h => ?_⟩
        simp only [Option.some.injEq] at h
        subst h
        exact ⟨_, rfl, k2⟩
      | none =>
        dsimp only
        rw [scanIWLog_eq]
        obtain ⟨k3, -, n3⟩ := logOK_scanIW q2 _ k2 n2
        rcases h3 : q2.scanIgnoreWhitespace with ⟨tok3, lit3, q3⟩
        rw [h3] at n3
        dsimp only at n3 ⊢
        by_cases hfr : tok3 ≠ Token.FROM
        · rw [if_pos hfr, if_pos hfr]
          refine ⟨fun h => by simp at h, fun r h => ?_⟩
          simp only [Option.some.injEq] at h
          subst h
          exact ⟨_, rfl, k3⟩
        · rw [if_neg hfr, if_neg hfr, scanIWLog_eq]
          obtain ⟨k4, -, n4⟩ := logOK_scanIW q3 _ k3 (by omega)
          rcases h4 : q3.scanIgnoreWhitespace with ⟨tok4, lit4, q4⟩
          dsimp only
          by_cases hid : tok4 ≠ Token.IDENT
          · rw [if_pos hid, if_pos hid]
            refine ⟨fun h => by simp at h, fun r h => ?_⟩
            simp only [Option.some.injEq] at h
            subst h
            exact ⟨_, rfl, k4⟩
          · rw [if_neg hid, if_neg hid]
            refine ⟨fun h => by simp at h, fun r h => ?_⟩
            simp only [Option.some.injEq] at h
            subst h
            exact ⟨_, rfl, k4⟩

/-- The logging `Parse` returns what `Parse` returns, and keeps the log in order. -/
theorem ParseLog_spec (p : Parser) (log : List Event) (hlog : logOK false log = true)
    (hn : p.buf.n ≤ 1) :
    (p.Parse = none → p.ParseLog log = none) ∧
      (∀ r, p.Parse = some r →
        ∃ log1, p.ParseLog log = some (r.1, r.2.1, r.2.2, log1) ∧
          logOK false log1 = true) := by
  rw [Parser.ParseLog, Parser.Parse, scanIWLog_eq]
  obtain ⟨k1, l1, n1⟩ := logOK_scanIW p log hlog hn
  rcases h1 : p.scanIgnoreWhitespace with ⟨tok, lit, q1⟩
  rw [h1] at n1
  dsimp only at n1 ⊢
  obtain ⟨u1, u2, u3⟩ := logOK_unscan q1 _ k1 l1 n1
  by_cases hs : tok = Token.SELECT
  · subst hs
    dsimp only
    obtain ⟨f1, f2⟩ := ParseSelectLog_spec _ _ u1 u2
    rw [u3] at f1 f2 ⊢
    cases hps : q1.unscan.ParseSelect with
    | none =>
      rw [f1 hps]
      exact ⟨fun _ => rfl, fun r h => by simp at h⟩
    | some r0 =>
      obtain ⟨log2, g1, k2⟩ := f2 r0 hps
      rw [g1]
      refine ⟨fun h => by simp at h, fun r h => ?_⟩
      simp only [Option.some.injEq] at h
      subst h
      exact ⟨log2, rfl, k2⟩
  · by_cases hi : tok = Token.INSERT
    · subst hi
      dsimp only
      obtain ⟨log2, g1, k2⟩ := ParseInsertLog_spec _ _ u1 u2
      rw [u3] at g1 ⊢
      rw [g1]
      refine ⟨fun h => by simp at h, fun r h => ?_⟩
      simp only [Option.some.injEq] at h
      subst h
      exact ⟨log2, rfl, k2⟩
    · refine ⟨fun h => ?_, fun r h => ?_⟩
      · cases tok <;> simp_all
      · refine ⟨log ++ scanIWEvents p, ?_, k1⟩
        cases tok <;> simp_all <;> (rw [← h]; exact ⟨rfl, rfl, rfl⟩)

theorem logOK_get : ∀ (log : List Event) (b : Bool), logOK b log = true →
    ∀ (i : Nat) (e : Event), log[i]? = some e →
      e.nBefore ≤ 1 ∧ e.nAfter ≤ 1 ∧
        (e.isUnscan = true → e.nBefore = 0 ∧
          ((i = 0 ∧ b = true) ∨
            ∃ j e0, i = j + 1 ∧ log[j]? = some e0 ∧ e0.isUnscan = false)) := by
  intro log
  induction log with
  | nil => intro b _ i e h; simp at h
  | cons a r ih =>
    intro b hok i e h
    simp only [logOK, Bool.and_eq_true, decide_eq_true_eq, Bool.or_eq_true,
      Bool.not_eq_true', beq_iff_eq] at hok
    obtain ⟨⟨⟨h1, h2⟩, h3⟩, h4⟩ := hok
    cases i with
    | zero =>
      simp only [List.getElem?_cons_zero, Option.some.injEq] at h
      subst h
      refine ⟨h1, h2, fun hu => ?_⟩
      rcases h3 with h3 | h3
      · rw [hu] at h3; exact absurd h3 (by decide)
      · exact ⟨h3.2, Or.inl ⟨rfl, h3.1⟩⟩
    | succ j =>
      simp only [List.getElem?_cons_succ] at h
      obtain ⟨g1, g2, g3⟩ := ih _ h4 j e h
      refine ⟨g1, g2, fun hu => ?_⟩
      obtain ⟨g4, g5⟩ := g3 hu
      refine ⟨g4, Or.inr ?_⟩
      rcases g5 with ⟨hj, hb⟩ | ⟨k, e0, hk, hk2, hk3⟩
      · subst hj
        exact ⟨0, a, rfl, by simp, by simpa using hb⟩
      · subst hk
        exact ⟨k + 1, e0, rfl, by simpa using hk2, hk3⟩

/-- C15: in the run of `Parse` on a fresh parser, whatever the token stream, `buf.n` is 0 or
1 before and after every call of `scan` and `unscan`, and every call of `unscan` finds
`buf.n = 0` and comes right after a call of `scan`: `unscan` is never the first call and
never follows another `unscan`. The run is that of the logging `Parse`, which returns what
`Parse` returns. -/
theorem Parse_unscan_discipline (s : Scanner) :
    ∃ r log, (NewParser s).Parse = some r ∧
      (NewParser s).ParseLog [] = some (r.1, r.2.1, r.2.2, log) ∧
      logOK false log = true ∧
      ∀ (i : Nat) (e : Event), log[i]? = some e →
        e.nBefore ≤ 1 ∧ e.nAfter ≤ 1 ∧
          (e.isUnscan = true → e.nBefore = 0 ∧
            ∃ j e0, i = j + 1 ∧ log[j]? = some e0 ∧ e0.isUnscan = false) := by
  obtain ⟨p1, h⟩ := Parse_fresh s
  obtain ⟨-, f2⟩ := ParseLog_spec (NewParser s) [] rfl (by simp [NewParser])
  obtain ⟨log, g1, k⟩ := f2 _ h
  refine ⟨_, log, h, g1, k, fun i e hi => ?_⟩
  obtain ⟨a1, a2, a3⟩ := logOK_get log false k i e hi
  refine ⟨a1, a2, fun hu => ?_⟩
  obtain ⟨b1, b2⟩ := a3 hu
  refine ⟨b1, ?_⟩
  rcases b2 with ⟨-, hb⟩ | hj
  · exact absurd hb (by decide)
  · exact hj

/-! ## Termination -/

theorem countComma_cons (a : Tok) (l : List Tok) :
    countComma (a :: l) = countComma l + (if a.1 = Token.COMMA then 1 else 0) := by
  simp [countComma, List.countP_cons]

/-- A read leaves no more `COMMA` tokens pending than there were, and one fewer if it
returns a `COMMA`. -/
theorem scanIW_countComma (p : Parser) :
    countComma p.scanIgnoreWhitespace.2.2.pending +
      (if p.scanIgnoreWhitespace.1 = Token.COMMA then 1 else 0) ≤ countComma p.pending := by
  rw [scanIW_pending]
  cases hp : p.pending with
  | nil =>
    obtain ⟨p1, h1, t1, -, -⟩ := scanIW_nil p hp
    rw [h1]
    simp [t1, countComma]
  | cons a l =>
    by_cases ha : a.1 = Token.WS
    · cases l with
      | nil =>
        obtain ⟨p1, h1, t1, -, -⟩ := scanIW_ws_nil p a hp ha
        rw [h1]
        simp [t1, countComma]
      | cons b r =>
        obtain ⟨p1, h1, t1, -, -⟩ := scanIW_ws_cons p a b r hp ha
        rw [h1]
        simp only [t1, countComma_cons]
        omega
    · obtain ⟨p1, h1, t1, -, -⟩ := scanIW_cons p a l hp ha
      rw [h1]
      simp only [t1, countComma_cons]
      omega

theorem countComma_le_length (l : List Tok) : countComma l ≤ l.length :=
  List.countP_le_length _

/-- The field loop returns within one iteration more than there are `COMMA` tokens
pending. -/
theorem fieldLoop_total : ∀ (fuel : Nat) (p : Parser) (stmt : SelectStatement),
    countComma p.pending < fuel → ∃ r, p.fieldLoop fuel stmt = some r := by
  intro fuel
  induction fuel with
  | zero => intro p stmt h; exact absurd h (Nat.not_lt_zero _)
  | succ fuel ih =>
    intro p stmt hlt
    rw [Parser.fieldLoop]
    have c1 := scanIW_countComma p
    rcases h1 : p.scanIgnoreWhitespace with ⟨tok, lit, q1⟩
    rw [h1] at c1
    dsimp only at c1 ⊢
    by_cases hf : tok ≠ Token.IDENT ∧ tok ≠ Token.ASTERISK
    · rw [if_pos hf]; exact ⟨_, rfl⟩
    · rw [if_neg hf]
      have c2 := scanIW_countComma q1
      rcases h2 : q1.scanIgnoreWhitespace with ⟨tok2, lit2, q2⟩
      rw [h2] at c2
      dsimp only at c2 ⊢
      by_cases hc : tok2 ≠ Token.COMMA
      · rw [if_pos hc]; exact ⟨_, rfl⟩
      · rw [if_neg hc]
        rw [if_pos (not_not.mp hc)] at c2
        exact ih q2 _ (by omega)

/-- More iterations than the field loop needs change nothing. -/
theorem fieldLoop_mono : ∀ (fuel : Nat) (p : Parser) (stmt : SelectStatement)
    (r : SelectStatement × Option GoError × Parser), p.fieldLoop fuel stmt = some r →
    ∀ k, p.fieldLoop (fuel + k) stmt = some r := by
  intro fuel
  induction fuel with
  | zero => intro p stmt r h; simp [Parser.fieldLoop] at h
  | succ fuel ih =>
    intro p stmt r h k
    rw [Nat.add_right_comm, Parser.fieldLoop]
    rw [Parser.fieldLoop] at h
    rcases h1 : p.scanIgnoreWhitespace with ⟨tok, lit, q1⟩
    rw [h1] at h
    dsimp only at h ⊢
    by_cases hf : tok ≠ Token.IDENT ∧ tok ≠ Token.ASTERISK
    · rw [if_pos hf] at h ⊢; exact h
    · rw [if_neg hf] at h ⊢
      rcases h2 : q1.scanIgnoreWhitespace with ⟨tok2, lit2, q2⟩
      rw [h2] at h
      dsimp only at h ⊢
      by_cases hc : tok2 ≠ Token.COMMA
      · rw [if_pos hc] at h ⊢; exact h
      · rw [if_neg hc] at h ⊢
        exact ih q2 _ r h k

theorem ParseSelect_total (p : Parser) : ∃ r, p.ParseSelect = some r := by
  rw [Parser.ParseSelect]
  have hb := scanIW_pending p
  rcases h1 : p.scanIgnoreWhitespace with ⟨tok1, lit1, q1⟩
  rw [h1] at hb
  dsimp only at hb ⊢
  by_cases hs : tok1 ≠ Token.SELECT
  · rw [if_pos hs]; exact ⟨_, rfl⟩
  · rw [if_neg hs]
    have hlt : countComma q1.pending < q1.s.toks.length + 1 := by
      rw [hb]; exact Nat.lt_succ_of_le (countComma_le_length _)
    obtain ⟨r0, hr0⟩ := fieldLoop_total _ q1 ⟨[], ""⟩ hlt
    obtain ⟨stmt2, err2, q2⟩ := r0
    rw [hr0]
    cases err2 with
    | some err => exact ⟨_, rfl⟩
    | none =>
      dsimp only
      rcases h3 : q2.scanIgnoreWhitespace with ⟨tok3, lit3, q3⟩
      dsimp only
      by_cases hfr : tok3 ≠ Token.FROM
      · rw [if_pos hfr]; exact ⟨_, rfl⟩
      · rw [if_neg hfr]
        rcases h4 : q3.scanIgnoreWhitespace with ⟨tok4, lit4, q4⟩
        dsimp only
        by_cases hid : tok4 ≠ Token.IDENT
        · rw [if_pos hid]; exact ⟨_, rfl⟩
        · rw [if_neg hid]; exact ⟨_, rfl⟩

theorem Parse_total (p : Parser) : ∃ r, p.Parse = some r := by
  rw [Parser.Parse]
  rcases h1 : p.scanIgnoreWhitespace with ⟨tok, lit, q1⟩
  dsimp only
  by_cases hs : tok = Token.SELECT
  · subst hs
    dsimp only
    obtain ⟨r0, hr0⟩ := ParseSelect_total q1.unscan
    rw [hr0]
    exact ⟨_, rfl⟩
  · by_cases hi : tok = Token.INSERT
    · subst hi
      exact ⟨_, rfl⟩
    · cases tok <;> simp_all

theorem scanIWEvents_length (p : Parser) : (scanIWEvents p).length ≤ 2 := by
  by_cases hw : p.scan.1 = Token.WS
  · simp [scanIWEvents, hw]
  · simp [scanIWEvents, hw]

/-- The field loop makes at most four calls for every `COMMA` token pending, and five
more. -/
theorem fieldLoopLog_length : ∀ (fuel : Nat) (p : Parser) (log : List Event)
    (stmt : SelectStatement) (r : SelectStatement × Option GoError × Parser × List Event),
    p.fieldLoopLog fuel log stmt = some r →
    r.2.2.2.length ≤ log.length + 4 * countComma p.pending + 5 := by
  intro fuel
  induction fuel with
  | zero => intro p log stmt r h; simp [Parser.fieldLoopLog] at h
  | succ fuel ih =>
    intro p log stmt r h
    rw [Parser.fieldLoopLog, scanIWLog_eq] at h
    have c1 := scanIW_countComma p
    have e1 := scanIWEvents_length p
    rcases h1 : p.scanIgnoreWhitespace with ⟨tok, lit, q1⟩
    rw [h1] at h c1
    dsimp only at h c1
    by_cases hf : tok ≠ Token.IDENT ∧ tok ≠ Token.ASTERISK
    · rw [if_pos hf] at h
      simp only [Option.some.injEq] at h
      subst h
      simp only [List.length_append]
      omega
    · rw [if_neg hf, scanIWLog_eq] at h
      have c2 := scanIW_countComma q1
      have e2 := scanIWEvents_length q1
      rcases h2 : q1.scanIgnoreWhitespace with ⟨tok2, lit2, q2⟩
      rw [h2] at h c2
      dsimp only at h c2
      by_cases hc : tok2 ≠ Token.COMMA
      · rw [if_pos hc] at h
        simp only [Option.some.injEq] at h
        subst h
        simp only [Parser.unscanLog, List.length_append, List.length_singleton]
        omega
      · rw [if_neg hc] at h
        rw [if_pos (not_not.mp hc)] at c2
        have := ih q2 _ _ r h
        simp only [List.length_append] at this
        omega

theorem ParseInsertLog_length (p : Parser) (log : List Event) :
    (p.ParseInsertLog log).2.2.2.length ≤ log.length + 8 := by
  rw [Parser.ParseInsertLog, scanIWLog_eq]
  have e1 := scanIWEvents_length p
  rcases h1 : p.scanIgnoreWhitespace with ⟨tok1, lit1, q1⟩
  dsimp only
  by_cases c1 : tok1 ≠ Token.INSERT
  · rw [if_pos c1]
    simp only [List.length_append]
    omega
  · rw [if_neg c1, scanIWLog_eq]
    have e2 := scanIWEvents_length q1
    rcases h2 : q1.scanIgnoreWhitespace with ⟨tok2, lit2, q2⟩
    dsimp only
    by_cases c2 : tok2 ≠ Token.INTO
    · rw [if_pos c2]
      simp only [List.length_append]
      omega
    · rw [if_neg c2, scanIWLog_eq]
      have e3 := scanIWEvents_length q2
      rcases h3 : q2.scanIgnoreWhitespace with ⟨tok3, lit3, q3⟩
      dsimp only
      by_cases c3 : tok3 ≠ Token.IDENT
      · rw [if_pos c3]
        simp only [List.length_append]
        omega
      · rw [if_neg c3, scanIWLog_eq]
        have e4 := scanIWEvents_length q3
        rcases h4 : q3.scanIgnoreWhitespace with ⟨tok4, lit4, q4⟩
        dsimp only
        by_cases c4 : tok4 ≠ Token.VALUES
        · rw [if_pos c4]
          simp only [List.length_append]
          omega
        · rw [if_neg c4]
          simp only [List.length_append]
          omega

theorem ParseSelectLog_length (p : Parser) (log : List Event)
    (r : SelectStatement × Option GoError × Parser × List Event)
    (h : p.ParseSelectLog log = some r) :
    r.2.2.2.length ≤ log.length + 4 * countComma p.pending + 11 := by
  rw [Parser.ParseSelectLog, scanIWLog_eq] at h
  have c1 := scanIW_countComma p
  have e1 := scanIWEvents_length p
  rcases h1 : p.scanIgnoreWhitespace with ⟨tok1, lit1, q1⟩
  rw [h1] at h c1
  dsimp only at h c1
  by_cases hs : tok1 ≠ Token.SELECT
  · rw [if_pos hs] at h
    simp only [Option.some.injEq] at h
    subst h
    simp only [List.length_append]
    omega
  · rw [if_neg hs] at h
    cases hfl : q1.fieldLoopLog (q1.s.toks.length + 1) (log ++ scanIWEvents p) ⟨[], ""⟩ with
    | none => rw [hfl] at h; simp at h
    | some r0 =>
      have hl := fieldLoopLog_length _ _ _ _ r0 hfl
      simp only [List.length_append] at hl
      obtain ⟨stmt2, err2, q2, log2⟩ := r0
      rw [hfl] at h
      dsimp only at hl
      cases err2 with
      | some err =>
        simp only [Option.some.injEq] at h
        subst h
        dsimp only
        omega
      | none =>
        dsimp only at h
        rw [scanIWLog_eq] at h
        have e3 := scanIWEvents_length q2
        rcases h3 : q2.scanIgnoreWhitespace with ⟨tok3, lit3, q3⟩
        rw [h3] at h
        dsimp only at h
        by_cases hfr : tok3 ≠ Token.FROM
        · rw [if_pos hfr] at h
          simp only [Option.some.injEq] at h
          subst h
          simp only [List.length_append]
          omega
        · rw [if_neg hfr, scanIWLog_eq] at h
          have e4 := scanIWEvents_length q3
          rcases h4 : q3.scanIgnoreWhitespace with ⟨tok4, lit4, q4⟩
          rw [h4] at h
          dsimp only at h
          by_cases hid : tok4 ≠ Token.IDENT
          · rw [if_pos hid] at h
            simp only [Option.some.injEq] at h
            subst h
            simp only [List.length_append]
            omega
          · rw [if_neg hid] at h
            simp only [Option.some.injEq] at h
            subst h
            simp only [List.length_append]
            omega

theorem unscan_countComma (p : Parser) (h : p.buf.tok ≠ Token.COMMA) (hn : p.buf.n = 0) :
    countComma p.unscan.pending = countComma p.pending := by
  have h1 : p.unscan.pending = (p.buf.tok, p.buf.lit) :: p.s.toks := by
    simp [Parser.unscan, Parser.pending]
  rw [h1, pending_of_buf_zero p hn, countComma_cons, if_neg h]
  rfl

theorem ParseLog_length (p : Parser) (log : List Event)
    (r : Statement × Option GoError × Parser × List Event) (h : p.ParseLog log = some r) :
    r.2.2.2.length ≤ log.length + 4 * countComma p.pending + 14 := by
  rw [Parser.ParseLog, scanIWLog_eq] at h
  have c1 := scanIW_countComma p
  have e1 := scanIWEvents_length p
  have b1 := scanIW_buf p
  rcases h1 : p.scanIgnoreWhitespace with ⟨tok, lit, q1⟩
  rw [h1] at h c1 b1
  dsimp only at h c1 b1
  have hc1 : countComma q1.pending ≤ countComma p.pending := by omega
  by_cases hs : tok = Token.SELECT
  · subst hs
    dsimp only at h
    have hne : q1.buf.tok ≠ Token.COMMA := by rw [b1]; simp
    have cu := unscan_countComma q1 hne (by rw [b1])
    cases hps : (q1.unscanLog (log ++ scanIWEvents p)).1.ParseSelectLog
        (q1.unscanLog (log ++ scanIWEvents p)).2 with
    | none => rw [hps] at h; simp at h
    | some r0 =>
      have hl := ParseSelectLog_length _ _ r0 hps
      simp only [Parser.unscanLog, List.length_append, List.length_singleton] at hl
      obtain ⟨stmt, err, q2, log2⟩ := r0
      rw [hps] at h
      simp only [Option.some.injEq] at h
      subst h
      dsimp only at hl ⊢
      omega
  · by_cases hi : tok = Token.INSERT
    · subst hi
      dsimp only at h
      have hl := ParseInsertLog_length (q1.unscanLog (log ++ scanIWEvents p)).1
        (q1.unscanLog (log ++ scanIWEvents p)).2
      rcases hpi : (q1.unscanLog (log ++ scanIWEvents p)).1.ParseInsertLog
        (q1.unscanLog (log ++ scanIWEvents p)).2 with ⟨stmt, err, q2, log2⟩
      rw [hpi] at h hl
      simp only [Parser.unscanLog, List.length_append, List.length_singleton] at hl
      simp only [Option.some.injEq] at h
      subst h
      dsimp only at hl ⊢
      omega
    · have hr : r.2.2.2 = log ++ scanIWEvents p := by
        cases tok <;> simp_all <;> rw [← h]
      rw [hr, List.length_append]
      omega

theorem fieldLoop_enough (p : Parser) (stmt : SelectStatement) (m : Nat)
    (hm : countComma p.pending ≤ m) :
    ∃ r, p.fieldLoop (m + 1) stmt = some r ∧ ∀ n, m + 1 ≤ n → p.fieldLoop n stmt = some r := by
  obtain ⟨r, hr⟩ := fieldLoop_total (m + 1) p stmt (Nat.lt_succ_of_le hm)
  refine ⟨r, hr, fun n hn => ?_⟩
  obtain ⟨k, rfl⟩ := Nat.exists_eq_add_of_le hn
  exact fieldLoop_mono _ p stmt r hr k

/-- C14: parsing always terminates. On every token stream `Parse`, `ParseSelect` and
`ParseInsert` on a fresh parser return, after a bounded number of calls of `scan` and
`unscan`: at most 14, 11 and 8, with four more for every `COMMA` token of the stream in
`Parse` and `ParseSelect`. The field loop of `ParseSelect` runs at most once per `COMMA`
token of the stream plus one: with that many iterations it returns, and with more it
returns the same; in every parser state it returns within one iteration more than there are
`COMMA` tokens pending. -/
theorem parsing_terminates (s : Scanner) :
    (∃ r log, (NewParser s).Parse = some r ∧
        (NewParser s).ParseLog [] = some (r.1, r.2.1, r.2.2, log) ∧
        log.length ≤ 4 * countComma s.toks + 14) ∧
      (∃ r log, (NewParser s).ParseSelect = some r ∧
        (NewParser s).ParseSelectLog [] = some (r.1, r.2.1, r.2.2, log) ∧
        log.length ≤ 4 * countComma s.toks + 11) ∧
      (∃ log, (NewParser s).ParseInsertLog [] =
          ((NewParser s).ParseInsert.1, (NewParser s).ParseInsert.2.1,
            (NewParser s).ParseInsert.2.2, log) ∧
        log.length ≤ 8) ∧
      (∃ r, (NewParser s).scanIgnoreWhitespace.2.2.fieldLoop (countComma s.toks + 1) ⟨[], ""⟩
          = some r ∧
        ∀ n, countComma s.toks + 1 ≤ n →
          (NewParser s).scanIgnoreWhitespace.2.2.fieldLoop n ⟨[], ""⟩ = some r) ∧
      (∀ (p : Parser) (stmt : SelectStatement),
        ∃ r, p.fieldLoop (countComma p.pending + 1) stmt = some r ∧
          ∀ n, countComma p.pending + 1 ≤ n → p.fieldLoop n stmt = some r) := by
  have hn : (NewParser s).buf.n ≤ 1 := by simp [NewParser]
  refine ⟨?_, ?_, ?_, ?_, fun p stmt => fieldLoop_enough p stmt _ (le_refl _)⟩
  · obtain ⟨r, hr⟩ := Parse_total (NewParser s)
    obtain ⟨log, g1, -⟩ := (ParseLog_spec (NewParser s) [] rfl hn).2 r hr
    refine ⟨r, log, hr, g1, ?_⟩
    have := ParseLog_length _ _ _ g1
    simpa [NewParser_pending] using this
  · obtain ⟨r, hr⟩ := ParseSelect_total (NewParser s)
    obtain ⟨log, g1, -⟩ := (ParseSelectLog_spec (NewParser s) [] rfl hn).2 r hr
    refine ⟨r, log, hr, g1, ?_⟩
    have := ParseSelectLog_length _ _ _ g1
    simpa [NewParser_pending] using this
  · obtain ⟨log, g1, -⟩ := ParseInsertLog_spec (NewParser s) [] rfl hn
    refine ⟨log, g1, ?_⟩
    have := ParseInsertLog_length (NewParser s) []
    rw [g1] at this
    simpa using this
  · have c := scanIW_countComma (NewParser s)
    rw [NewParser_pending] at c
    exact fieldLoop_enough _ _ _ (by omega)

/-- C14 at `SELECT a, b FROM t`, a stream with one `COMMA` token: two iterations of the
field loop are enough, and `Parse` makes 14 calls of `scan` and `unscan`. -/
theorem parsing_terminates_witness :
    ((NewParser exampleSelect).scanIgnoreWhitespace.2.2.fieldLoop 2 ⟨[], ""⟩).isSome = true ∧
      ((NewParser exampleSelect).ParseLog []).map (fun r => r.2.2.2.length) = some 14 ∧
      ∃ r log, (NewParser exampleSelect).Parse = some r ∧
        (NewParser exampleSelect).ParseLog [] = some (r.1, r.2.1, r.2.2, log) ∧
        log.length ≤ 4 * countComma exampleSelect.toks + 14 :=
  ⟨by decide, by decide, (parsing_terminates exampleSelect).1⟩

/-- C15 at `SELECT * FROM t`: the calls of the run, with `buf.n` before and after each. -/
theorem Parse_unscan_discipline_witness :
    ((NewParser selectStar).ParseLog []).map (fun r => r.2.2.2) =
        some [⟨false, 0, 0⟩, ⟨true, 0, 1⟩, ⟨false, 1, 0⟩, ⟨false, 0, 0⟩, ⟨false, 0, 0⟩,
          ⟨false, 0, 0⟩, ⟨false, 0, 0⟩, ⟨true, 0, 1⟩, ⟨false, 1, 0⟩, ⟨false, 0, 0⟩,
          ⟨false, 0, 0⟩] ∧
      ∃ r log, (NewParser selectStar).Parse = some r ∧
        (NewParser selectStar).ParseLog [] = some (r.1, r.2.1, r.2.2, log) ∧
        logOK false log = true ∧
        ∀ (i : Nat) (e : Event), log[i]? = some e →
          e.nBefore ≤ 1 ∧ e.nAfter ≤ 1 ∧
            (e.isUnscan = true → e.nBefore = 0 ∧
              ∃ j e0, i = j + 1 ∧ log[j]? = some e0 ∧ e0.isUnscan = false) :=
  ⟨by decide, Parse_unscan_discipline selectStar⟩

/-! ## What `ParseSelect` leaves in the scanner -/

theorem scan_toks_suffix (p : Parser) : ∃ c, p.s.toks = c ++ p.scan.2.2.s.toks := by
  obtain ⟨⟨toks, eof, hc⟩, ⟨bt, bl, bn⟩⟩ := p
  by_cases hn : bn = 0
  · subst hn
    cases toks with
    | nil => exact ⟨[], by simp [Parser.scan, Scanner.Scan]⟩
    | cons a r => exact ⟨[a], by simp [Parser.scan, Scanner.Scan]⟩
  · exact ⟨[], by simp [Parser.scan, hn]⟩

theorem scanIW_toks_suffix (p : Parser) :
    ∃ c, p.s.toks = c ++ p.scanIgnoreWhitespace.2.2.s.toks := by
  obtain ⟨c1, h1⟩ := scan_toks_suffix p
  by_cases hw : p.scan.1 = Token.WS
  · have h : p.scanIgnoreWhitespace = p.scan.2.2.scan := by
      simp [Parser.scanIgnoreWhitespace, hw]
    obtain ⟨c2, h2⟩ := scan_toks_suffix p.scan.2.2
    exact ⟨c1 ++ c2, by rw [h, List.append_assoc, ← h2, ← h1]⟩
  · have h : p.scanIgnoreWhitespace = p.scan := by
      simp [Parser.scanIgnoreWhitespace, hw]
    exact ⟨c1, by rw [h, ← h1]⟩

theorem fieldLoop_toks_suffix : ∀ (fuel : Nat) (p : Parser) (stmt : SelectStatement)
    (r : SelectStatement × Option GoError × Parser), p.fieldLoop fuel stmt = some r →
    ∃ c, p.s.toks = c ++ r.2.2.s.toks := by
  intro fuel
  induction fuel with
  | zero => intro p stmt r h; simp [Parser.fieldLoop] at h
  | succ fuel ih =>
    intro p stmt r h
    rw [Parser.fieldLoop] at h
    obtain ⟨c1, s1⟩ := scanIW_toks_suffix p
    rcases h1 : p.scanIgnoreWhitespace with ⟨tok, lit, q1⟩
    rw [h1] at h s1
    dsimp only at h s1
    by_cases hf : tok ≠ Token.IDENT ∧ tok ≠ Token.ASTERISK
    · rw [if_pos hf] at h
      simp only [Option.some.injEq] at h
      subst h
      exact ⟨c1, s1⟩
    · rw [if_neg hf] at h
      obtain ⟨c2, s2⟩ := scanIW_toks_suffix q1
      rcases h2 : q1.scanIgnoreWhitespace with ⟨tok2, lit2, q2⟩
      rw [h2] at h s2
      dsimp only at h s2
      by_cases hc : tok2 ≠ Token.COMMA
      · rw [if_pos hc] at h
        simp only [Option.some.injEq] at h
        subst h
        exact ⟨c1 ++ c2, by rw [List.append_assoc, s1, s2]; rfl⟩
      · rw [if_neg hc] at h
        obtain ⟨c3, s3⟩ := ih q2 _ r h
        exact ⟨c1 ++ c2 ++ c3, by rw [List.append_assoc, List.append_assoc, ← s3, ← s2, ← s1]⟩

/-- On success `ParseSelect` has taken the tokens up to the table name and no more. -/
theorem ParseSelect_consumed (s : Scanner) (stmt : SelectStatement) (p1 : Parser)
    (h : (NewParser s).ParseSelect = some (stmt, none, p1)) :
    ∃ pre x, s.toks = pre ++ x :: p1.s.toks ∧ x.1 = Token.IDENT ∧ p1.buf.n = 0 := by
  rw [Parser.ParseSelect] at h
  obtain ⟨c1, s1⟩ := scanIW_toks_suffix (NewParser s)
  rcases h1 : (NewParser s).scanIgnoreWhitespace with ⟨tok1, lit1, q1⟩
  rw [h1] at h s1
  dsimp only at h s1
  by_cases hs : tok1 ≠ Token.SELECT
  · rw [if_pos hs] at h; simp at h
  · rw [if_neg hs] at h
    cases hfl : q1.fieldLoop (q1.s.toks.length + 1) ⟨[], ""⟩ with
    | none => rw [hfl] at h; simp at h
    | some r0 =>
      obtain ⟨c2, s2⟩ := fieldLoop_toks_suffix _ _ _ r0 hfl
      obtain ⟨stmt2, err2, q2⟩ := r0
      rw [hfl] at h
      dsimp only at s2
      cases err2 with
      | some err => simp at h
      | none =>
        dsimp only at h
        obtain ⟨c3, s3⟩ := scanIW_toks_suffix q2
        have b3 := scanIW_buf q2
        rcases h3 : q2.scanIgnoreWhitespace with ⟨tok3, lit3, q3⟩
        rw [h3] at h s3 b3
        dsimp only at h s3 b3
        by_cases hfr : tok3 ≠ Token.FROM
        · rw [if_pos hfr] at h; simp at h
        · rw [if_neg hfr] at h
          have hp3 : q3.pending = q3.s.toks := pending_of_buf_zero q3 (by rw [b3])
          have ok3 : adjacentWS q3.pending = false := by rw [hp3]; exact q3.s.coalesced
          obtain ⟨q4', g4, -, b4, -, -⟩ := scanIW_view q3 ok3
          rcases h4 : q3.scanIgnoreWhitespace with ⟨tok4, lit4, q4⟩
          rw [h4] at h
          dsimp only at h
          by_cases hid : tok4 ≠ Token.IDENT
          · rw [if_pos hid] at h; simp at h
          · rw [if_neg hid] at h
            simp only [Option.some.injEq, Prod.mk.injEq, true_and] at h
            obtain ⟨-, hq⟩ := h
            subst hq
            rw [h4] at g4
            simp only [Prod.mk.injEq] at g4
            obtain ⟨t1, t2, t3⟩ := g4
            have htag : (headTok q3.view q3.s.eof).1 = Token.IDENT := by
              rw [← t1]; exact not_not.mp hid
            obtain ⟨lit, l, hv⟩ := headTok_tag_cons q3.view q3.s.eof _ htag (by decide)
            obtain ⟨pre4, -, c4⟩ := scanIW_consumed q3 ok3 _ l hv
            rw [h4, hp3] at c4
            dsimp only at c4
            refine ⟨c1 ++ c2 ++ c3 ++ pre4, (Token.IDENT, lit), ?_, rfl, ?_⟩
            · rw [List.append_assoc, List.append_assoc, List.append_assoc, ← c4, ← s3, ← s2,
                ← s1]
              rfl
            · rw [t3, b4]

theorem split_unique : ∀ (pre pre1 : List Tok) (x x1 : Tok) (r r1 : List Tok),
    pre ++ x :: r = pre1 ++ x1 :: r1 → stripWS pre = stripWS pre1 → x.1 ≠ Token.WS →
    x1.1 ≠ Token.WS → pre = pre1 ∧ x = x1 ∧ r = r1 := by
  intro pre
  induction pre with
  | nil =>
    intro pre1 x x1 r r1 h hs hx hx1
    cases pre1 with
    | nil =>
      simp only [List.nil_append, List.cons.injEq] at h
      exact ⟨rfl, h.1, h.2⟩
    | cons a q =>
      simp only [List.nil_append, List.cons_append, List.cons.injEq] at h
      have ha : a.1 ≠ Token.WS := by rw [← h.1]; exact hx
      rw [stripWS_cons_ne a q ha] at hs
      simp [stripWS] at hs
  | cons a q ih =>
    intro pre1 x x1 r r1 h hs hx hx1
    cases pre1 with
    | nil =>
      simp only [List.nil_append, List.cons_append, List.cons.injEq] at h
      have ha : a.1 ≠ Token.WS := by rw [h.1]; exact hx1
      rw [stripWS_cons_ne a q ha] at hs
      simp [stripWS] at hs
    | cons a1 q1 =>
      simp only [List.cons_append, List.cons.injEq] at h
      obtain ⟨ha, hq⟩ := h
      subst ha
      have hs1 : stripWS q = stripWS q1 := by
        by_cases hw : a.1 = Token.WS
        · rw [stripWS_cons_ws a q hw, stripWS_cons_ws a q1 hw] at hs
          exact hs
        · rw [stripWS_cons_ne a q hw, stripWS_cons_ne a q1 hw] at hs
          exact (List.cons.inj hs).2
      obtain ⟨e1, e2, e3⟩ := ih q1 x x1 r r1 hq hs1 hx hx1
      exact ⟨by rw [e1], e2, e3⟩

theorem selectL_shape (eof ls lf t : String) (f : Tok) (fs : List (String × Tok))
    (rest : List Tok) (hf : isField f.1 = true) (hfs : ∀ cf ∈ fs, isField cf.2.1 = true) :
    selectL eof ((Token.SELECT, ls) ::
        (commaSep f fs ++ (Token.FROM, lf) :: (Token.IDENT, t) :: rest)) =
      (⟨fieldLits f fs, t⟩, none, rest) := by
  rw [selectL_after_fields eof ls f fs _ hf hfs (by simp [headTok])]
  simp [headTok]

theorem append_cons_cancel (a b : List Tok) (x y : Tok) (r : List Tok)
    (h : a ++ x :: r = b ++ y :: r) : a = b ∧ x = y := by
  have h1 : (a ++ [x]) ++ r = (b ++ [y]) ++ r := by simpa using h
  have h2 := List.append_cancel_right h1
  have h3 := List.append_inj' h2 rfl
  exact ⟨h3.1, by simpa using h3.2⟩

/-- A successful `ParseSelect` on a fresh parser, told on the token stream: the stream is
`pre`, the table name and what the scanner is left with, and the tokens of `pre` that are
not whitespace are `SELECT`, the fields and `FROM`. -/
theorem ParseSelect_success_split (s : Scanner) (stmt : SelectStatement) (p1 : Parser)
    (h : (NewParser s).ParseSelect = some (stmt, none, p1)) :
    ∃ pre t ls f fs lf, s.toks = pre ++ (Token.IDENT, t) :: p1.s.toks ∧ p1.buf.n = 0 ∧
      stripWS pre = (Token.SELECT, ls) :: (commaSep f fs ++ [(Token.FROM, lf)]) ∧
      isField f.1 = true ∧ (∀ cf ∈ fs, isField cf.2.1 = true) ∧
      stmt = ⟨fieldLits f fs, t⟩ := by
  obtain ⟨pre, x, hsplit, hx, hn⟩ := ParseSelect_consumed s stmt p1 h
  obtain ⟨xt, t⟩ := x
  simp only at hx
  subst hx
  obtain ⟨p2, hv, -, -, vv⟩ := ParseSelect_view (NewParser s) (NewParser_ok s)
  rw [h, NewParser_view] at hv
  simp only [Option.some.injEq, Prod.mk.injEq] at hv
  obtain ⟨hstmt, herr, hp⟩ := hv
  subst hp
  rw [NewParser_view] at vv
  obtain ⟨ls, f, fs, lf, t0, rest, hshape, hf, hfs⟩ :=
    (selectL_none_iff (NewParser s).s.eof (stripWS s.toks)).mp herr.symm
  rw [hshape, selectL_shape _ ls lf t0 f fs rest hf hfs] at hstmt vv
  dsimp only at hstmt vv
  have hview : stripWS p1.s.toks = rest := by
    rw [← vv, Parser.view, pending_of_buf_zero p1 hn]
  have hstrip : stripWS s.toks = stripWS pre ++ (Token.IDENT, t) :: rest := by
    rw [hsplit, stripWS_append, stripWS_cons_ne _ _ (by simp), hview]
  rw [hshape] at hstrip
  have hc := append_cons_cancel ((Token.SELECT, ls) :: (commaSep f fs ++ [(Token.FROM, lf)]))
    (stripWS pre) (Token.IDENT, t0) (Token.IDENT, t) rest (by simpa using hstrip)
  obtain ⟨hA, ht⟩ := hc
  simp only [Prod.mk.injEq, true_and] at ht
  subst ht
  exact ⟨pre, t0, ls, f, fs, lf, hsplit, hn, hA.symm, hf, hfs, hstmt⟩

/-- C18: `ParseSelect` never looks past the table name. When it succeeds on a fresh parser,
the scanner is left with exactly the tokens after the table-name token, none of them read
(the pushback slot is empty), and on every token stream that has the same tokens up to and
including the table name, whatever follows, `ParseSelect` returns the same statement and
the nil error and again leaves what follows unread. -/
theorem ParseSelect_stops_at_table (s : Scanner) (stmt : SelectStatement) (p1 : Parser)
    (h : (NewParser s).ParseSelect = some (stmt, none, p1)) :
    ∃ pre t, s.toks = pre ++ (Token.IDENT, t) :: p1.s.toks ∧ p1.buf.n = 0 ∧
      ∀ (s1 : Scanner) (post : List Tok), s1.toks = pre ++ (Token.IDENT, t) :: post →
        ∃ q, (NewParser s1).ParseSelect = some (stmt, none, q) ∧ q.s.toks = post ∧
          q.buf.n = 0 := by
  obtain ⟨pre, t, ls, f, fs, lf, hsplit, hn, hpre, hf, hfs, hstmt⟩ :=
    ParseSelect_success_split s stmt p1 h
  refine ⟨pre, t, hsplit, hn, fun s1 post hs1 => ?_⟩
  have hstrip : stripWS s1.toks = (Token.SELECT, ls) ::
      (commaSep f fs ++ (Token.FROM, lf) :: (Token.IDENT, t) :: stripWS post) := by
    rw [hs1, stripWS_append, stripWS_cons_ne _ _ (by simp), hpre]
    simp
  obtain ⟨q, hq⟩ := ParseSelect_fresh s1
  rw [hstrip, selectL_shape _ ls lf t f fs _ hf hfs, ← hstmt] at hq
  dsimp only at hq
  obtain ⟨pre1, t1, ls1, f1, fs1, lf1, hsplit1, hn1, hpre1, -, -, hstmt1⟩ :=
    ParseSelect_success_split s1 stmt q hq
  have ht : t1 = t := by
    rw [hstmt] at hstmt1
    exact (SelectStatement.mk.inj hstmt1).2.symm
  subst ht
  have hlen : (stripWS pre1).length = (stripWS pre).length := by
    rw [hpre1, hpre]
    have hl : (fieldLits f1 fs1).length = (fieldLits f fs).length := by
      rw [hstmt] at hstmt1
      rw [(SelectStatement.mk.inj hstmt1).1]
    simp only [fieldLits, List.length_cons, List.length_map] at hl
    simp only [List.length_cons, List.length_append, commaSep_length, List.length_nil]
    omega
  have hprefix : stripWS pre1 = stripWS pre := by
    have e1 : stripWS s1.toks = stripWS pre1 ++ (Token.IDENT, t1) :: stripWS q.s.toks := by
      rw [hsplit1, stripWS_append, stripWS_cons_ne _ _ (by simp)]
    have e2 : stripWS s1.toks = stripWS pre ++ (Token.IDENT, t1) :: stripWS post := by
      rw [hs1, stripWS_append, stripWS_cons_ne _ _ (by simp)]
    rw [e1] at e2
    exact (List.append_inj e2 hlen).1
  have hu := split_unique pre1 pre (Token.IDENT, t1) (Token.IDENT, t1) q.s.toks post
    (by rw [← hsplit1, hs1]) hprefix (by simp) (by simp)
  exact ⟨q, hq, hu.2.2, hn1⟩

/-- C18 at `SELECT a, b FROM t`, and at `SELECT a FROM t WHERE`, which is accepted with
`WHERE` left in the scanner. -/
theorem ParseSelect_stops_at_table_witness :
    (NewParser exampleSelect).ParseSelect =
        some ({ Fields := ["a", "b"], TableName := "t" }, none, exampleSelectDone) ∧
      ((NewParser selectWhere).ParseSelect.map (fun r => (r.1, r.2.1, r.2.2.s.toks)) =
        some ({ Fields := ["a"], TableName := "t" }, none,
          [(Token.WS, " "), (Token.IDENT, "WHERE")])) ∧
      ∃ pre t, exampleSelect.toks = pre ++ (Token.IDENT, t) :: exampleSelectDone.s.toks ∧
        exampleSelectDone.buf.n = 0 ∧
        ∀ (s1 : Scanner) (post : List Tok), s1.toks = pre ++ (Token.IDENT, t) :: post →
          ∃ q, (NewParser s1).ParseSelect =
              some ({ Fields := ["a", "b"], TableName := "t" }, none, q) ∧
            q.s.toks = post ∧ q.buf.n = 0 :=
  ⟨rfl, by decide,
    ParseSelect_stops_at_table exampleSelect { Fields := ["a", "b"], TableName := "t" }
      exampleSelectDone rfl⟩

/-! ## What the statement that comes with an error holds -/

/-- When the field loop fails, it has read `k` fields, each with its comma, and then a token
that is no field; the statement holds the literals of those `k` fields. -/
theorem fieldsL_error_shape (eof : String) : ∀ (n : Nat) (l : List Tok)
    (stmt stmt1 : SelectStatement) (e : GoError) (v : List Tok), l.length ≤ n →
    fieldsL eof l stmt = (stmt1, some e, v) →
    ∃ fs rest, l = fieldsThenComma fs ++ rest ∧ (∀ fc ∈ fs, isField fc.1.1 = true) ∧
      isField (headTok rest eof).1 = false ∧
      e = Errorf "found %q, expected field" (headTok rest eof).2 ∧
      stmt1 = { stmt with Fields := stmt.Fields ++ fs.map (fun fc => fc.1.2) } := by
  intro n
  induction n with
  | zero =>
    intro l stmt stmt1 e v hl h
    have : l = [] := List.length_eq_zero.mp (Nat.le_zero.mp hl)
    subst this
    simp only [fieldsL, Prod.mk.injEq, Option.some.injEq] at h
    exact ⟨[], [], by simp [fieldsThenComma], by simp, by simp [headTok, isField],
      by rw [← h.2.1]; rfl, by rw [← h.1]; simp⟩
  | succ n ih =>
    intro l stmt stmt1 e v hl h
    match l, hl, h with
    | [], _, h =>
      simp only [fieldsL, Prod.mk.injEq, Option.some.injEq] at h
      exact ⟨[], [], by simp [fieldsThenComma], by simp, by simp [headTok, isField],
        by rw [← h.2.1]; rfl, by rw [← h.1]; simp⟩
    | [f], _, h =>
      by_cases hf : f.1 ≠ Token.IDENT ∧ f.1 ≠ Token.ASTERISK
      · simp only [fieldsL, if_pos hf, Prod.mk.injEq, Option.some.injEq] at h
        exact ⟨[], [f], by simp [fieldsThenComma], by simp,
          by simpa [headTok] using (isField_false_iff f.1).mpr hf,
          by rw [← h.2.1]; rfl, by rw [← h.1]; simp⟩
      · simp [fieldsL, if_neg hf] at h
    | f :: c :: r, hl, h =>
      by_cases hf : f.1 ≠ Token.IDENT ∧ f.1 ≠ Token.ASTERISK
      · simp only [fieldsL, if_pos hf, Prod.mk.injEq, Option.some.injEq] at h
        exact ⟨[], f :: c :: r, by simp [fieldsThenComma], by simp,
          by simpa [headTok] using (isField_false_iff f.1).mpr hf,
          by rw [← h.2.1]; rfl, by rw [← h.1]; simp⟩
      · by_cases hc : c.1 ≠ Token.COMMA
        · simp [fieldsL, if_neg hf, if_pos hc] at h
        · rw [fieldsL, if_neg hf, if_neg hc] at h
          have hlen : r.length ≤ n := by simp at hl; omega
          obtain ⟨gs, rest, e1, hgs, hX, e2, e3⟩ := ih r _ stmt1 e v hlen h
          have hc1 : c.1 = Token.COMMA := not_not.mp hc
          refine ⟨(f, c.2) :: gs, rest, ?_, ?_, hX, e2, ?_⟩
          · rw [e1]
            obtain ⟨ct, cl⟩ := c
            simp only at hc1
            subst hc1
            simp [fieldsThenComma]
          · intro fc hfc
            rcases List.mem_cons.mp hfc with rfl | hin
            · exact (isField_iff _).mpr hf
            · exact hgs fc hin
          · rw [e3]; simp

/-- What `selectL` returns with an error: an empty table name, and the literals of exactly
the fields read before the failure. -/
theorem selectL_error_contents (eof : String) (l : List Tok) (stmt : SelectStatement)
    (e : GoError) (hs : (selectL eof l).1 = stmt) (he : (selectL eof l).2.1 = some e) :
    stmt.TableName = "" ∧
      (((headTok l eof).1 ≠ Token.SELECT ∧
          e = Errorf "found %q, expected SELECT" (headTok l eof).2 ∧ stmt.Fields = []) ∨
        (∃ ls fs rest, l = (Token.SELECT, ls) :: (fieldsThenComma fs ++ rest) ∧
          (∀ fc ∈ fs, isField fc.1.1 = true) ∧ isField (headTok rest eof).1 = false ∧
          e = Errorf "found %q, expected field" (headTok rest eof).2 ∧
          stmt.Fields = fs.map (fun fc => fc.1.2)) ∨
        (∃ ls f fs rest, l = (Token.SELECT, ls) :: (commaSep f fs ++ rest) ∧
          isField f.1 = true ∧ (∀ cf ∈ fs, isField cf.2.1 = true) ∧
          (headTok rest eof).1 ≠ Token.COMMA ∧ stmt.Fields = fieldLits f fs ∧
          (((headTok rest eof).1 ≠ Token.FROM ∧
              e = Errorf "found %q, expected FROM" (headTok rest eof).2) ∨
            ((headTok rest eof).1 = Token.FROM ∧ (headTok rest.tail eof).1 ≠ Token.IDENT ∧
              e = Errorf "found %q, expected table name" (headTok rest.tail eof).2)))) := by
  by_cases h1 : (headTok l eof).1 ≠ Token.SELECT
  · rw [selectL, if_pos h1] at hs he
    simp only [Option.some.injEq] at he
    subst hs
    exact ⟨rfl, Or.inl ⟨h1, he.symm, rfl⟩⟩
  · obtain ⟨ls, l1, rfl⟩ := headTok_tag_cons l eof _ (not_not.mp h1) (by decide)
    rw [selectL, if_neg h1] at hs he
    simp only [List.tail_cons] at hs he
    rcases hfl : fieldsL eof l1 ⟨[], ""⟩ with ⟨stmt2, err2, v⟩
    rw [hfl] at hs he
    cases err2 with
    | some err =>
      dsimp only at hs he
      simp only [Option.some.injEq] at he
      subst he hs
      obtain ⟨fs, rest, e1, hfs, hX, e2, e3⟩ :=
        fieldsL_error_shape eof _ l1 _ stmt2 err v (le_refl _) hfl
      subst e3
      exact ⟨rfl, Or.inr (Or.inl ⟨ls, fs, rest, by rw [e1], hfs, hX, e2, by simp⟩)⟩
    | none =>
      dsimp only at hs he
      obtain ⟨f, fs, rest, e1, hf, hfs, hX, e2, e3⟩ :=
        fieldsL_ok_shape eof _ l1 _ stmt2 v (le_refl _) hfl
      subst e3 e2
      simp only [headTok, List.headD_cons, List.tail_cons] at hs he
      by_cases hfr : (rest.headD (Token.EOF, eof)).1 ≠ Token.FROM
      · rw [if_pos hfr] at hs he
        simp only [Option.some.injEq] at he
        subst hs
        exact ⟨rfl, Or.inr (Or.inr ⟨ls, f, fs, rest, by rw [e1], hf, hfs, hX, by simp,
          Or.inl ⟨hfr, he.symm⟩⟩)⟩
      · rw [if_neg hfr] at hs he
        by_cases hid : (rest.tail.headD (Token.EOF, eof)).1 ≠ Token.IDENT
        · rw [if_pos hid] at hs he
          simp only [Option.some.injEq] at he
          subst hs
          exact ⟨rfl, Or.inr (Or.inr ⟨ls, f, fs, rest, by rw [e1], hf, hfs, hX, by simp,
            Or.inr ⟨not_not.mp hfr, hid, he.symm⟩⟩)⟩
        · rw [if_neg hid] at he
          simp at he

/-- What `insertL` returns with an error: nil `MapValues` and `Values`, and an empty table
name unless the error is "expected VALUES", where it is the literal of the table name. -/
theorem insertL_error_contents (eof : String) (l : List Tok) (stmt : InsertStatement)
    (e : GoError) (hs : (insertL eof l).1 = stmt) (he : (insertL eof l).2.1 = some e) :
    stmt.MapValues = none ∧ stmt.Values = none ∧
      ((e.format ≠ "found %q, expected VALUES" ∧ stmt.TableName = "") ∨
        (∃ l1 l2 t rest, l = (Token.INSERT, l1) :: (Token.INTO, l2) :: (Token.IDENT, t) :: rest ∧
          (headTok rest eof).1 ≠ Token.VALUES ∧
          e = Errorf "found %q, expected VALUES" (headTok rest eof).2 ∧
          stmt.TableName = t)) := by
  by_cases h1 : (headTok l eof).1 ≠ Token.INSERT
  · rw [insertL, if_pos h1] at hs he
    simp only [Option.some.injEq] at he
    subst hs he
    exact ⟨rfl, rfl, Or.inl ⟨by simp only [Errorf]; decide, rfl⟩⟩
  · obtain ⟨l1, r1, rfl⟩ := headTok_tag_cons l eof _ (not_not.mp h1) (by decide)
    rw [insertL, if_neg h1] at hs he
    simp only [List.tail_cons] at hs he
    by_cases h2 : (headTok r1 eof).1 ≠ Token.INTO
    · rw [if_pos h2] at hs he
      simp only [Option.some.injEq] at he
      subst hs he
      exact ⟨rfl, rfl, Or.inl ⟨by simp only [Errorf]; decide, rfl⟩⟩
    · obtain ⟨l2, r2, rfl⟩ := headTok_tag_cons r1 eof _ (not_not.mp h2) (by decide)
      rw [if_neg h2] at hs he
      simp only [List.tail_cons] at hs he
      by_cases h3 : (headTok r2 eof).1 ≠ Token.IDENT
      · rw [if_pos h3] at hs he
        simp only [Option.some.injEq] at he
        subst hs he
        exact ⟨rfl, rfl, Or.inl ⟨by simp only [Errorf]; decide, rfl⟩⟩
      · obtain ⟨t, r3, rfl⟩ := headTok_tag_cons r2 eof _ (not_not.mp h3) (by decide)
        rw [if_neg h3] at hs he
        simp only [List.tail_cons] at hs he
        by_cases h4 : (headTok r3 eof).1 ≠ Token.VALUES
        · rw [if_pos h4] at hs he
          simp only [Option.some.injEq] at he
          subst hs he
          exact ⟨rfl, rfl, Or.inr ⟨l1, l2, t, r3, rfl, h4, rfl, by simp [headTok]⟩⟩
        · rw [if_neg h4] at he
          simp at he

/-- What `Parse` on a fresh parser returns, by the first token after at most one leading
`WS`: the result of `ParseSelect`, the result of `ParseInsert`, or its own error. -/
theorem Parse_fresh_cases (s : Scanner) :
    ((NewParser s).Parse =
        (NewParser s).ParseSelect.map (fun r => (Statement.select r.1, r.2.1, r.2.2))) ∨
      ((NewParser s).Parse =
        some (Statement.insert (NewParser s).ParseInsert.1, (NewParser s).ParseInsert.2.1,
          (NewParser s).ParseInsert.2.2)) ∨
      (∃ p1, (NewParser s).Parse = some (Statement.nil,
        some (Errorf "found %q, expected SELECT/INSERT/CREATE"
          (headTok (skipOneWS s.toks) s.eof).2), p1)) := by
  obtain ⟨p1, h1, -, -⟩ := scanIW_fresh s
  have hfst : (NewParser s).scanIgnoreWhitespace.1 = (headTok (skipOneWS s.toks) s.eof).1 := by
    rw [h1]
  by_cases hsel : (headTok (skipOneWS s.toks) s.eof).1 = Token.SELECT
  · left
    have hre := peek_unscan_scanIW (NewParser s) (by rw [hfst, hsel]; decide)
    have hc := ParseSelect_congr _ _ hre
    rw [h1] at hc
    simp only at hc
    rw [Parser.Parse, h1]
    simp only [hsel, hc]
    cases (NewParser s).ParseSelect with
    | none => rfl
    | some r => rfl
  · by_cases hins : (headTok (skipOneWS s.toks) s.eof).1 = Token.INSERT
    · right; left
      have hre := peek_unscan_scanIW (NewParser s) (by rw [hfst, hins]; decide)
      have hc := ParseInsert_congr _ _ hre
      rw [h1] at hc
      simp only at hc
      rw [Parser.Parse, h1]
      simp only [hins, hc]
    · right; right
      refine ⟨p1, ?_⟩
      rw [Parser.Parse, h1]
      generalize headTok (skipOneWS s.toks) s.eof = X at hsel hins
      obtain ⟨t, lit⟩ := X
      cases t <;> simp_all

/-- C10, amended: the statement that comes with an error may be partly filled, and holds
exactly what was read before the failure. From `ParseSelect` on a fresh parser it has an
empty `TableName`, and its `Fields` are: empty when the error is "expected SELECT"; the
literals of the `k` fields read, each followed by a comma, when the next token is no field
("expected field"); the literals of the whole field list when the error is "expected FROM"
or "expected table name". From `ParseInsert` it has nil `MapValues` and `Values`, and its
`TableName` is empty unless the error is "expected VALUES", where it is the literal of the
table name. From `Parse` it is nil with the error "expected SELECT/INSERT/CREATE", and else
it is the statement that the sub-parser returns on a fresh parser, with the same error. -/
theorem error_statement_contents (s : Scanner) :
    (∀ stmt e p1, (NewParser s).ParseSelect = some (stmt, some e, p1) →
        stmt.TableName = "" ∧
        (((headTok (stripWS s.toks) s.eof).1 ≠ Token.SELECT ∧
            e = Errorf "found %q, expected SELECT" (headTok (stripWS s.toks) s.eof).2 ∧
            stmt.Fields = []) ∨
          (∃ ls fs rest, stripWS s.toks = (Token.SELECT, ls) :: (fieldsThenComma fs ++ rest) ∧
            (∀ fc ∈ fs, isField fc.1.1 = true) ∧ isField (headTok rest s.eof).1 = false ∧
            e = Errorf "found %q, expected field" (headTok rest s.eof).2 ∧
            stmt.Fields = fs.map (fun fc => fc.1.2)) ∨
          (∃ ls f fs rest, stripWS s.toks = (Token.SELECT, ls) :: (commaSep f fs ++ rest) ∧
            isField f.1 = true ∧ (∀ cf ∈ fs, isField cf.2.1 = true) ∧
            (headTok rest s.eof).1 ≠ Token.COMMA ∧ stmt.Fields = fieldLits f fs ∧
            (((headTok rest s.eof).1 ≠ Token.FROM ∧
                e = Errorf "found %q, expected FROM" (headTok rest s.eof).2) ∨
              ((headTok rest s.eof).1 = Token.FROM ∧
                (headTok rest.tail s.eof).1 ≠ Token.IDENT ∧
                e = Errorf "found %q, expected table name" (headTok rest.tail s.eof).2))))) ∧
      (∀ stmt e p1, (NewParser s).ParseInsert = (stmt, some e, p1) →
        stmt.MapValues = none ∧ stmt.Values = none ∧
          ((e.format ≠ "found %q, expected VALUES" ∧ stmt.TableName = "") ∨
            (∃ l1 l2 t rest, stripWS s.toks =
                (Token.INSERT, l1) :: (Token.INTO, l2) :: (Token.IDENT, t) :: rest ∧
              (headTok rest s.eof).1 ≠ Token.VALUES ∧
              e = Errorf "found %q, expected VALUES" (headTok rest s.eof).2 ∧
              stmt.TableName = t))) ∧
      (∀ st e p1, (NewParser s).Parse = some (st, some e, p1) →
        (st = Statement.nil ∧
          e = Errorf "found %q, expected SELECT/INSERT/CREATE"
            (headTok (skipOneWS s.toks) s.eof).2) ∨
        (∃ stmt, st = Statement.select stmt ∧
          (NewParser s).ParseSelect = some (stmt, some e, p1)) ∨
        (∃ stmt, st = Statement.insert stmt ∧
          (NewParser s).ParseInsert = (stmt, some e, p1))) := by
  refine ⟨fun stmt e p1 h => ?_, fun stmt e p1 h => ?_, fun st e p1 h => ?_⟩
  · obtain ⟨p2, h2⟩ := ParseSelect_fresh s
    rw [h2] at h
    simp only [Option.some.injEq, Prod.mk.injEq] at h
    exact selectL_error_contents s.eof (stripWS s.toks) stmt e h.1 h.2.1
  · obtain ⟨p2, h2⟩ := ParseInsert_fresh s
    rw [h2] at h
    simp only [Prod.mk.injEq] at h
    exact insertL_error_contents s.eof (stripWS s.toks) stmt e h.1 h.2.1
  · rcases Parse_fresh_cases s with hc | hc | ⟨p2, hc⟩
    · rw [hc] at h
      cases hps : (NewParser s).ParseSelect with
      | none => rw [hps] at h; simp at h
      | some r =>
        obtain ⟨stmt, err, q⟩ := r
        rw [hps] at h
        simp only [Option.map_some', Option.some.injEq, Prod.mk.injEq] at h
        obtain ⟨h1, h2, h3⟩ := h
        subst h1 h2 h3
        exact Or.inr (Or.inl ⟨stmt, rfl, rfl⟩)
    · rw [hc] at h
      simp only [Option.some.injEq, Prod.mk.injEq] at h
      obtain ⟨h1, h2, h3⟩ := h
      refine Or.inr (Or.inr ⟨(NewParser s).ParseInsert.1, h1.symm, ?_⟩)
      rw [← h2, ← h3]
    · rw [hc] at h
      simp only [Option.some.injEq, Prod.mk.injEq] at h
      obtain ⟨h1, h2, -⟩ := h
      exact Or.inl ⟨h1.symm, h2.symm⟩

/-- C10, amended, at `SELECT a b FROM t`: the statement that comes with "expected FROM" holds
the field `a` that was read, and no table name. -/
theorem error_statement_contents_witness :
    (NewParser selectTwoNames).ParseSelect =
        some ({ Fields := ["a"], TableName := "" },
          some (Errorf "found %q, expected FROM" "b"), selectTwoNamesDone) ∧
      ((SelectStatement.mk ["a"] "").TableName = "" ∧
        (((headTok (stripWS selectTwoNames.toks) selectTwoNames.eof).1 ≠ Token.SELECT ∧
            Errorf "found %q, expected FROM" "b" = Errorf "found %q, expected SELECT"
              (headTok (stripWS selectTwoNames.toks) selectTwoNames.eof).2 ∧
            (SelectStatement.mk ["a"] "").Fields = []) ∨
          (∃ ls fs rest, stripWS selectTwoNames.toks =
              (Token.SELECT, ls) :: (fieldsThenComma fs ++ rest) ∧
            (∀ fc ∈ fs, isField fc.1.1 = true) ∧
            isField (headTok rest selectTwoNames.eof).1 = false ∧
            Errorf "found %q, expected FROM" "b" =
              Errorf "found %q, expected field" (headTok rest selectTwoNames.eof).2 ∧
            (SelectStatement.mk ["a"] "").Fields = fs.map (fun fc => fc.1.2)) ∨
          (∃ ls f fs rest, stripWS selectTwoNames.toks =
              (Token.SELECT, ls) :: (commaSep f fs ++ rest) ∧
            isField f.1 = true ∧ (∀ cf ∈ fs, isField cf.2.1 = true) ∧
            (headTok rest selectTwoNames.eof).1 ≠ Token.COMMA ∧
            (SelectStatement.mk ["a"] "").Fields = fieldLits f fs ∧
            (((headTok rest selectTwoNames.eof).1 ≠ Token.FROM ∧
                Errorf "found %q, expected FROM" "b" =
                  Errorf "found %q, expected FROM" (headTok rest selectTwoNames.eof).2) ∨
              ((headTok rest selectTwoNames.eof).1 = Token.FROM ∧
                (headTok rest.tail selectTwoNames.eof).1 ≠ Token.IDENT ∧
                Errorf "found %q, expected FROM" "b" =
                  Errorf "found %q, expected table name"
                    (headTok rest.tail selectTwoNames.eof).2))))) :=
  ⟨rfl, (error_statement_contents selectTwoNames).1 { Fields := ["a"], TableName := "" }
    (Errorf "found %q, expected FROM" "b") selectTwoNamesDone rfl⟩

end Sql
